import Mathlib

/-!
Scale: acquisition and adaptive filtering (`src/src/Scale.cpp`, `src/include/Scale.h`)

A shallow embedding of the `Scale` class.

Modelling conventions
* `float` values are `Flt`: an exact rational or the not-a-number element.  The
  infinities are not represented; every operation with a not-a-number operand yields
  not-a-number (comparisons yield false).  In `getWeight` and the functions it calls
  arithmetic on numbers is exact.  Where the last bit of a result matters (the range of
  the filtered output) the statements are about `getWeightF32`, which repeats
  `getWeight` with every float operation rounded to binary32.
* `unsigned long` is a `Nat` with arithmetic taken modulo `2 ^ 32` (the ESP32 target),
  `int` and `long` are `Int`.
* `millis()` is the explicit argument `currentTime`; what the two HX711 drivers answer
  during one call is the argument `hw : Sensors`.
* The function-local `static unsigned long lastReadTime` of `getWeight` is the field
  `lastReadTime` of the state.
* The NVS store behind `Preferences` is `Prefs`, the list of the writes made so far
  (most recent first); a read looks up the most recent write of a key.
* An access outside an array has no defined result: the functions that index the sample
  buffer return `Option`, with `none` for such an access.
-/

namespace Scale2

/-! ## Floats -/

/-- A `float`: not-a-number or an exact rational value. -/
inductive Flt where
  | nan : Flt
  | val (q : ℚ) : Flt
  deriving DecidableEq

namespace Flt

/-- The test `isnan(x)`. -/
def isNaN : Flt → Bool
  | nan => true
  | val _ => false

/-- Float addition `a + b`. -/
def add : Flt → Flt → Flt
  | val a, val b => val (a + b)
  | _, _ => nan

/-- Float subtraction `a - b`. -/
def sub : Flt → Flt → Flt
  | val a, val b => val (a - b)
  | _, _ => nan

/-- Absolute value `abs(x)` on floats. -/
def abs : Flt → Flt
  | val a => val |a|
  | nan => nan

/-- The quotient `x / n` of a float by an `int` (the `int` is converted to `float`).
Division of zero by zero is not-a-number; the only division by zero in the source is
`sum / validSamples` with both zero. -/
def divInt : Flt → Int → Flt
  | val a, n => if n = 0 then nan else val (a / (n : ℚ))
  | nan, _ => nan

/-- The quotient `x / y` of two floats, with the same treatment of a zero divisor. -/
def div : Flt → Flt → Flt
  | val a, val b => if b = 0 then nan else val (a / b)
  | _, _ => nan

/-- The comparison `a > b`; false when an operand is not-a-number. -/
def gt : Flt → Flt → Prop
  | val a, val b => b < a
  | _, _ => False

/-- The comparison `a < b`; false when an operand is not-a-number. -/
def lt (a b : Flt) : Prop := gt b a

/-- The comparison `a >= b`; false when an operand is not-a-number. -/
def ge : Flt → Flt → Prop
  | val a, val b => b ≤ a
  | _, _ => False

/-- The comparison `a <= b`; false when an operand is not-a-number. -/
def le (a b : Flt) : Prop := ge b a

instance decGt : (a b : Flt) → Decidable (gt a b)
  | val a, val b => inferInstanceAs (Decidable (b < a))
  | nan, _ => isFalse (by simp [gt])
  | val _, nan => isFalse (by simp [gt])

instance decLt (a b : Flt) : Decidable (lt a b) := decGt b a

instance decGe : (a b : Flt) → Decidable (ge a b)
  | val a, val b => inferInstanceAs (Decidable (b ≤ a))
  | nan, _ => isFalse (by simp [ge])
  | val _, nan => isFalse (by simp [ge])

instance decLe (a b : Flt) : Decidable (le a b) := decGe b a

end Flt

/-! ## Machine integers -/

/-- The modulus of `unsigned long` arithmetic. -/
abbrev U32 : Nat := 2 ^ 32

/-- The difference `a - b` of two `unsigned long` values. -/
def subU32 (a b : Nat) : Nat := (a % U32 + (U32 - b % U32)) % U32

/-- The product `a * b` of two `unsigned long` values. -/
def mulU32 (a b : Nat) : Nat := (a * b) % U32

/-- The value of a `long` (32 bits, two's complement) holding the integer `x`. -/
def wrapLong (x : Int) : Int := (x + 2 ^ 31) % 2 ^ 32 - 2 ^ 31

/-! ## State -/

/-- Capacity of the sample buffer (`static const int MAX_SAMPLES = 10`). -/
abbrev MAX_SAMPLES : Nat := 10

/-- The filter state (`enum FilterState`). -/
inductive FilterState where
  | STABLE
  | BREWING
  | TRANSITIONING
  deriving DecidableEq, Repr

open FilterState

/-- The data members of `Scale` that the operations below read or write, and the static
`lastReadTime` of `getWeight`.  `flowRateAttached` stands for `flowRatePtr != nullptr`. -/
structure Scale where
  calibrationFactor : Flt
  calibrationFactor1 : Flt
  calibrationFactor2 : Flt
  currentWeight : Flt
  isConnected : Bool
  dualHX711 : Bool
  flowRateAttached : Bool
  readings : Fin MAX_SAMPLES → Flt
  readingIndex : Int
  samplesInitialized : Bool
  previousFilteredWeight : Flt
  lastSuccessfulRead : Nat
  currentFilterState : FilterState
  lastBrewingActivity : Nat
  lastStableWeight : Flt
  brewingThreshold : Flt
  stabilityTimeout : Nat
  medianSamples : Int
  averageSamples : Int
  lastReadTime : Nat
  deriving DecidableEq

/-- What one HX711 driver answers during a call: `is_ready()`, `get_units(1)` and
`get_value(1)`. -/
structure HX711 where
  is_ready : Bool
  get_units : Flt
  get_value : Int

/-- The two drivers `hx7111` and `hx7112`. -/
structure Sensors where
  hx7111 : HX711
  hx7112 : HX711

/-- The members as both constructors initialise them, for the given `dualHX711`. -/
def construct (dual : Bool) (calibrationFactor : Flt) : Scale where
  calibrationFactor := calibrationFactor
  calibrationFactor1 := Flt.val 0
  calibrationFactor2 := Flt.val 0
  currentWeight := Flt.val 0
  isConnected := false
  dualHX711 := dual
  flowRateAttached := false
  readings := fun _ => Flt.val 0
  readingIndex := 0
  samplesInitialized := false
  previousFilteredWeight := Flt.val 0
  lastSuccessfulRead := 0
  currentFilterState := STABLE
  lastBrewingActivity := 0
  lastStableWeight := Flt.val 0
  brewingThreshold := Flt.val (15 / 100)
  stabilityTimeout := 2000
  medianSamples := 3
  averageSamples := 2
  lastReadTime := 0

/-- The constructor `Scale::Scale(dataPin, clockPin, calibrationFactor)`. -/
def constructSingle (calibrationFactor : Flt) : Scale := construct false calibrationFactor

/-- The constructor `Scale::Scale(dataPin1, dataPin2, clockPin, calibrationFactor)`. -/
def constructDual (calibrationFactor : Flt) : Scale := construct true calibrationFactor

/-! ## Sample buffer -/

/-- The element `readings[idx]`, when `idx` is inside the array. -/
def readAt (readings : Fin MAX_SAMPLES → Flt) (idx : Int) : Option Flt :=
  if h : 0 ≤ idx ∧ idx < 10 then some (readings ⟨idx.toNat, by show idx.toNat < 10; omega⟩)
  else none

/-- The assignment `readings[idx] = v`, when `idx` is inside the array. -/
def writeAt (readings : Fin MAX_SAMPLES → Flt) (idx : Int) (v : Flt) :
    Option (Fin MAX_SAMPLES → Flt) :=
  if h : 0 ≤ idx ∧ idx < 10 then
    some (Function.update readings ⟨idx.toNat, by show idx.toNat < 10; omega⟩ v)
  else none

/-- The function `Scale::initializeSamples`. -/
def initializeSamples (s : Scale) (initialValue : Flt) : Scale :=
  { s with readings := fun _ => initialValue, samplesInitialized := true }

/-- The index `(readingIndex - 1 - i + MAX_SAMPLES) % MAX_SAMPLES` of both filters. -/
def recentIndex (readingIndex : Int) (i : Nat) : Int :=
  Int.tmod (readingIndex - 1 - (i : Int) + (MAX_SAMPLES : Int)) (MAX_SAMPLES : Int)

/-- The copy loop of `medianFilter`: the values `readings[idx]` for the `k` loop indices
`i, i + 1, ...`, in that order. -/
def copyRecent (s : Scale) (i : Nat) : Nat → Option (List Flt)
  | 0 => some []
  | k + 1 =>
    match readAt s.readings (recentIndex s.readingIndex i), copyRecent s (i + 1) k with
    | some x, some xs => some (x :: xs)
    | _, _ => none

/-- The body of the inner loop of the bubble sort at index `j`:
`if (temp[j] > temp[j + 1]) swap`. -/
def bubbleStep (temp : List Flt) (j : Nat) : List Flt :=
  match temp[j]?, temp[j + 1]? with
  | some a, some b => if Flt.gt a b then (temp.set j b).set (j + 1) a else temp
  | _, _ => temp

/-- The inner loop for one `i`: `j` runs over `0 .. samples - i - 2`. -/
def bubblePass (temp : List Flt) (samples i : Nat) : List Flt :=
  (List.range (samples - i - 1)).foldl bubbleStep temp

/-- The bubble sort of `medianFilter` on the `samples` elements of `temp`: `i` runs over
`0 .. samples - 2`. -/
def bubbleSort (temp : List Flt) : List Flt :=
  (List.range (temp.length - 1)).foldl (fun t i => bubblePass t temp.length i) temp

/-- The function `Scale::medianFilter`.  The result is `none` when an index leaves
`readings` or `temp`; the latter happens exactly when `samples < 1`. -/
def medianFilter (s : Scale) (samples : Int) : Option Flt :=
  let samples := if samples > (MAX_SAMPLES : Int) then (MAX_SAMPLES : Int) else samples
  match copyRecent s 0 samples.toNat with
  | none => none
  | some temp =>
    if 0 ≤ Int.tdiv samples 2 then (bubbleSort temp)[(Int.tdiv samples 2).toNat]? else none

/-- The loop of `averageFilter`: `sum += readings[idx]; validSamples++` for the `k` loop
indices `i, i + 1, ...`. -/
def sumRecent (s : Scale) (i : Nat) : Nat → Flt → Int → Option (Flt × Int)
  | 0, sum, validSamples => some (sum, validSamples)
  | k + 1, sum, validSamples =>
    match readAt s.readings (recentIndex s.readingIndex i) with
    | none => none
    | some x => sumRecent s (i + 1) k (Flt.add sum x) (validSamples + 1)

/-- The function `Scale::averageFilter`, in exact arithmetic (`averageFilterF32` is the
same function with the sum and the quotient rounded to binary32). -/
def averageFilter (s : Scale) (samples : Int) : Option Flt :=
  let samples := if samples > (MAX_SAMPLES : Int) then (MAX_SAMPLES : Int) else samples
  match sumRecent s 0 samples.toNat (Flt.val 0) 0 with
  | none => none
  | some (sum, validSamples) => some (Flt.divInt sum validSamples)

/-! ## Reading the sensors -/

/-- The function `Scale::readSingleHX711`. -/
def readSingleHX711 (s : Scale) (hw : Sensors) : Flt :=
  if !hw.hx7111.is_ready then s.currentWeight else hw.hx7111.get_units

/-- The function `Scale::readDualHX711` (the periodic debug print is omitted). -/
def readDualHX711 (s : Scale) (hw : Sensors) : Flt :=
  if !hw.hx7111.is_ready || !hw.hx7112.is_ready then s.currentWeight
  else
    let reading1 := hw.hx7111.get_units
    let reading2 := hw.hx7112.get_units
    Flt.add reading1 reading2

/-- The value `rawReading` of `getWeight`. -/
def rawReading (s : Scale) (hw : Sensors) : Flt :=
  if s.dualHX711 then readDualHX711 s hw else readSingleHX711 s hw

/-- The function `Scale::getRawValue`. -/
def getRawValue (s : Scale) (hw : Sensors) : Int :=
  if !s.isConnected then 0
  else if s.dualHX711 then
    let value1 := hw.hx7111.get_value
    let value2 := hw.hx7112.get_value
    wrapLong (value1 + value2)
  else hw.hx7111.get_value

/-! ## `getWeight` -/

/-- The statements `readings[readingIndex] = rawReading;
readingIndex = (readingIndex + 1) % MAX_SAMPLES;`. -/
def storeReading (s : Scale) (raw : Flt) : Option Scale :=
  match writeAt s.readings s.readingIndex raw with
  | none => none
  | some r =>
    some { s with readings := r
                  readingIndex := Int.tmod (s.readingIndex + 1) (MAX_SAMPLES : Int) }

/-- The brewing detection of `getWeight`: the `if / else if` chain over
`currentFilterState`. -/
def detectBrewing (s : Scale) (weightChange : Flt) (currentTime : Nat) : Scale :=
  match s.currentFilterState with
  | STABLE =>
    if Flt.gt weightChange s.brewingThreshold then
      { s with currentFilterState := BREWING, lastBrewingActivity := currentTime }
    else s
  | BREWING =>
    if Flt.gt weightChange s.brewingThreshold then
      { s with lastBrewingActivity := currentTime }
    else if subU32 currentTime s.lastBrewingActivity > s.stabilityTimeout then
      { s with currentFilterState := TRANSITIONING }
    else s
  | TRANSITIONING =>
    if Flt.gt weightChange s.brewingThreshold then
      { s with currentFilterState := BREWING, lastBrewingActivity := currentTime }
    else if subU32 currentTime s.lastBrewingActivity > mulU32 s.stabilityTimeout 2 then
      { s with currentFilterState := STABLE, lastStableWeight := s.currentWeight }
    else s

/-- The `switch (currentFilterState)` that computes `filteredWeight`. -/
def applyFilter (s : Scale) : Option Flt :=
  match s.currentFilterState with
  | BREWING => medianFilter s s.medianSamples
  | STABLE => averageFilter s s.averageSamples
  | TRANSITIONING => averageFilter s s.averageSamples

/-- The end of `getWeight`, from the `> 5 g` test on: `filteredWeight` is the value the
filter produced, `none` when it read outside an array (the override replaces it). -/
def finishRead (s : Scale) (raw weightChange : Flt) (filteredWeight : Option Flt)
    (currentTime : Nat) : Option (Flt × Scale) :=
  if Flt.gt weightChange (Flt.val 5) then
    let s := initializeSamples s raw
    let s :=
      if s.currentFilterState = STABLE then
        { s with currentFilterState := BREWING, lastBrewingActivity := currentTime }
      else s
    some (raw, { s with currentWeight := raw })
  else
    match filteredWeight with
    | none => none
    | some w => some (w, { s with currentWeight := w })

/-- The part of `getWeight` after the sample buffer is known to be initialised. -/
def filterReading (s : Scale) (raw : Flt) (currentTime : Nat) : Option (Flt × Scale) :=
  match storeReading s raw with
  | none => none
  | some s1 =>
    let weightChange := Flt.abs (Flt.sub raw s1.currentWeight)
    let s2 := detectBrewing s1 weightChange currentTime
    finishRead s2 raw weightChange (applyFilter s2) currentTime

/-- The function `Scale::getWeight`: the returned weight and the state afterwards. -/
def getWeight (s : Scale) (hw : Sensors) (currentTime : Nat) : Option (Flt × Scale) :=
  if !s.isConnected then some (Flt.val 0, s)
  else if subU32 currentTime s.lastReadTime < 20 then some (s.currentWeight, s)
  else
    let s := { s with lastReadTime := currentTime }
    let raw := rawReading s hw
    if raw.isNaN then some (s.currentWeight, s)
    else
      let s := { s with lastSuccessfulRead := currentTime }
      if !s.samplesInitialized then
        let s := initializeSamples s raw
        let s := { s with currentWeight := raw, lastStableWeight := raw,
                          currentFilterState := STABLE }
        some (s.currentWeight, s)
      else filterReading s raw currentTime

/-! ## Tare -/

/-- The calls `tare` makes on its collaborators, in program order: `hxTare c n` is
`tare(n)` on driver `c`, `delay ms` is `delay(ms)`, and the last two are the calls on the
flow-rate consumer. -/
inductive Event where
  | hxTare (channel : Nat) (times : Nat)
  | delay (ms : Nat)
  | pauseCalculation
  | resumeCalculation
  deriving DecidableEq, Repr

/-- The function `Scale::tare`: the state afterwards and the calls made. -/
def tare (s : Scale) (times : Nat) : Scale × List Event :=
  if !s.isConnected then (s, [])
  else
    let pause := if s.flowRateAttached then [Event.pauseCalculation] else []
    let zero :=
      if s.dualHX711 then [Event.hxTare 1 times, Event.delay 50, Event.hxTare 2 times]
      else [Event.hxTare 1 times]
    let s := { s with currentFilterState := STABLE
                      lastBrewingActivity := 0
                      currentWeight := Flt.val 0
                      lastStableWeight := Flt.val 0
                      samplesInitialized := false }
    let resume :=
      if s.flowRateAttached then [Event.delay 100, Event.resumeCalculation] else []
    (s, pause ++ zero ++ resume)

/-! ## Tuning parameters and their persistence -/

/-- A value held by the store, tagged with the type of the `put` that wrote it. -/
inductive PVal where
  | float (x : Flt)
  | ulong (n : Nat)
  | int (n : Int)
  deriving DecidableEq

/-- The NVS namespace `"scale"`: every write made so far, most recent first. -/
abbrev Prefs := List (String × PVal)

namespace Prefs

/-- The call `preferences.putFloat(key, value)`. -/
def putFloat (p : Prefs) (key : String) (value : Flt) : Prefs := (key, PVal.float value) :: p

/-- The call `preferences.putULong(key, value)`. -/
def putULong (p : Prefs) (key : String) (value : Nat) : Prefs := (key, PVal.ulong value) :: p

/-- The call `preferences.putInt(key, value)`. -/
def putInt (p : Prefs) (key : String) (value : Int) : Prefs := (key, PVal.int value) :: p

/-- The call `preferences.getFloat(key, defaultValue)`. -/
def getFloat (p : Prefs) (key : String) (defaultValue : Flt) : Flt :=
  match p.lookup key with
  | some (PVal.float x) => x
  | _ => defaultValue

/-- The call `preferences.getULong(key, defaultValue)`. -/
def getULong (p : Prefs) (key : String) (defaultValue : Nat) : Nat :=
  match p.lookup key with
  | some (PVal.ulong n) => n
  | _ => defaultValue

/-- The call `preferences.getInt(key, defaultValue)`. -/
def getInt (p : Prefs) (key : String) (defaultValue : Int) : Int :=
  match p.lookup key with
  | some (PVal.int n) => n
  | _ => defaultValue

end Prefs

/-- The function `Scale::saveFilterSettings`: the store after the four writes. -/
def saveFilterSettings (s : Scale) (p : Prefs) : Prefs :=
  (((p.putFloat "brew_thresh" s.brewingThreshold).putULong "stab_timeout"
    s.stabilityTimeout).putInt "median_samples" s.medianSamples).putInt "avg_samples"
    s.averageSamples

/-- The function `Scale::setBrewingThreshold`. -/
def setBrewingThreshold (s : Scale) (p : Prefs) (threshold : Flt) : Scale × Prefs :=
  if Flt.ge threshold (Flt.val (5 / 100)) ∧ Flt.le threshold (Flt.val 1) then
    let s := { s with brewingThreshold := threshold }
    (s, saveFilterSettings s p)
  else (s, p)

/-- The function `Scale::setStabilityTimeout`. -/
def setStabilityTimeout (s : Scale) (p : Prefs) (timeout : Nat) : Scale × Prefs :=
  if timeout ≥ 500 ∧ timeout ≤ 10000 then
    let s := { s with stabilityTimeout := timeout }
    (s, saveFilterSettings s p)
  else (s, p)

/-- The function `Scale::setMedianSamples`. -/
def setMedianSamples (s : Scale) (p : Prefs) (samples : Int) : Scale × Prefs :=
  if samples ≥ 1 ∧ samples ≤ (MAX_SAMPLES : Int) then
    let s := { s with medianSamples := samples }
    (s, saveFilterSettings s p)
  else (s, p)

/-- The function `Scale::setAverageSamples`. -/
def setAverageSamples (s : Scale) (p : Prefs) (samples : Int) : Scale × Prefs :=
  if samples ≥ 1 ∧ samples ≤ (MAX_SAMPLES : Int) then
    let s := { s with averageSamples := samples }
    (s, saveFilterSettings s p)
  else (s, p)

/-! ## Calibration, start-up and status -/

/-- The comparison `a != b` on floats: true when an operand is not-a-number. -/
def Flt.ne : Flt → Flt → Prop
  | Flt.val a, Flt.val b => a ≠ b
  | _, _ => True

instance Flt.decNe : (a b : Flt) → Decidable (Flt.ne a b)
  | Flt.val a, Flt.val b => inferInstanceAs (Decidable (a ≠ b))
  | Flt.nan, _ => isTrue (by simp [Flt.ne])
  | Flt.val _, Flt.nan => isTrue (by simp [Flt.ne])

/-- The call `preferences.isKey(key)`: the store holds a value under the key. -/
def Prefs.isKey (p : Prefs) (key : String) : Bool := (p.lookup key).isSome

/-- The function `Scale::saveDualCalibration`: the store afterwards. -/
def saveDualCalibration (s : Scale) (p : Prefs) : Prefs :=
  if !s.dualHX711 then p
  else (p.putFloat "calib1" s.calibrationFactor1).putFloat "calib2" s.calibrationFactor2

/-- The function `Scale::loadDualCalibration`. -/
def loadDualCalibration (s : Scale) (p : Prefs) : Scale :=
  if !s.dualHX711 then s
  else
    let s := { s with calibrationFactor1 := p.getFloat "calib1" s.calibrationFactor }
    let s := { s with calibrationFactor2 := p.getFloat "calib2" s.calibrationFactor }
    { s with calibrationFactor :=
        Flt.div (Flt.add s.calibrationFactor1 s.calibrationFactor2) (Flt.val 2) }

/-- The function `Scale::saveCalibration`: the store afterwards. -/
def saveCalibration (s : Scale) (p : Prefs) : Prefs :=
  if s.dualHX711 then
    (p.putFloat "calib1" s.calibrationFactor1).putFloat "calib2" s.calibrationFactor2
  else p.putFloat "calib" s.calibrationFactor

/-- The function `Scale::loadCalibration`. -/
def loadCalibration (s : Scale) (p : Prefs) : Scale :=
  { s with calibrationFactor := p.getFloat "calib" s.calibrationFactor }

/-- The function `Scale::set_scale` (the calls that pass the factors on to the drivers
are not represented: what the drivers answer is an input of every call). -/
def set_scale (s : Scale) (p : Prefs) (factor : Flt) : Scale × Prefs :=
  if Flt.ne s.calibrationFactor factor then
    let s := { s with calibrationFactor := factor }
    let s :=
      if s.dualHX711 then { s with calibrationFactor1 := factor, calibrationFactor2 := factor }
      else s
    (s, saveCalibration s p)
  else (s, p)

/-- The function `Scale::setCalibrationFactors`. -/
def setCalibrationFactors (s : Scale) (p : Prefs) (factor1 factor2 : Flt) : Scale × Prefs :=
  if s.dualHX711 then
    let s := { s with calibrationFactor1 := factor1
                      calibrationFactor2 := factor2
                      calibrationFactor := Flt.div (Flt.add factor1 factor2) (Flt.val 2) }
    (s, saveDualCalibration s p)
  else set_scale s p factor1

/-- The function `Scale::loadFilterSettings`. -/
def loadFilterSettings (s : Scale) (p : Prefs) : Scale :=
  { s with brewingThreshold := p.getFloat "brew_thresh" (Flt.val (15 / 100))
           stabilityTimeout := p.getULong "stab_timeout" 2000
           medianSamples := p.getInt "median_samples" 3
           averageSamples := p.getInt "avg_samples" 2 }

/-- The calibration load at the head of `Scale::begin`. -/
def beginCalibration (s : Scale) (p : Prefs) : Scale :=
  if s.dualHX711 then
    let s := { s with calibrationFactor1 := p.getFloat "calib1" s.calibrationFactor }
    let s := { s with calibrationFactor2 := p.getFloat "calib2" s.calibrationFactor }
    { s with calibrationFactor :=
        Flt.div (Flt.add s.calibrationFactor1 s.calibrationFactor2) (Flt.val 2) }
  else { s with calibrationFactor := p.getFloat "calib" s.calibrationFactor }

/-- The threshold that `Scale::begin` picks from the calibration factor when the store
has no key `brew_thresh`. -/
def autoThreshold (calibrationFactor : Flt) : Flt :=
  if Flt.lt calibrationFactor (Flt.val 1000) then Flt.val (25 / 100)
  else if Flt.lt calibrationFactor (Flt.val 2500) then Flt.val (15 / 100)
  else Flt.val (1 / 10)

/-- The function `Scale::begin`: its result, the state and the store afterwards.  The
connection test of `initializeSingleHX711` / `initializeDualHX711` is represented by its
outcome `tested` (on success it sets `isConnected`), and `now` is the value of `millis()`
after it.  The store is a plain key-value store; the open and close calls are not
represented. -/
def begin (s : Scale) (p : Prefs) (tested : Bool) (now : Nat) : Bool × Scale × Prefs :=
  let s := beginCalibration s p
  let s := loadFilterSettings s p
  let sp : Scale × Prefs :=
    if !p.isKey "brew_thresh" then
      let s := { s with brewingThreshold := autoThreshold s.calibrationFactor }
      (s, saveFilterSettings s p)
    else (s, p)
  if tested then (true, { sp.1 with isConnected := true, lastSuccessfulRead := now }, sp.2)
  else (false, { sp.1 with isConnected := false }, sp.2)

/-- The function `Scale::getHX711Status`, with `now` the value of `millis()`. -/
def getHX711Status (s : Scale) (now : Nat) : String :=
  if !s.isConnected then "DISCONNECTED"
  else
    let isRecentlyActive := subU32 now s.lastSuccessfulRead < 5000
    if s.dualHX711 then
      if isRecentlyActive then "DUAL_BOTH_OK" else "DUAL_BOTH_FAILED"
    else
      if isRecentlyActive then "SINGLE_OK" else "SINGLE_FAILED"

/-- The public operations that change the scale or the store, with their arguments. -/
inductive Operation where
  | begin (tested : Bool) (now : Nat)
  | tare (times : Nat)
  | set_scale (factor : Flt)
  | getWeight (hw : Sensors) (now : Nat)
  | saveCalibration
  | loadCalibration
  | setCalibrationFactors (factor1 factor2 : Flt)
  | saveDualCalibration
  | loadDualCalibration
  | setBrewingThreshold (threshold : Flt)
  | setStabilityTimeout (timeout : Nat)
  | setMedianSamples (samples : Int)
  | setAverageSamples (samples : Int)
  | saveFilterSettings
  | loadFilterSettings

/-- One operation on a scale and its store; `none` when `getWeight` has no result. -/
def Operation.run : Operation → Scale × Prefs → Option (Scale × Prefs)
  | Operation.begin tested now, (s, p) => some (Scale2.begin s p tested now).2
  | Operation.tare times, (s, p) => some ((Scale2.tare s times).1, p)
  | Operation.set_scale factor, (s, p) => some (Scale2.set_scale s p factor)
  | Operation.getWeight hw now, (s, p) =>
    match Scale2.getWeight s hw now with
    | none => none
    | some (_, s1) => some (s1, p)
  | Operation.saveCalibration, (s, p) => some (s, Scale2.saveCalibration s p)
  | Operation.loadCalibration, (s, p) => some (Scale2.loadCalibration s p, p)
  | Operation.setCalibrationFactors factor1 factor2, (s, p) =>
    some (Scale2.setCalibrationFactors s p factor1 factor2)
  | Operation.saveDualCalibration, (s, p) => some (s, Scale2.saveDualCalibration s p)
  | Operation.loadDualCalibration, (s, p) => some (Scale2.loadDualCalibration s p, p)
  | Operation.setBrewingThreshold threshold, (s, p) =>
    some (Scale2.setBrewingThreshold s p threshold)
  | Operation.setStabilityTimeout timeout, (s, p) =>
    some (Scale2.setStabilityTimeout s p timeout)
  | Operation.setMedianSamples samples, (s, p) => some (Scale2.setMedianSamples s p samples)
  | Operation.setAverageSamples samples, (s, p) =>
    some (Scale2.setAverageSamples s p samples)
  | Operation.saveFilterSettings, (s, p) => some (s, Scale2.saveFilterSettings s p)
  | Operation.loadFilterSettings, (s, p) => some (Scale2.loadFilterSettings s p, p)

/-- A sequence of operations, run in order. -/
def runAll : List Operation → Scale × Prefs → Option (Scale × Prefs)
  | [], sp => some sp
  | op :: ops, sp =>
    match op.run sp with
    | none => none
    | some sp1 => runAll ops sp1

/-- The combined factor is the mean of the two channel factors:
`calibrationFactor == (calibrationFactor1 + calibrationFactor2) / 2`, read as "is the
value of" (so that it also holds when the mean is not-a-number). -/
def MeanInv (s : Scale) : Prop :=
  s.calibrationFactor =
    Flt.div (Flt.add s.calibrationFactor1 s.calibrationFactor2) (Flt.val 2)

instance (s : Scale) : Decidable (MeanInv s) :=
  inferInstanceAs (Decidable (s.calibrationFactor =
    Flt.div (Flt.add s.calibrationFactor1 s.calibrationFactor2) (Flt.val 2)))

/-- The members that only the calibration and tuning operations write: the three
calibration factors, the mode and the four tuning parameters. -/
def settings (s : Scale) : Flt × Flt × Flt × Bool × Flt × Nat × Int × Int :=
  (s.calibrationFactor, s.calibrationFactor1, s.calibrationFactor2, s.dualHX711,
    s.brewingThreshold, s.stabilityTimeout, s.medianSamples, s.averageSamples)

/-- A dual scale on which `setCalibrationFactors(1000, 3000)` has been called: the
combined factor is 2000. -/
def dualUnequal : Scale := (setCalibrationFactors (constructDual (Flt.val 1000)) []
  (Flt.val 1000) (Flt.val 3000)).1

/-- The calibration members: the three factors and the mode. -/
def calibration (s : Scale) : Flt × Flt × Flt × Bool :=
  (s.calibrationFactor, s.calibrationFactor1, s.calibrationFactor2, s.dualHX711)

/-! ## Vocabulary of the statements -/

/-- The request is inside the 20 ms window: `currentTime - lastReadTime < 20`. -/
def RateLimited (s : Scale) (currentTime : Nat) : Prop := subU32 currentTime s.lastReadTime < 20

instance (s : Scale) (currentTime : Nat) : Decidable (RateLimited s currentTime) :=
  inferInstanceAs (Decidable (subU32 currentTime s.lastReadTime < 20))

/-- An accepted reading: the scale is connected, the call is not rate limited, the fused
reading is a number and the sample buffer has been initialised. -/
def Accepted (s : Scale) (hw : Sensors) (currentTime : Nat) : Prop :=
  s.isConnected = true ∧ ¬ RateLimited s currentTime ∧ (rawReading s hw).isNaN = false ∧
    s.samplesInitialized = true

/-- The write cursor is inside the sample buffer. -/
def CursorInRange (s : Scale) : Prop := 0 ≤ s.readingIndex ∧ s.readingIndex < 10

/-- The sample buffer is well formed: the write cursor is inside it and every slot holds
a number. -/
def BufferOk (s : Scale) : Prop :=
  CursorInRange s ∧ ∀ i, (s.readings i).isNaN = false

/-- The buffer agrees with `r` everywhere but at index `idx`, where it holds `v`. -/
def IsUpdate (r r' : Fin MAX_SAMPLES → Flt) (idx : Int) (v : Flt) : Prop :=
  ∀ i : Fin MAX_SAMPLES, r' i = if (i.val : Int) = idx then v else r i

/-- The state in which an accepted reading reaches the filter: both time stamps set. -/
def stamped (s : Scale) (currentTime : Nat) : Scale :=
  { s with lastReadTime := currentTime, lastSuccessfulRead := currentTime }

/-- The change `weightChange = abs(rawReading - currentWeight)` of a call. -/
def weightChange (s : Scale) (hw : Sensors) : Flt :=
  Flt.abs (Flt.sub (rawReading s hw) s.currentWeight)

/-- The state of an accepted reading after the transition step of `getWeight`: the
reading is stored and the brewing detection has run; the filter and the override have
not. -/
def transitionState (s : Scale) (hw : Sensors) (currentTime : Nat) : Option Scale :=
  match storeReading (stamped s currentTime) (rawReading s hw) with
  | none => none
  | some s1 => some (detectBrewing s1 (weightChange s hw) currentTime)

/-! ## Concrete scales, sensor answers and runs -/

/-- A connected dual scale straight after construction with calibration factor 1000. -/
def dualStart : Scale := { constructDual (Flt.val 1000) with isConnected := true }

/-- Both channels ready, each reporting 1.0 g (raw 1000 at factor 1000). -/
def dualFirst : Sensors :=
  { hx7111 := { is_ready := true, get_units := Flt.val 1, get_value := 1000 }
    hx7112 := { is_ready := true, get_units := Flt.val 1, get_value := 1000 } }

/-- Both channels ready, reporting 1.0 g and 1.5 g (raw 1000 and 1500 at factor 1000). -/
def dualSecond : Sensors :=
  { hx7111 := { is_ready := true, get_units := Flt.val 1, get_value := 1000 }
    hx7112 := { is_ready := true, get_units := Flt.val (3 / 2), get_value := 1500 } }

/-- The state of `dualStart` after the first reading of the scenario, taken at 100 ms:
the buffer is filled with the fused 2.0 g. -/
def dualAfterFirst : Scale :=
  { dualStart with
    readings := fun _ => Flt.val 2
    samplesInitialized := true
    currentWeight := Flt.val 2
    lastStableWeight := Flt.val 2
    lastReadTime := 100
    lastSuccessfulRead := 100 }

/-- The state `dualAfterFirst` put in filter state TRANSITIONING. -/
def dualTransitioning : Scale := { dualAfterFirst with currentFilterState := TRANSITIONING }

/-- A run of successive calls of `getWeight`, each with what the drivers answer and the
time of the call: the weights returned, in order, and the state at the end. -/
def polls (s : Scale) : List (Sensors × Nat) → Option (List Flt × Scale)
  | [] => some ([], s)
  | (hw, t) :: rest =>
    match getWeight s hw t with
    | none => none
    | some (w, s1) =>
      match polls s1 rest with
      | none => none
      | some (ws, s2) => some (w :: ws, s2)

/-- One call of `getWeight`: the weight returned, the filter state, `currentWeight` and
`lastBrewingActivity` afterwards. -/
def pollOnce (s : Scale) (hw : Sensors) (t : Nat) : Option (Flt × FilterState × Flt × Nat) :=
  match getWeight s hw t with
  | none => none
  | some (w, s1) => some (w, s1.currentFilterState, s1.currentWeight, s1.lastBrewingActivity)

/-- Driver 1 is ready and `get_units(1)` answers `g` grams; driver 2 is not ready. -/
def singleUnits (g : ℚ) : Sensors :=
  { hx7111 := { is_ready := true, get_units := Flt.val g, get_value := 0 }
    hx7112 := { is_ready := false, get_units := Flt.val 0, get_value := 0 } }

/-- Neither driver is ready. -/
def notReady : Sensors :=
  { hx7111 := { is_ready := false, get_units := Flt.val 0, get_value := 0 }
    hx7112 := { is_ready := false, get_units := Flt.val 0, get_value := 0 } }

/-- A connected single scale straight after construction with calibration factor 2000. -/
def singleStart : Scale := { constructSingle (Flt.val 2000) with isConnected := true }

/-- The scale `singleStart` after a first reading of 0 g at 100 ms: state STABLE, the
buffer uniformly 0 g. -/
def stableZero : Scale :=
  { singleStart with samplesInitialized := true, lastReadTime := 100, lastSuccessfulRead := 100 }

/-- The four tuning parameters of a scale. -/
def tuning (s : Scale) : Flt × Nat × Int × Int :=
  (s.brewingThreshold, s.stabilityTimeout, s.medianSamples, s.averageSamples)

/-- The four writes of `saveFilterSettings` for the given parameters, most recent
first. -/
def tuningWrites (brewingThreshold : Flt) (stabilityTimeout : Nat)
    (medianSamples averageSamples : Int) : Prefs :=
  [("avg_samples", PVal.int averageSamples), ("median_samples", PVal.int medianSamples),
   ("stab_timeout", PVal.ulong stabilityTimeout), ("brew_thresh", PVal.float brewingThreshold)]

/-- Driver 1 is ready and `get_units(1)` answers not-a-number. -/
def nanUnits : Sensors :=
  { hx7111 := { is_ready := true, get_units := Flt.nan, get_value := 0 }
    hx7112 := { is_ready := false, get_units := Flt.val 0, get_value := 0 } }

/-- The status reported at time `now` after a run of `getWeight` calls. -/
def statusAfter (s : Scale) (run : List (Sensors × Nat)) (now : Nat) : Option String :=
  match polls s run with
  | none => none
  | some (_, s1) => some (getHX711Status s1 now)

/-- The time stamp `lastSuccessfulRead` after a run of `getWeight` calls. -/
def lastSuccessAfter (s : Scale) (run : List (Sensors × Nat)) : Option Nat :=
  match polls s run with
  | none => none
  | some (_, s1) => some s1.lastSuccessfulRead

/-- The tuning parameters that `loadFilterSettings` reads from a store. -/
def storedTuning (p : Prefs) : Flt × Nat × Int × Int :=
  (p.getFloat "brew_thresh" (Flt.val (15 / 100)), p.getULong "stab_timeout" 2000,
    p.getInt "median_samples" 3, p.getInt "avg_samples" 2)

/-- The bounds of the four tuning parameters. -/
def InBounds (t : Flt × Nat × Int × Int) : Prop :=
  (Flt.ge t.1 (Flt.val (5 / 100)) ∧ Flt.le t.1 (Flt.val 1)) ∧
    (500 ≤ t.2.1 ∧ t.2.1 ≤ 10000) ∧
    (1 ≤ t.2.2.1 ∧ t.2.2.1 ≤ (MAX_SAMPLES : Int)) ∧
    (1 ≤ t.2.2.2 ∧ t.2.2.2 ≤ (MAX_SAMPLES : Int))

instance (t : Flt × Nat × Int × Int) : Decidable (InBounds t) :=
  inferInstanceAs (Decidable (
    (Flt.ge t.1 (Flt.val (5 / 100)) ∧ Flt.le t.1 (Flt.val 1)) ∧
    (500 ≤ t.2.1 ∧ t.2.1 ≤ 10000) ∧
    (1 ≤ t.2.2.1 ∧ t.2.2.1 ≤ (MAX_SAMPLES : Int)) ∧
    (1 ≤ t.2.2.2 ∧ t.2.2.2 ≤ (MAX_SAMPLES : Int))))

/-- The tuning parameters of the scale are within their bounds. -/
def TuningOk (s : Scale) : Prop := InBounds (tuning s)

instance (s : Scale) : Decidable (TuningOk s) := inferInstanceAs (Decidable (InBounds _))

/-- The tuning parameters a load would read from the store are within their bounds:
each tuning key is absent, or holds a value of another type, or holds an in-range
value. -/
def StoreOk (p : Prefs) : Prop := InBounds (storedTuning p)

instance (p : Prefs) : Decidable (StoreOk p) := inferInstanceAs (Decidable (InBounds _))

/-- A store written by an earlier firmware: threshold 5 g and zero average samples. -/
def foreignStore : Prefs :=
  [("brew_thresh", PVal.float (Flt.val 5)), ("avg_samples", PVal.int 0)]

/-- The tuning parameters after a sequence of operations. -/
def tuningAfter (ops : List Operation) (s : Scale) (p : Prefs) :
    Option (Flt × Nat × Int × Int) :=
  match runAll ops (s, p) with
  | none => none
  | some (s1, _) => some (tuning s1)

/-- The operations of the tuning interface: the four setters, `loadFilterSettings` and
`begin`. -/
def Operation.isTuning : Operation → Bool
  | Operation.setBrewingThreshold _ => true
  | Operation.setStabilityTimeout _ => true
  | Operation.setMedianSamples _ => true
  | Operation.setAverageSamples _ => true
  | Operation.loadFilterSettings => true
  | Operation.begin _ _ => true
  | _ => false

/-! ## The filters of the specification -/

/-- The slot of the `i`-th most recent sample of a ring buffer with write cursor
`cursor`: `(cursor - 1 - i + MAX_SAMPLES) % MAX_SAMPLES`. -/
def recentSlot (cursor : Int) (i : Nat) : Fin MAX_SAMPLES :=
  ⟨((cursor - 1 - (i : Int) + 10) % 10).toNat, by show _ < 10; omega⟩

/-- The `n` most recent samples of a ring buffer, most recent first. -/
def recent {α : Type} (buffer : Fin MAX_SAMPLES → α) (cursor : Int) (n : Nat) : List α :=
  (List.range n).map fun i => buffer (recentSlot cursor i)

/-- The median of the specification: the element in the middle of the samples put in
ascending order, at index `length / 2` (for an odd count the true middle element, for an
even count the upper of the two middle elements). -/
def median (samples : List ℚ) : ℚ :=
  (samples.insertionSort (· ≤ ·)).getD (samples.length / 2) 0

/-- A median of a list of numbers in the order-statistic sense: at least half of the
samples are at most `m` and at least half are at least `m`. -/
def IsMedian (m : ℚ) (samples : List ℚ) : Prop :=
  samples.length ≤ 2 * samples.countP (fun x => decide (x ≤ m)) ∧
    samples.length ≤ 2 * samples.countP (fun x => decide (m ≤ x))

/-- The arithmetic mean of the specification. -/
def mean (samples : List ℚ) : ℚ := samples.sum / samples.length

/-- The inner loop of the bubble sort in recursive form: `k` compare-and-swap steps,
starting at the head of the list. -/
def bubbleUp {α : Type} (gt : α → α → Prop) [DecidableRel gt] : Nat → List α → List α
  | k + 1, a :: b :: t =>
    if gt a b then b :: bubbleUp gt k (a :: t) else a :: bubbleUp gt k (b :: t)
  | _, l => l

/-! ## Sample history -/

/-- The `i`-th most recent sample of the buffer of a scale. -/
def history (s : Scale) (i : Nat) : Flt := s.readings (recentSlot s.readingIndex i)

/-- From state `s`, calls of `getWeight` push the readings `rs` (oldest first) and lead to
state `s2`: every pushing call is an accepted reading without the `> 5 g` override; calls
that are rate limited or find not-a-number may come in between. -/
inductive Pushed : Scale → List Flt → Scale → Prop where
  | done (s : Scale) : Pushed s [] s
  | push {s s1 s2 : Scale} {hw : Sensors} {t : Nat} {w : Flt} {rs : List Flt} :
      Accepted s hw t → ¬ Flt.gt (weightChange s hw) (Flt.val 5) →
      getWeight s hw t = some (w, s1) → Pushed s1 rs s2 →
      Pushed s (rawReading s hw :: rs) s2
  | idle {s s1 s2 : Scale} {hw : Sensors} {t : Nat} {w : Flt} {rs : List Flt} :
      s.isConnected = true → RateLimited s t ∨ (rawReading s hw).isNaN = true →
      getWeight s hw t = some (w, s1) → Pushed s1 rs s2 →
      Pushed s rs s2

/-- What the slot of the `i`-th most recent sample holds after the buffer was filled with
`v0` and the readings `rs` (oldest first) were pushed: the reading pushed `i` pushes
before the last one, or `v0` when fewer than `i + 1` readings were pushed. -/
def expectedSample (v0 : Flt) (rs : List Flt) (i : Nat) : Flt :=
  if i < rs.length then rs.getD (rs.length - 1 - i) v0 else v0

/-! ## The single-sensor scenario -/

/-- Modelled from the spec: the conversion `gramsFromRaw` of the calibration store,
`rawCount / calibrationFactor`, which the HX711 driver (not part of the sources) performs
in `get_units`; the tare offset is zero. -/
def gramsFromRaw (rawCount : Int) (calibrationFactor : Flt) : Flt :=
  Flt.div (Flt.val rawCount) calibrationFactor

/-- Driver 1 is ready with raw count `rawCount` at the given calibration factor; driver 2
is not ready. -/
def singleRaw (rawCount : Int) (calibrationFactor : Flt) : Sensors :=
  { hx7111 := { is_ready := true, get_units := gramsFromRaw rawCount calibrationFactor,
                get_value := rawCount }
    hx7112 := { is_ready := false, get_units := Flt.val 0, get_value := 0 } }

/-- A run of successive calls of `getWeight`: the weight returned by each call and the
filter state after it. -/
def trace (s : Scale) : List (Sensors × Nat) → Option (List (Flt × FilterState))
  | [] => some []
  | (hw, t) :: rest =>
    match getWeight s hw t with
    | none => none
    | some (w, s1) =>
      match trace s1 rest with
      | none => none
      | some rs => some ((w, s1.currentFilterState) :: rs)

/-- The result is within 0.02 g of 1.0 g and the state is STABLE. -/
def NearOneAndStable (r : Flt × FilterState) : Prop :=
  Flt.le (Flt.abs (Flt.sub r.1 (Flt.val 1))) (Flt.val (2 / 100)) ∧ r.2 = STABLE

instance (r : Flt × FilterState) : Decidable (NearOneAndStable r) :=
  inferInstanceAs (Decidable
    (Flt.le (Flt.abs (Flt.sub r.1 (Flt.val 1))) (Flt.val (2 / 100)) ∧ r.2 = STABLE))

/-! ## Index safety -/

/-- The first statement of both filters, `if (samples > MAX_SAMPLES) samples = MAX_SAMPLES`:
the value of `samples` from there on. -/
def clampSamples (samples : Int) : Int :=
  if samples > (MAX_SAMPLES : Int) then (MAX_SAMPLES : Int) else samples

/-- A dual scale after one poll through the operation interface. -/
def polledOnce : Option (Scale × Prefs) :=
  runAll [Operation.getWeight dualFirst 100] (dualStart, [])

/-! ## The range of the history -/

/-- The sample buffer after the statement `readings[readingIndex] = rawReading`, as
numbers: slot `cursor` holds the reading `r`, the other slots are those of `q`. -/
def storedBuffer (q : Fin MAX_SAMPLES → ℚ) (cursor : Int) (r : ℚ) : Fin MAX_SAMPLES → ℚ :=
  fun i => if (i.val : Int) = cursor then r else q i

/-- The minimum of the contents of a sample buffer. -/
def bufferMin (q : Fin MAX_SAMPLES → ℚ) : ℚ :=
  ((List.finRange MAX_SAMPLES).map q).foldr min (q ⟨0, by decide⟩)

/-- The maximum of the contents of a sample buffer. -/
def bufferMax (q : Fin MAX_SAMPLES → ℚ) : ℚ :=
  ((List.finRange MAX_SAMPLES).map q).foldr max (q ⟨0, by decide⟩)

/-! ## Float arithmetic with rounding

The target computes on `float` in IEEE 754 binary32 with rounding to nearest, ties to
even.  The definitions of this section repeat the float operations of `getWeight` with
that rounding, for the statements in which the last bit of a result matters.  Results
beyond the largest finite float are not represented. -/

/-- Rounding of a rational to the nearest integer, ties to the even one. -/
def roundHalfEven (y : ℚ) : Int :=
  if y - (⌊y⌋ : ℚ) < 1 / 2 then ⌊y⌋
  else if 1 / 2 < y - (⌊y⌋ : ℚ) then ⌊y⌋ + 1
  else if ⌊y⌋ % 2 = 0 then ⌊y⌋ else ⌊y⌋ + 1

/-- The spacing of the binary32 floats around `x`: `2 ^ (e - 23)` with `e` the binary
exponent of `x`, and `2 ^ (-149)` in the subnormal range (exponent below `-126`). -/
def quantum (x : ℚ) : ℚ := (2 : ℚ) ^ (max (Int.log 2 |x|) (-126) - 23)

/-- The binary32 float nearest to `x` (ties to even). -/
def roundF32 (x : ℚ) : ℚ := (roundHalfEven (x / quantum x) : ℚ) * quantum x

/-- Float addition `a + b`, rounded. -/
def Flt.addF32 : Flt → Flt → Flt
  | Flt.val a, Flt.val b => Flt.val (roundF32 (a + b))
  | _, _ => Flt.nan

/-- Float subtraction `a - b`, rounded. -/
def Flt.subF32 : Flt → Flt → Flt
  | Flt.val a, Flt.val b => Flt.val (roundF32 (a - b))
  | _, _ => Flt.nan

/-- The quotient `x / n` of a float by an `int`: the `int` is converted to the nearest
float and the quotient is rounded.  A zero divisor is treated as in `Flt.divInt`. -/
def Flt.divIntF32 : Flt → Int → Flt
  | Flt.val a, n => if n = 0 then Flt.nan else Flt.val (roundF32 (a / roundF32 (n : ℚ)))
  | Flt.nan, _ => Flt.nan

/-- The loop of `averageFilter` with the rounded `sum += readings[idx]`. -/
def sumRecentF32 (s : Scale) (i : Nat) : Nat → Flt → Int → Option (Flt × Int)
  | 0, sum, validSamples => some (sum, validSamples)
  | k + 1, sum, validSamples =>
    match readAt s.readings (recentIndex s.readingIndex i) with
    | none => none
    | some x => sumRecentF32 s (i + 1) k (Flt.addF32 sum x) (validSamples + 1)

/-- The function `Scale::averageFilter` with rounded float arithmetic. -/
def averageFilterF32 (s : Scale) (samples : Int) : Option Flt :=
  let samples := if samples > (MAX_SAMPLES : Int) then (MAX_SAMPLES : Int) else samples
  match sumRecentF32 s 0 samples.toNat (Flt.val 0) 0 with
  | none => none
  | some (sum, validSamples) => some (Flt.divIntF32 sum validSamples)

/-- The `switch (currentFilterState)` of `getWeight` with the rounded average (the median
filter does no arithmetic). -/
def applyFilterF32 (s : Scale) : Option Flt :=
  match s.currentFilterState with
  | BREWING => medianFilter s s.medianSamples
  | STABLE => averageFilterF32 s s.averageSamples
  | TRANSITIONING => averageFilterF32 s s.averageSamples

/-- The function `Scale::readDualHX711` with the rounded sum `reading1 + reading2`. -/
def readDualHX711F32 (s : Scale) (hw : Sensors) : Flt :=
  if !hw.hx7111.is_ready || !hw.hx7112.is_ready then s.currentWeight
  else
    let reading1 := hw.hx7111.get_units
    let reading2 := hw.hx7112.get_units
    Flt.addF32 reading1 reading2

/-- The value `rawReading` of `getWeight`, with rounded float arithmetic. -/
def rawReadingF32 (s : Scale) (hw : Sensors) : Flt :=
  if s.dualHX711 then readDualHX711F32 s hw else readSingleHX711 s hw

/-- The part of `getWeight` after the sample buffer is known to be initialised, with
rounded float arithmetic: the difference `rawReading - currentWeight` and the average
are rounded. -/
def filterReadingF32 (s : Scale) (raw : Flt) (currentTime : Nat) : Option (Flt × Scale) :=
  match storeReading s raw with
  | none => none
  | some s1 =>
    let weightChange := Flt.abs (Flt.subF32 raw s1.currentWeight)
    let s2 := detectBrewing s1 weightChange currentTime
    finishRead s2 raw weightChange (applyFilterF32 s2) currentTime

/-- The function `Scale::getWeight` with rounded float arithmetic. -/
def getWeightF32 (s : Scale) (hw : Sensors) (currentTime : Nat) : Option (Flt × Scale) :=
  if !s.isConnected then some (Flt.val 0, s)
  else if subU32 currentTime s.lastReadTime < 20 then some (s.currentWeight, s)
  else
    let s := { s with lastReadTime := currentTime }
    let raw := rawReadingF32 s hw
    if raw.isNaN then some (s.currentWeight, s)
    else
      let s := { s with lastSuccessfulRead := currentTime }
      if !s.samplesInitialized then
        let s := initializeSamples s raw
        let s := { s with currentWeight := raw, lastStableWeight := raw,
                          currentFilterState := STABLE }
        some (s.currentWeight, s)
      else filterReadingF32 s raw currentTime

/-- An accepted reading of `getWeightF32`: as `Accepted`, for the rounded reading. -/
def AcceptedF32 (s : Scale) (hw : Sensors) (currentTime : Nat) : Prop :=
  s.isConnected = true ∧ ¬ RateLimited s currentTime ∧ (rawReadingF32 s hw).isNaN = false ∧
    s.samplesInitialized = true

/-- The change `weightChange = abs(rawReading - currentWeight)` of a call, rounded. -/
def weightChangeF32 (s : Scale) (hw : Sensors) : Flt :=
  Flt.abs (Flt.subF32 (rawReadingF32 s hw) s.currentWeight)

/-- The float sum of the samples, accumulated in order from `sum`: each
`sum += x` is rounded. -/
def sumF32 (samples : List ℚ) (sum : ℚ) : ℚ :=
  samples.foldl (fun acc x => roundF32 (acc + x)) sum

/-- The float mean as `averageFilter` computes it: the accumulated float sum divided by
the count converted to float, rounded. -/
def meanF32 (samples : List ℚ) : ℚ :=
  roundF32 (sumF32 samples 0 / roundF32 (samples.length : ℚ))

/-- The float `0.11f`. -/
def eleven : ℚ := 7381975 / 67108864

/-- A connected single scale with `averageSamples` set to 3 by its setter. -/
def tripleStart : Scale := (setAverageSamples singleStart [] 3).1

/-- The scale `tripleStart` after a first reading of `0.11f` at 100 ms. -/
def tripleFirst : Option (Flt × Scale) := getWeightF32 tripleStart (singleUnits eleven) 100

/-- The second reading of `0.11f`, at 200 ms. -/
def tripleSecond : Option (Flt × Scale) :=
  match tripleFirst with
  | none => none
  | some (_, s1) => getWeightF32 s1 (singleUnits eleven) 200

/-- The rounding slack of the float mean of up to `MAX_SAMPLES` samples of magnitude at
most `bound`: `(MAX_SAMPLES + 2)` times `2^-24 * bound + 2^-150`. -/
def roundingSlack (bound : ℚ) : ℚ := 12 * (1 / 2 ^ 24 * bound + 1 / 2 ^ 150)

/-- What a call left behind: the weight returned, the filter state and the contents of
the sample buffer, slot by slot. -/
def outcome (r : Option (Flt × Scale)) : Option (Flt × FilterState × List Flt) :=
  r.map fun x => (x.1, x.2.currentFilterState, (List.finRange MAX_SAMPLES).map x.2.readings)

/-- The state of an accepted reading after the transition step of `getWeightF32`: the
reading is stored and the brewing detection has run. -/
def transitionStateF32 (s : Scale) (hw : Sensors) (currentTime : Nat) : Option Scale :=
  match storeReading (stamped s currentTime) (rawReadingF32 s hw) with
  | none => none
  | some s1 => some (detectBrewing s1 (weightChangeF32 s hw) currentTime)

/-- The scale `tripleStart` after the first reading of `0.11f` at 100 ms: state STABLE,
the buffer uniformly `0.11f`. -/
def tripleFilled : Scale :=
  { tripleStart with samplesInitialized := true, lastReadTime := 100, lastSuccessfulRead := 100
                     readings := fun _ => Flt.val eleven
                     currentWeight := Flt.val eleven, lastStableWeight := Flt.val eleven }

/-! ## The transition rules of the specification -/

/-- The transition rules of the filter selector, one per line of the rule table: from
each state, what happens with activity (`delta > brewingThreshold`) and without. -/
inductive Rule where
  | stableToBrewing
  | stableStay
  | brewingRefresh
  | brewingToTransitioning
  | brewingStay
  | transitioningToBrewing
  | transitioningToStable
  | transitioningStay
  deriving DecidableEq, Repr

namespace Rule

/-- The state a rule leaves. -/
def source : Rule → FilterState
  | stableToBrewing => STABLE
  | stableStay => STABLE
  | brewingRefresh => BREWING
  | brewingToTransitioning => BREWING
  | brewingStay => BREWING
  | transitioningToBrewing => TRANSITIONING
  | transitioningToStable => TRANSITIONING
  | transitioningStay => TRANSITIONING

/-- The state a rule enters. -/
def target : Rule → FilterState
  | stableToBrewing => BREWING
  | stableStay => STABLE
  | brewingRefresh => BREWING
  | brewingToTransitioning => TRANSITIONING
  | brewingStay => BREWING
  | transitioningToBrewing => BREWING
  | transitioningToStable => STABLE
  | transitioningStay => TRANSITIONING

/-- The condition of a rule on the weight change, the threshold, the time since the last
activity and the timeout.  The doubled timeout is the `unsigned long` product, which is
`2 * timeout` for every `timeout < 2 ^ 31`. -/
def guard (delta threshold : Flt) (elapsed timeout : Nat) : Rule → Prop
  | stableToBrewing => Flt.gt delta threshold
  | stableStay => ¬ Flt.gt delta threshold
  | brewingRefresh => Flt.gt delta threshold
  | brewingToTransitioning => ¬ Flt.gt delta threshold ∧ elapsed > timeout
  | brewingStay => ¬ Flt.gt delta threshold ∧ ¬ elapsed > timeout
  | transitioningToBrewing => Flt.gt delta threshold
  | transitioningToStable => ¬ Flt.gt delta threshold ∧ elapsed > mulU32 timeout 2
  | transitioningStay => ¬ Flt.gt delta threshold ∧ ¬ elapsed > mulU32 timeout 2

/-- A rule applies in a state when it leaves that state and its condition holds. -/
def applies (r : Rule) (state : FilterState) (delta threshold : Flt)
    (elapsed timeout : Nat) : Prop :=
  r.source = state ∧ r.guard delta threshold elapsed timeout

end Rule

/-! # Theorems -/

namespace Flt

@[simp] theorem gt_val (a b : ℚ) : gt (val a) (val b) ↔ b < a := Iff.rfl
@[simp] theorem gt_nan_left (b : Flt) : ¬ gt nan b := by simp [gt]
@[simp] theorem gt_nan_right (a : Flt) : ¬ gt a nan := by cases a <;> simp [gt]
@[simp] theorem ge_val (a b : ℚ) : ge (val a) (val b) ↔ b ≤ a := Iff.rfl
@[simp] theorem ge_nan_left (b : Flt) : ¬ ge nan b := by simp [ge]
@[simp] theorem ge_nan_right (a : Flt) : ¬ ge a nan := by cases a <;> simp [ge]
@[simp] theorem le_val (a b : ℚ) : le (val a) (val b) ↔ a ≤ b := Iff.rfl
@[simp] theorem le_nan_left (b : Flt) : ¬ le nan b := by simp [le]
@[simp] theorem le_nan_right (a : Flt) : ¬ le a nan := by simp [le]
@[simp] theorem add_val (a b : ℚ) : add (val a) (val b) = val (a + b) := rfl
@[simp] theorem sub_val (a b : ℚ) : sub (val a) (val b) = val (a - b) := rfl
@[simp] theorem abs_val (a : ℚ) : abs (val a) = val |a| := rfl
theorem divInt_val (a : ℚ) (n : Int) :
    divInt (val a) n = if n = 0 then nan else val (a / (n : ℚ)) := rfl
@[simp] theorem isNaN_val (a : ℚ) : isNaN (val a) = false := rfl
@[simp] theorem isNaN_nan : isNaN nan = true := rfl

theorem isNaN_eq_false {x : Flt} : x.isNaN = false ↔ ∃ q, x = val q := by
  cases x <;> simp [isNaN]

end Flt

/-! ## Machine arithmetic -/

theorem subU32_of_le (a b : Nat) (hba : b ≤ a) (ha : a < 2 ^ 32) : subU32 a b = a - b := by
  unfold subU32 U32
  omega

theorem mulU32_two (t : Nat) (ht : t < 2 ^ 31) : mulU32 t 2 = 2 * t := by
  unfold mulU32 U32
  omega

/-! ## The stages of `getWeight` -/

theorem rawReading_stamped (s : Scale) (hw : Sensors) (t : Nat) :
    rawReading (stamped s t) hw = rawReading s hw := rfl

theorem storeReading_of_inRange (s : Scale) (raw : Flt) (h : CursorInRange s) :
    ∃ s1, storeReading s raw = some s1 ∧
      IsUpdate s.readings s1.readings s.readingIndex raw ∧
      s1.readingIndex = Int.tmod (s.readingIndex + 1) 10 ∧
      s1.currentFilterState = s.currentFilterState ∧
      s1.brewingThreshold = s.brewingThreshold ∧
      s1.lastBrewingActivity = s.lastBrewingActivity ∧
      s1.stabilityTimeout = s.stabilityTimeout ∧
      s1.currentWeight = s.currentWeight ∧
      s1.medianSamples = s.medianSamples ∧
      s1.averageSamples = s.averageSamples := by
  unfold CursorInRange at h
  refine ⟨{ s with readings := Function.update s.readings
                      ⟨s.readingIndex.toNat, by show _ < 10; omega⟩ raw
                   readingIndex := Int.tmod (s.readingIndex + 1) 10 }, ?_, ?_, rfl, rfl, rfl,
    rfl, rfl, rfl, rfl, rfl⟩
  · simp [storeReading, writeAt, h]
  · intro i
    dsimp only
    rw [Function.update_apply]
    have : (i = (⟨s.readingIndex.toNat, by show _ < 10; omega⟩ : Fin MAX_SAMPLES)) ↔
        ((i.val : Int) = s.readingIndex) := by
      rw [Fin.ext_iff]
      show i.val = s.readingIndex.toNat ↔ _
      omega
    simp only [this]

theorem storeReading_frame (s s1 : Scale) (raw : Flt) (h : storeReading s raw = some s1) :
    s1.isConnected = s.isConnected ∧ s1.lastReadTime = s.lastReadTime ∧
      s1.lastSuccessfulRead = s.lastSuccessfulRead := by
  unfold storeReading at h
  split at h
  · exact absurd h (by simp)
  · cases h
    exact ⟨rfl, rfl, rfl⟩

theorem getWeight_not_connected (s : Scale) (hw : Sensors) (t : Nat)
    (h : s.isConnected = false) : getWeight s hw t = some (Flt.val 0, s) := by
  unfold getWeight
  rw [if_pos (by simp [h])]

theorem getWeight_rateLimited (s : Scale) (hw : Sensors) (t : Nat)
    (hc : s.isConnected = true) (h : RateLimited s t) :
    getWeight s hw t = some (s.currentWeight, s) := by
  unfold RateLimited at h
  unfold getWeight
  rw [if_neg (by simp [hc]), if_pos h]

/-- An accepted reading goes through the filter part of `getWeight`. -/
theorem getWeight_accepted (s : Scale) (hw : Sensors) (now : Nat) (h : Accepted s hw now) :
    getWeight s hw now = filterReading (stamped s now) (rawReading s hw) now := by
  obtain ⟨hc, hr, hn, hi⟩ := h
  unfold RateLimited at hr
  have h1 : ¬ ((!s.isConnected) = true) := by simp [hc]
  have h2 : ¬ ((!s.samplesInitialized) = true) := by simp [hi]
  unfold getWeight
  rw [if_neg h1, if_neg hr]
  dsimp only
  rw [if_neg (by rw [Bool.not_eq_true]; exact hn), if_neg h2]
  rfl

/-- The filter part is the transition step followed by the filter and the override. -/
theorem filterReading_stamped (s : Scale) (hw : Sensors) (now : Nat) :
    filterReading (stamped s now) (rawReading s hw) now =
      match transitionState s hw now with
      | none => none
      | some s2 =>
        finishRead s2 (rawReading s hw) (weightChange s hw) (applyFilter s2) now := by
  unfold filterReading transitionState
  cases hst : storeReading (stamped s now) (rawReading s hw) with
  | none => rfl
  | some s1 =>
    have hcw : s1.currentWeight = s.currentWeight := by
      unfold storeReading at hst
      split at hst
      · exact absurd hst (by simp)
      · cases hst; rfl
    simp [weightChange, hcw]

/-- The transition step of an accepted reading with the cursor inside the buffer: it is
the brewing detection run on a state `s1` that agrees with `s` on what the detection
reads. -/
theorem transitionState_of_inRange (s : Scale) (hw : Sensors) (now : Nat)
    (h : CursorInRange s) :
    ∃ s1, transitionState s hw now = some (detectBrewing s1 (weightChange s hw) now) ∧
      s1.currentFilterState = s.currentFilterState ∧
      s1.brewingThreshold = s.brewingThreshold ∧
      s1.lastBrewingActivity = s.lastBrewingActivity ∧
      s1.stabilityTimeout = s.stabilityTimeout := by
  obtain ⟨s1, hst, -, -, h1, h2, h3, h4, -⟩ :=
    storeReading_of_inRange (stamped s now) (rawReading s hw) h
  refine ⟨s1, ?_, h1, h2, h3, h4⟩
  unfold transitionState
  rw [hst]

/-- What the brewing detection leaves alone. -/
theorem detectBrewing_frame (s : Scale) (d : Flt) (t : Nat) :
    (detectBrewing s d t).isConnected = s.isConnected ∧
    (detectBrewing s d t).lastReadTime = s.lastReadTime ∧
    (detectBrewing s d t).lastSuccessfulRead = s.lastSuccessfulRead ∧
    (detectBrewing s d t).readings = s.readings ∧
    (detectBrewing s d t).readingIndex = s.readingIndex ∧
    (detectBrewing s d t).currentWeight = s.currentWeight ∧
    (detectBrewing s d t).medianSamples = s.medianSamples ∧
    (detectBrewing s d t).averageSamples = s.averageSamples ∧
    (detectBrewing s d t).dualHX711 = s.dualHX711 := by
  unfold detectBrewing
  split
  · split <;> simp
  · split
    · simp
    · split <;> simp
  · split
    · simp
    · split <;> simp

/-- The override: when the change exceeds 5 g the call returns the reading itself,
whatever the filter produced. -/
theorem finishRead_override (s2 : Scale) (raw d : Flt) (fw : Option Flt) (now : Nat)
    (h : Flt.gt d (Flt.val 5)) :
    ∃ s3, finishRead s2 raw d fw now = some (raw, s3) ∧
      (∀ i, s3.readings i = raw) ∧ s3.currentWeight = raw ∧
      s3.samplesInitialized = true ∧
      s3.currentFilterState =
        (if s2.currentFilterState = STABLE then BREWING else s2.currentFilterState) ∧
      s3.lastBrewingActivity =
        (if s2.currentFilterState = STABLE then now else s2.lastBrewingActivity) ∧
      s3.isConnected = s2.isConnected ∧ s3.lastReadTime = s2.lastReadTime := by
  unfold finishRead
  rw [if_pos h]
  dsimp only [initializeSamples]
  by_cases hs : s2.currentFilterState = STABLE
  · rw [if_pos hs]
    exact ⟨_, rfl, fun _ => rfl, rfl, rfl, by simp [hs], by simp [hs], rfl, rfl⟩
  · rw [if_neg hs]
    exact ⟨_, rfl, fun _ => rfl, rfl, rfl, by simp [hs], by simp [hs], rfl, rfl⟩

theorem finishRead_filtered (s2 : Scale) (raw d w : Flt) (now : Nat)
    (h : ¬ Flt.gt d (Flt.val 5)) :
    finishRead s2 raw d (some w) now = some (w, { s2 with currentWeight := w }) := by
  unfold finishRead
  rw [if_neg h]

theorem finishRead_post (s2 s3 : Scale) (raw d w : Flt) (fw : Option Flt) (now : Nat)
    (h : finishRead s2 raw d fw now = some (w, s3)) :
    s3.isConnected = s2.isConnected ∧ s3.lastReadTime = s2.lastReadTime ∧
      s3.currentWeight = w := by
  by_cases hgt : Flt.gt d (Flt.val 5)
  · obtain ⟨s3', hfin, -, hcw, -, -, -, hc, hl⟩ := finishRead_override s2 raw d fw now hgt
    rw [hfin] at h
    cases h
    exact ⟨hc, hl, hcw⟩
  · unfold finishRead at h
    rw [if_neg hgt] at h
    cases fw with
    | none => exact absurd h (by simp)
    | some v =>
      cases h
      exact ⟨rfl, rfl, rfl⟩

/-- After a call that took a reading, the scale is connected, `lastReadTime` is the time
of the call and `currentWeight` is the value returned. -/
theorem getWeight_fresh_post (s s1 : Scale) (hw : Sensors) (t : Nat) (w : Flt)
    (hc : s.isConnected = true) (hr : ¬ RateLimited s t)
    (h : getWeight s hw t = some (w, s1)) :
    s1.isConnected = true ∧ s1.lastReadTime = t ∧ s1.currentWeight = w := by
  unfold RateLimited at hr
  unfold getWeight at h
  rw [if_neg (by simp [hc]), if_neg hr] at h
  dsimp only at h
  split at h
  · cases h
    exact ⟨hc, rfl, rfl⟩
  · split at h
    · cases h
      exact ⟨hc, rfl, rfl⟩
    · unfold filterReading at h
      split at h
      · exact absurd h (by simp)
      · rename_i s1' hst
        obtain ⟨hc1, hl1, -⟩ := storeReading_frame _ _ _ hst
        obtain ⟨hc3, hl3, hw3⟩ := finishRead_post _ _ _ _ _ _ _ h
        obtain ⟨hc2, hl2, -⟩ := detectBrewing_frame s1'
          (Flt.abs (Flt.sub (rawReading { s with lastReadTime := t } hw) s1'.currentWeight)) t
        exact ⟨by rw [hc3, hc2, hc1]; exact hc, by rw [hl3, hl2, hl1], hw3⟩

/-! ## The bubble sort of `medianFilter` -/

theorem bubbleStep_cons_succ (x : Flt) (l : List Flt) (j : Nat) :
    bubbleStep (x :: l) (j + 1) = x :: bubbleStep l j := by
  unfold bubbleStep
  simp only [List.getElem?_cons_succ]
  cases l[j]? with
  | none => rfl
  | some a =>
    cases l[j + 1]? with
    | none => rfl
    | some b =>
      dsimp only
      split <;> simp [List.set_cons_succ]

theorem bubbleStep_zero (a b : Flt) (l : List Flt) :
    bubbleStep (a :: b :: l) 0 = if Flt.gt a b then b :: a :: l else a :: b :: l := by
  simp [bubbleStep]

theorem bubbleUp_succ_eq_step (k : Nat) (l : List Flt) :
    bubbleUp Flt.gt (k + 1) l = bubbleStep (bubbleUp Flt.gt k l) k := by
  induction k generalizing l with
  | zero =>
    match l with
    | [] => simp [bubbleUp, bubbleStep]
    | [a] => simp [bubbleUp, bubbleStep]
    | a :: b :: t =>
      rw [show bubbleUp Flt.gt 0 (a :: b :: t) = a :: b :: t by simp [bubbleUp], bubbleStep_zero]
      simp [bubbleUp]
  | succ k ih =>
    match l with
    | [] => simp [bubbleUp, bubbleStep]
    | [a] => simp [bubbleUp, bubbleStep]
    | a :: b :: t =>
      rw [bubbleUp]
      by_cases h : Flt.gt a b
      · rw [if_pos h, ih, show bubbleUp Flt.gt (k + 1) (a :: b :: t) =
          b :: bubbleUp Flt.gt k (a :: t) by rw [bubbleUp, if_pos h], bubbleStep_cons_succ]
      · rw [if_neg h, ih, show bubbleUp Flt.gt (k + 1) (a :: b :: t) =
          a :: bubbleUp Flt.gt k (b :: t) by rw [bubbleUp, if_neg h], bubbleStep_cons_succ]

/-- The inner loop is `bubbleUp`. -/
theorem foldl_bubbleStep (k : Nat) (l : List Flt) :
    (List.range k).foldl bubbleStep l = bubbleUp Flt.gt k l := by
  induction k with
  | zero => simp [bubbleUp]
  | succ k ih =>
    rw [List.range_succ, List.foldl_append, ih, bubbleUp_succ_eq_step]
    rfl

/-- On numbers the loop over floats is the loop over rationals. -/
theorem bubbleUp_map_val (k : Nat) (l : List ℚ) :
    bubbleUp Flt.gt k (l.map Flt.val) = (bubbleUp (fun a b : ℚ => b < a) k l).map Flt.val := by
  induction k generalizing l with
  | zero => simp [bubbleUp]
  | succ k ih =>
    match l with
    | [] => simp [bubbleUp]
    | [a] => simp [bubbleUp]
    | a :: b :: t =>
      simp only [List.map_cons, bubbleUp, Flt.gt_val]
      split
      · rw [← List.map_cons, ih]
        simp
      · rw [← List.map_cons, ih]
        simp

theorem bubbleUp_append {α : Type} (gt : α → α → Prop) [DecidableRel gt] (k : Nat)
    (l r : List α) (h : k + 1 ≤ l.length) :
    bubbleUp gt k (l ++ r) = bubbleUp gt k l ++ r := by
  induction k generalizing l with
  | zero => simp [bubbleUp]
  | succ k ih =>
    match l, h with
    | a :: b :: t, h =>
      have ha := ih (a :: t) (by simpa using h)
      have hb := ih (b :: t) (by simpa using h)
      rw [List.cons_append] at ha hb
      by_cases hgt : gt a b
      · rw [List.cons_append, List.cons_append, bubbleUp, if_pos hgt, ha, bubbleUp, if_pos hgt]
        rfl
      · rw [List.cons_append, List.cons_append, bubbleUp, if_neg hgt, hb, bubbleUp, if_neg hgt]
        rfl

/-- One pass over `k + 1` numbers moves a largest one to the end. -/
theorem bubbleUp_max (k : Nat) (l : List ℚ) (h : l.length = k + 1) :
    ∃ init m, bubbleUp (fun a b : ℚ => b < a) k l = init ++ [m] ∧
      (init ++ [m]).Perm l ∧ ∀ x ∈ init, x ≤ m := by
  induction k generalizing l with
  | zero =>
    match l, h with
    | [a], _ => exact ⟨[], a, by simp [bubbleUp], List.Perm.refl _, by simp⟩
  | succ k ih =>
    match l, h with
    | a :: b :: t, h =>
      have hlen : ∀ y : ℚ, (y :: t).length = k + 1 := fun y => by simpa using h
      by_cases hab : b < a
      · obtain ⟨init, m, heq, hperm, hle⟩ := ih (a :: t) (hlen a)
        refine ⟨b :: init, m, ?_, ?_, ?_⟩
        · simp only [bubbleUp, if_pos hab, heq, List.cons_append]
        · exact ((hperm.cons b).trans (List.Perm.swap a b t))
        · have ham : a ≤ m := by
            have : a ∈ init ++ [m] := hperm.mem_iff.mpr (List.mem_cons_self a t)
            rcases List.mem_append.mp this with h1 | h1
            · exact hle a h1
            · simp at h1
              exact le_of_eq h1
          intro x hx
          rcases List.mem_cons.mp hx with h1 | h1
          · rw [h1]
            exact le_trans (le_of_lt hab) ham
          · exact hle x h1
      · obtain ⟨init, m, heq, hperm, hle⟩ := ih (b :: t) (hlen b)
        refine ⟨a :: init, m, ?_, ?_, ?_⟩
        · simp only [bubbleUp, if_neg hab, heq, List.cons_append]
        · exact hperm.cons a
        · have hbm : b ≤ m := by
            have : b ∈ init ++ [m] := hperm.mem_iff.mpr (List.mem_cons_self b t)
            rcases List.mem_append.mp this with h1 | h1
            · exact hle b h1
            · simp at h1
              exact le_of_eq h1
          intro x hx
          rcases List.mem_cons.mp hx with h1 | h1
          · rw [h1]
            exact le_trans (not_lt.mp hab) hbm
          · exact hle x h1

theorem bubblePass_eq (temp : List Flt) (samples i : Nat) :
    bubblePass temp samples i = bubbleUp Flt.gt (samples - i - 1) temp := by
  unfold bubblePass
  exact foldl_bubbleStep _ _

/-- After `i` rounds of the outer loop the last `i` numbers are in ascending order and
none of the others exceeds any of them. -/
theorem outer_invariant (qs : List ℚ) (i : Nat) (hi : i + 1 ≤ qs.length) :
    ∃ pre suf : List ℚ,
      (List.range i).foldl (fun t j => bubblePass t qs.length j) (qs.map Flt.val) =
        (pre ++ suf).map Flt.val ∧
      suf.length = i ∧ suf.Sorted (· ≤ ·) ∧ (∀ x ∈ pre, ∀ y ∈ suf, x ≤ y) ∧
      (pre ++ suf).Perm qs := by
  induction i with
  | zero =>
    exact ⟨qs, [], by simp, rfl, List.sorted_nil, by simp, by simp⟩
  | succ i ih =>
    obtain ⟨pre, suf, heq, hlen, hsorted, hle, hperm⟩ := ih (by omega)
    have hpre : pre.length = (qs.length - i - 1) + 1 := by
      have := hperm.length_eq
      rw [List.length_append] at this
      omega
    obtain ⟨init, m, hbub, hp, hmax⟩ := bubbleUp_max (qs.length - i - 1) pre hpre
    have hm : m ∈ pre := hp.mem_iff.mp (by simp)
    have hinit : ∀ x ∈ init, x ∈ pre := fun x hx => hp.mem_iff.mp (by simp [hx])
    refine ⟨init, m :: suf, ?_, by simp [hlen], ?_, ?_, ?_⟩
    · rw [List.range_succ, List.foldl_append, heq]
      simp only [List.foldl_cons, List.foldl_nil]
      rw [bubblePass_eq, bubbleUp_map_val, bubbleUp_append _ _ _ _ (by omega), hbub]
      simp
    · exact List.sorted_cons.mpr ⟨fun y hy => hle m hm y hy, hsorted⟩
    · intro x hx y hy
      rcases List.mem_cons.mp hy with h1 | h1
      · rw [h1]
        exact hmax x hx
      · exact hle x (hinit x hx) y h1
    · have : (init ++ m :: suf) = (init ++ [m]) ++ suf := by simp
      rw [this]
      exact (hp.append_right suf).trans hperm

/-- On numbers the bubble sort of `medianFilter` produces the ascending ordering. -/
theorem bubbleSort_map_val (qs : List ℚ) :
    bubbleSort (qs.map Flt.val) = (qs.insertionSort (· ≤ ·)).map Flt.val := by
  unfold bubbleSort
  rw [List.length_map]
  match qs with
  | [] => simp
  | a :: t =>
    obtain ⟨pre, suf, heq, hlen, hsorted, hle, hperm⟩ :=
      outer_invariant (a :: t) ((a :: t).length - 1) (by simp)
    rw [heq]
    congr 1
    have hpre : pre.length = 1 := by
      have := hperm.length_eq
      rw [List.length_append] at this
      simp at this hlen
      omega
    match pre, hpre with
    | [p], _ =>
      have hs : ([p] ++ suf).Sorted (· ≤ ·) :=
        List.sorted_cons.mpr ⟨fun y hy => hle p (by simp) y hy, hsorted⟩
      exact List.eq_of_perm_of_sorted
        (hperm.trans (List.perm_insertionSort (· ≤ ·) (a :: t)).symm) hs
        (List.sorted_insertionSort (· ≤ ·) (a :: t))

theorem length_bubbleStep (temp : List Flt) (j : Nat) :
    (bubbleStep temp j).length = temp.length := by
  unfold bubbleStep
  split
  · split <;> simp
  · rfl

theorem length_foldl_of_preserving {β : Type} (f : List Flt → β → List Flt)
    (hf : ∀ t b, (f t b).length = t.length) (l : List β) (temp : List Flt) :
    (l.foldl f temp).length = temp.length := by
  induction l generalizing temp with
  | nil => rfl
  | cons b l ih => rw [List.foldl_cons, ih, hf]

theorem length_bubbleSort (temp : List Flt) : (bubbleSort temp).length = temp.length := by
  unfold bubbleSort
  apply length_foldl_of_preserving
  intro t i
  unfold bubblePass
  exact length_foldl_of_preserving bubbleStep length_bubbleStep _ t

/-- The element at index `length / 2` of the ascending ordering is one of the samples and
is a median of them. -/
theorem median_isMedian (l : List ℚ) (h : l ≠ []) : median l ∈ l ∧ IsMedian (median l) l := by
  have hperm := List.perm_insertionSort (· ≤ ·) l
  have hsorted := List.sorted_insertionSort (· ≤ ·) l
  have hlen : (l.insertionSort (· ≤ ·)).length = l.length := List.length_insertionSort _ l
  have hpos : 0 < l.length := List.length_pos.mpr h
  have hk : l.length / 2 < (l.insertionSort (· ≤ ·)).length := by omega
  have hm : median l = (l.insertionSort (· ≤ ·))[l.length / 2] := by
    unfold median
    exact List.getD_eq_getElem _ _ hk
  generalize l.insertionSort (· ≤ ·) = L at hperm hsorted hlen hk hm
  have hsplit : L = L.take (l.length / 2) ++ median l :: L.drop (l.length / 2 + 1) := by
    rw [hm, List.getElem_cons_drop, List.take_append_drop]
  have htake : (L.take (l.length / 2)).length = l.length / 2 := by
    rw [List.length_take]
    omega
  have hdrop : (L.drop (l.length / 2 + 1)).length = l.length - (l.length / 2 + 1) := by
    rw [List.length_drop, hlen]
  rw [hsplit] at hsorted
  obtain ⟨-, hright, hcross⟩ := List.pairwise_append.mp hsorted
  have hge : ∀ b ∈ L.drop (l.length / 2 + 1), median l ≤ b := (List.sorted_cons.mp hright).1
  have hle : ∀ a ∈ L.take (l.length / 2), a ≤ median l := fun a ha =>
    hcross a ha (median l) (List.mem_cons_self _ _)
  refine ⟨hperm.mem_iff.mp (by rw [hm]; exact List.getElem_mem hk), ?_, ?_⟩
  · rw [← hperm.countP_eq, hsplit, List.countP_append, List.countP_cons]
    have h1 : (L.take (l.length / 2)).countP (fun x => decide (x ≤ median l)) =
        (L.take (l.length / 2)).length :=
      List.countP_eq_length.mpr fun a ha => by simpa using hle a ha
    rw [h1, htake]
    simp only [le_refl, decide_True, if_true]
    omega
  · rw [← hperm.countP_eq, hsplit, List.countP_append, List.countP_cons]
    have h1 : (L.drop (l.length / 2 + 1)).countP (fun x => decide (median l ≤ x)) =
        (L.drop (l.length / 2 + 1)).length :=
      List.countP_eq_length.mpr fun a ha => by simpa using hge a ha
    rw [h1, hdrop]
    simp only [le_refl, decide_True, if_true]
    omega

/-! ## The two filters compute the median and the mean of the recent samples -/

theorem readAt_recentIndex (s : Scale) (i : Nat) (h : CursorInRange s) (hi : i < 10) :
    readAt s.readings (recentIndex s.readingIndex i) =
      some (s.readings (recentSlot s.readingIndex i)) := by
  unfold CursorInRange at h
  have hmod : recentIndex s.readingIndex i = (s.readingIndex - 1 - (i : Int) + 10) % 10 := by
    unfold recentIndex
    rw [Int.tmod_eq_emod (by simp; omega) (by simp)]
    rfl
  unfold readAt
  rw [dif_pos (by rw [hmod]; omega)]
  congr 2
  unfold recentSlot
  rw [Fin.ext_iff]
  show (recentIndex s.readingIndex i).toNat = _
  rw [hmod]

theorem copyRecent_eq (s : Scale) (h : CursorInRange s) (k i : Nat) (hik : i + k ≤ 10) :
    copyRecent s i k =
      some ((List.range' i k).map fun j => s.readings (recentSlot s.readingIndex j)) := by
  induction k generalizing i with
  | zero => rfl
  | succ k ih =>
    unfold copyRecent
    rw [readAt_recentIndex s i h (by omega), ih (i + 1) (by omega)]
    rfl

theorem copyRecent_recent (s : Scale) (h : CursorInRange s) (n : Nat) (hn : n ≤ 10) :
    copyRecent s 0 n = some (recent s.readings s.readingIndex n) := by
  rw [copyRecent_eq s h n 0 (by omega)]
  unfold recent
  rw [List.range_eq_range']

theorem recent_val (s : Scale) (q : Fin MAX_SAMPLES → ℚ) (hq : ∀ i, s.readings i = Flt.val (q i))
    (n : Nat) : recent s.readings s.readingIndex n = (recent q s.readingIndex n).map Flt.val := by
  unfold recent
  rw [List.map_map]
  apply List.map_congr_left
  intro i _
  exact hq _

theorem length_recent {α : Type} (buffer : Fin MAX_SAMPLES → α) (cursor : Int) (n : Nat) :
    (recent buffer cursor n).length = n := by
  simp [recent]

/-- The function `medianFilter` returns the median of the `samples` most recent samples. -/
theorem medianFilter_eq_median (s : Scale) (q : Fin MAX_SAMPLES → ℚ)
    (hq : ∀ i, s.readings i = Flt.val (q i)) (h : CursorInRange s) (samples : Int)
    (h1 : 1 ≤ samples) (h10 : samples ≤ 10) :
    medianFilter s samples = some (Flt.val (median (recent q s.readingIndex samples.toNat))) := by
  unfold medianFilter
  have hc : ¬ samples > (MAX_SAMPLES : Int) := by
    show ¬ samples > 10
    omega
  simp only [if_neg hc]
  rw [copyRecent_recent s h samples.toNat (by omega), recent_val s q hq]
  dsimp only
  rw [bubbleSort_map_val]
  have hd : Int.tdiv samples 2 = samples / 2 := Int.tdiv_eq_ediv (by omega) (by omega)
  rw [hd, if_pos (by omega)]
  have hn : (samples / 2).toNat = samples.toNat / 2 := by omega
  rw [hn, List.getElem?_map]
  unfold median
  rw [length_recent, List.getD_eq_getElem?_getD]
  have hlt : samples.toNat / 2 <
      (List.insertionSort (· ≤ ·) (recent q s.readingIndex samples.toNat)).length := by
    rw [List.length_insertionSort, length_recent]
    omega
  rw [List.getElem?_eq_getElem hlt]
  rfl

theorem sumRecent_eq (s : Scale) (q : Fin MAX_SAMPLES → ℚ)
    (hq : ∀ i, s.readings i = Flt.val (q i)) (h : CursorInRange s) (k i : Nat)
    (hik : i + k ≤ 10) (a : ℚ) (v : Int) :
    sumRecent s i k (Flt.val a) v =
      some (Flt.val (a + ((List.range' i k).map fun j => q (recentSlot s.readingIndex j)).sum),
        v + k) := by
  induction k generalizing i a v with
  | zero => simp [sumRecent]
  | succ k ih =>
    unfold sumRecent
    rw [readAt_recentIndex s i h (by omega)]
    dsimp only
    rw [hq, Flt.add_val, ih (i + 1) (by omega)]
    simp only [List.range'_succ, List.map_cons, List.sum_cons, Nat.cast_add, Nat.cast_one]
    congr 2
    · congr 1
      ring
    · ring

/-- The function `averageFilter` returns the mean of the `samples` most recent samples. -/
theorem averageFilter_eq_mean (s : Scale) (q : Fin MAX_SAMPLES → ℚ)
    (hq : ∀ i, s.readings i = Flt.val (q i)) (h : CursorInRange s) (samples : Int)
    (h1 : 1 ≤ samples) (h10 : samples ≤ 10) :
    averageFilter s samples = some (Flt.val (mean (recent q s.readingIndex samples.toNat))) := by
  unfold averageFilter
  have hc : ¬ samples > (MAX_SAMPLES : Int) := by
    show ¬ samples > 10
    omega
  simp only [if_neg hc]
  rw [sumRecent_eq s q hq h samples.toNat 0 (by omega)]
  dsimp only
  have hne : (0 : Int) + (samples.toNat : Int) ≠ 0 := by omega
  rw [Flt.divInt_val, if_neg hne]
  unfold mean recent
  rw [List.length_map, List.length_range, List.range_eq_range']
  congr 2
  push_cast
  ring

theorem recentSlot_after_store (cursor : Int) (h : 0 ≤ cursor ∧ cursor < 10) :
    ((recentSlot (Int.tmod (cursor + 1) 10) 0).val : Int) = cursor ∧
    (∀ i, recentSlot (Int.tmod (cursor + 1) 10) (i + 1) = recentSlot cursor i) ∧
    (∀ i, i < 9 → ((recentSlot cursor i).val : Int) ≠ cursor) := by
  have hmod : Int.tmod (cursor + 1) 10 = (cursor + 1) % 10 :=
    Int.tmod_eq_emod (by omega) (by omega)
  rw [hmod]
  refine ⟨?_, ?_, ?_⟩
  · unfold recentSlot
    show (((((cursor + 1) % 10 - 1 - ((0 : Nat) : Int) + 10) % 10).toNat : Nat) : Int) = cursor
    omega
  · intro i
    unfold recentSlot
    rw [Fin.ext_iff]
    show (((cursor + 1) % 10 - 1 - ((i + 1 : Nat) : Int) + 10) % 10).toNat =
      ((cursor - 1 - (i : Int) + 10) % 10).toNat
    omega
  · intro i hi
    unfold recentSlot
    show ((((cursor - 1 - (i : Int) + 10) % 10).toNat : Nat) : Int) ≠ cursor
    omega

/-- With the cursor inside the buffer and at least one sample asked for, `medianFilter`
stays inside both arrays and returns a value. -/
theorem medianFilter_returns (s : Scale) (h : CursorInRange s) (samples : Int)
    (h1 : 1 ≤ samples) : ∃ w, medianFilter s samples = some w := by
  unfold medianFilter
  dsimp only
  generalize hc : (if samples > (MAX_SAMPLES : Int) then (MAX_SAMPLES : Int) else samples) = c
  have hc1 : 1 ≤ c ∧ c ≤ 10 := by
    rw [← hc]
    split
    · exact ⟨by decide, by decide⟩
    · rename_i hgt
      have : ¬ samples > 10 := hgt
      omega
  rw [copyRecent_eq s h c.toNat 0 (by omega)]
  dsimp only
  have hd : Int.tdiv c 2 = c / 2 := Int.tdiv_eq_ediv (by omega) (by omega)
  rw [hd, if_pos (by omega)]
  have hlt : (c / 2).toNat < (bubbleSort ((List.range' 0 c.toNat).map fun j =>
      s.readings (recentSlot s.readingIndex j))).length := by
    rw [length_bubbleSort, List.length_map, List.length_range']
    omega
  exact ⟨_, List.getElem?_eq_getElem hlt⟩

theorem sumRecent_returns (s : Scale) (h : CursorInRange s) (k i : Nat) (hik : i + k ≤ 10)
    (a : Flt) (v : Int) : ∃ r, sumRecent s i k a v = some r := by
  induction k generalizing i a v with
  | zero => exact ⟨_, rfl⟩
  | succ k ih =>
    unfold sumRecent
    rw [readAt_recentIndex s i h (by omega)]
    exact ih (i + 1) (by omega) _ _

/-- With the cursor inside the buffer `averageFilter` returns a value, for every
`samples`. -/
theorem averageFilter_returns (s : Scale) (h : CursorInRange s) (samples : Int) :
    ∃ w, averageFilter s samples = some w := by
  unfold averageFilter
  dsimp only
  generalize hc : (if samples > (MAX_SAMPLES : Int) then (MAX_SAMPLES : Int) else samples) = c
  have hc1 : c ≤ 10 := by
    rw [← hc]
    split
    · decide
    · rename_i hgt
      have : ¬ samples > 10 := hgt
      omega
  obtain ⟨r, hr⟩ := sumRecent_returns s h c.toNat 0 (by omega) (Flt.val 0) 0
  rw [hr]
  exact ⟨_, rfl⟩

/-- On a well-formed buffer with `medianSamples` at least 1 every call of `getWeight`
returns a weight and a state. -/
theorem getWeight_returns (s : Scale) (hw : Sensors) (t : Nat) (hok : CursorInRange s)
    (hmed : 1 ≤ s.medianSamples) : ∃ w s3, getWeight s hw t = some (w, s3) := by
  unfold getWeight
  split
  · exact ⟨_, _, rfl⟩
  · split
    · exact ⟨_, _, rfl⟩
    · dsimp only
      split
      · exact ⟨_, _, rfl⟩
      · split
        · exact ⟨_, _, rfl⟩
        · unfold filterReading
          obtain ⟨s1, hst, -, hcur, -, -, -, -, -, hms, -⟩ := storeReading_of_inRange
            { s with lastReadTime := t, lastSuccessfulRead := t }
            (rawReading { s with lastReadTime := t } hw) hok
          rw [hst]
          dsimp only
          obtain ⟨-, -, -, -, hri, -, hm2, -⟩ := detectBrewing_frame s1
            (Flt.abs (Flt.sub (rawReading { s with lastReadTime := t } hw) s1.currentWeight)) t
          generalize detectBrewing s1
            (Flt.abs (Flt.sub (rawReading { s with lastReadTime := t } hw) s1.currentWeight))
            t = s2 at hri hm2
          have hidx2 : CursorInRange s2 := by
            unfold CursorInRange at hok ⊢
            rw [hri, hcur]
            show 0 ≤ Int.tmod (s.readingIndex + 1) 10 ∧ Int.tmod (s.readingIndex + 1) 10 < 10
            rw [Int.tmod_eq_emod (by omega) (by omega)]
            omega
          have hmed2 : 1 ≤ s2.medianSamples := by
            rw [hm2, hms]
            exact hmed
          have hfilter : ∃ w, applyFilter s2 = some w := by
            unfold applyFilter
            split
            · exact medianFilter_returns s2 hidx2 _ hmed2
            · exact averageFilter_returns s2 hidx2 _
            · exact averageFilter_returns s2 hidx2 _
          obtain ⟨w, hw2⟩ := hfilter
          rw [hw2]
          unfold finishRead
          split
          · exact ⟨_, _, rfl⟩
          · exact ⟨_, _, rfl⟩

theorem bufferOk_construct (dual : Bool) (c : Flt) : BufferOk (construct dual c) :=
  ⟨by unfold CursorInRange construct; exact ⟨le_refl _, by norm_num⟩, fun _ => rfl⟩

theorem bufferOk_finishRead (s2 s3 : Scale) (raw d w : Flt) (fw : Option Flt) (now : Nat)
    (hraw : raw.isNaN = false) (h2 : BufferOk s2)
    (h : finishRead s2 raw d fw now = some (w, s3)) : BufferOk s3 := by
  unfold finishRead initializeSamples at h
  split at h
  · dsimp only at h
    split at h
    · cases h
      exact ⟨h2.1, fun _ => hraw⟩
    · cases h
      exact ⟨h2.1, fun _ => hraw⟩
  · cases fw with
    | none => exact absurd h (by simp)
    | some v =>
      cases h
      exact h2

/-- Every call of `getWeight` that returns keeps the buffer well formed, so a buffer of
numbers with the cursor inside it is what every call finds, from construction on. -/
theorem bufferOk_getWeight (s s3 : Scale) (hw : Sensors) (t : Nat) (w : Flt)
    (hok : BufferOk s) (h : getWeight s hw t = some (w, s3)) : BufferOk s3 := by
  unfold getWeight at h
  split at h
  · cases h
    exact hok
  · split at h
    · cases h
      exact hok
    · dsimp only at h
      split at h
      · cases h
        exact hok
      · rename_i hnan
        have hraw : (rawReading { s with lastReadTime := t } hw).isNaN = false := by
          simpa using hnan
        split at h
        · cases h
          exact ⟨hok.1, fun _ => hraw⟩
        · unfold filterReading at h
          obtain ⟨s1, hst, hupd, hcur, -⟩ := storeReading_of_inRange
            { s with lastReadTime := t, lastSuccessfulRead := t }
            (rawReading { s with lastReadTime := t } hw) hok.1
          rw [hst] at h
          dsimp only at h
          obtain ⟨-, -, -, hrd, hri, -⟩ := detectBrewing_frame s1
            (Flt.abs (Flt.sub (rawReading { s with lastReadTime := t } hw) s1.currentWeight)) t
          refine bufferOk_finishRead _ s3 _ _ w _ t hraw ⟨?_, ?_⟩ h
          · unfold CursorInRange
            rw [hri, hcur]
            have := hok.1
            unfold CursorInRange at this
            show 0 ≤ Int.tmod (s.readingIndex + 1) 10 ∧ Int.tmod (s.readingIndex + 1) 10 < 10
            rw [Int.tmod_eq_emod (by omega) (by omega)]
            omega
          · intro i
            rw [hrd, hupd i]
            split
            · exact hraw
            · exact hok.2 i

/-! ## The filter state machine -/

theorem accepted_dualAfterFirst : Accepted dualAfterFirst dualSecond 200 := by
  unfold Accepted RateLimited
  decide!

theorem accepted_dualTransitioning : Accepted dualTransitioning dualSecond 200 := by
  unfold Accepted RateLimited
  decide!

/-- Claim C1. For an accepted reading, `getWeight` is the filter and override stage run on
the state `s2` left by the transition step, and that state is: from STABLE, BREWING if
`delta > brewingThreshold` and STABLE otherwise; from BREWING, BREWING if
`delta > brewingThreshold`, otherwise TRANSITIONING if the time since the last activity
exceeds `stabilityTimeout`, otherwise BREWING; in both cases `lastBrewingActivity` becomes
`now` exactly when `delta > brewingThreshold` and keeps its value otherwise.  The elapsed
time is the `unsigned long` difference, which is `now - lastBrewingActivity` when the
clock has not wrapped.  In the dual scenario (fused 2.0 g, then 2.5 g, threshold 0.15)
the first call fills the buffer in state STABLE and the second leaves state BREWING. -/
theorem C1_transition_from_stable_and_brewing :
    (∀ (s : Scale) (hw : Sensors) (now : Nat), Accepted s hw now → CursorInRange s →
      ∃ s2, transitionState s hw now = some s2 ∧
        getWeight s hw now =
          finishRead s2 (rawReading s hw) (weightChange s hw) (applyFilter s2) now ∧
        (s.currentFilterState = STABLE →
          s2.currentFilterState =
            if Flt.gt (weightChange s hw) s.brewingThreshold then BREWING else STABLE) ∧
        (s.currentFilterState = BREWING →
          s2.currentFilterState =
            if Flt.gt (weightChange s hw) s.brewingThreshold then BREWING
            else if subU32 now s.lastBrewingActivity > s.stabilityTimeout then TRANSITIONING
            else BREWING) ∧
        (s.currentFilterState = STABLE ∨ s.currentFilterState = BREWING →
          s2.lastBrewingActivity =
            if Flt.gt (weightChange s hw) s.brewingThreshold then now
            else s.lastBrewingActivity)) ∧
    (∀ now last : Nat, last ≤ now → now < 2 ^ 32 → subU32 now last = now - last) ∧
    (getWeight dualStart dualFirst 100 = some (Flt.val 2, dualAfterFirst) ∧
      dualAfterFirst.currentFilterState = STABLE ∧
      dualAfterFirst.brewingThreshold = Flt.val (15 / 100) ∧
      rawReading dualAfterFirst dualSecond = Flt.val (5 / 2) ∧
      weightChange dualAfterFirst dualSecond = Flt.val (1 / 2) ∧
      pollOnce dualAfterFirst dualSecond 200 = some (Flt.val 2, BREWING, Flt.val 2, 200)) := by
  refine ⟨?_, subU32_of_le, ?_⟩
  swap
  · decide!
  · intro s hw now hacc hidx
    obtain ⟨s1, hts, hfs, hthr, hlba, hto⟩ := transitionState_of_inRange s hw now hidx
    refine ⟨_, hts, ?_, ?_, ?_, ?_⟩
    · rw [getWeight_accepted s hw now hacc, filterReading_stamped, hts]
    · intro hst
      rw [← hthr]
      unfold detectBrewing
      rw [hfs, hst]
      dsimp only
      split <;> simp [hfs, hst]
    · intro hst
      rw [← hthr, ← hlba, ← hto]
      unfold detectBrewing
      rw [hfs, hst]
      dsimp only
      split
      · simp [hfs, hst]
      · split <;> simp [hfs, hst]
    · intro hst
      rw [← hthr, ← hlba]
      unfold detectBrewing
      rcases hst with hst | hst
      · rw [hfs, hst]
        dsimp only
        split <;> simp
      · rw [hfs, hst]
        dsimp only
        split
        · simp
        · split <;> simp

theorem C1_witness :
    Accepted dualAfterFirst dualSecond 200 ∧ CursorInRange dualAfterFirst ∧
      Option.map Scale.currentFilterState (transitionState dualAfterFirst dualSecond 200) =
        some BREWING ∧
      Option.map Scale.lastBrewingActivity (transitionState dualAfterFirst dualSecond 200) =
        some 200 := by
  have hidx : CursorInRange dualAfterFirst := by unfold CursorInRange; decide
  obtain ⟨s2, h1, -, h2, -, h3⟩ :=
    C1_transition_from_stable_and_brewing.1 dualAfterFirst dualSecond 200
      accepted_dualAfterFirst hidx
  refine ⟨accepted_dualAfterFirst, hidx, ?_, ?_⟩
  · rw [h1, Option.map_some', h2 rfl]
    decide!
  · rw [h1, Option.map_some', h3 (Or.inl rfl)]
    decide!

/-- Claim C2. For an accepted reading taken in state TRANSITIONING the state after the
transition step is BREWING if `delta > brewingThreshold`, otherwise STABLE if the time
since the last activity exceeds twice `stabilityTimeout`, otherwise TRANSITIONING.  Over
all three states and all values of delta, threshold, elapsed time and timeout exactly one
rule of the table applies, and for every accepted reading the state after the transition
step is the target of that rule.  The doubled timeout is the `unsigned long` product,
equal to `2 * stabilityTimeout` below `2 ^ 31`. -/
theorem C2_transitioning_and_totality :
    (∀ (s : Scale) (hw : Sensors) (now : Nat), Accepted s hw now → CursorInRange s →
      s.currentFilterState = TRANSITIONING →
      ∃ s2, transitionState s hw now = some s2 ∧
        s2.currentFilterState =
          if Flt.gt (weightChange s hw) s.brewingThreshold then BREWING
          else if subU32 now s.lastBrewingActivity > mulU32 s.stabilityTimeout 2 then STABLE
          else TRANSITIONING) ∧
    (∀ (state : FilterState) (delta threshold : Flt) (elapsed timeout : Nat),
      ∃! r : Rule, r.applies state delta threshold elapsed timeout) ∧
    (∀ (s : Scale) (hw : Sensors) (now : Nat), Accepted s hw now → CursorInRange s →
      ∃ s2 r, transitionState s hw now = some s2 ∧
        Rule.applies r s.currentFilterState (weightChange s hw) s.brewingThreshold
          (subU32 now s.lastBrewingActivity) s.stabilityTimeout ∧
        s2.currentFilterState = r.target) ∧
    (∀ timeout : Nat, timeout < 2 ^ 31 → mulU32 timeout 2 = 2 * timeout) := by
  refine ⟨?_, ?_, ?_, mulU32_two⟩
  · intro s hw now _ hidx hst
    obtain ⟨s1, hts, hfs, hthr, hlba, hto⟩ := transitionState_of_inRange s hw now hidx
    refine ⟨_, hts, ?_⟩
    rw [← hthr, ← hlba, ← hto]
    unfold detectBrewing
    rw [hfs, hst]
    dsimp only
    split
    · simp
    · split <;> simp [hfs, hst]
  · intro state delta threshold elapsed timeout
    by_cases ha : Flt.gt delta threshold
    · cases state
      · refine ⟨Rule.stableToBrewing, ⟨rfl, ha⟩, ?_⟩
        rintro r ⟨hs, hg⟩
        cases r <;> simp_all [Rule.source, Rule.guard]
      · refine ⟨Rule.brewingRefresh, ⟨rfl, ha⟩, ?_⟩
        rintro r ⟨hs, hg⟩
        cases r <;> simp_all [Rule.source, Rule.guard]
      · refine ⟨Rule.transitioningToBrewing, ⟨rfl, ha⟩, ?_⟩
        rintro r ⟨hs, hg⟩
        cases r <;> simp_all [Rule.source, Rule.guard]
    · cases state
      · refine ⟨Rule.stableStay, ⟨rfl, ha⟩, ?_⟩
        rintro r ⟨hs, hg⟩
        cases r <;> simp_all [Rule.source, Rule.guard]
      · by_cases he : elapsed > timeout
        · refine ⟨Rule.brewingToTransitioning, ⟨rfl, ha, he⟩, ?_⟩
          rintro r ⟨hs, hg⟩
          cases r <;> simp_all [Rule.source, Rule.guard]
        · refine ⟨Rule.brewingStay, ⟨rfl, ha, he⟩, ?_⟩
          rintro r ⟨hs, hg⟩
          cases r <;> simp_all [Rule.source, Rule.guard]
          omega
      · by_cases he : elapsed > mulU32 timeout 2
        · refine ⟨Rule.transitioningToStable, ⟨rfl, ha, he⟩, ?_⟩
          rintro r ⟨hs, hg⟩
          cases r <;> simp_all [Rule.source, Rule.guard]
        · refine ⟨Rule.transitioningStay, ⟨rfl, ha, he⟩, ?_⟩
          rintro r ⟨hs, hg⟩
          cases r <;> simp_all [Rule.source, Rule.guard]
          omega
  · intro s hw now _ hidx
    obtain ⟨s1, hts, hfs, hthr, hlba, hto⟩ := transitionState_of_inRange s hw now hidx
    rw [← hthr, ← hlba, ← hto, ← hfs]
    cases hc : s1.currentFilterState
    · by_cases ha : Flt.gt (weightChange s hw) s1.brewingThreshold
      · exact ⟨_, Rule.stableToBrewing, hts, ⟨rfl, ha⟩, by simp [detectBrewing, hc, ha, Rule.target]⟩
      · exact ⟨_, Rule.stableStay, hts, ⟨rfl, ha⟩, by simp [detectBrewing, hc, ha, Rule.target]⟩
    · by_cases ha : Flt.gt (weightChange s hw) s1.brewingThreshold
      · exact ⟨_, Rule.brewingRefresh, hts, ⟨rfl, ha⟩, by simp [detectBrewing, hc, ha, Rule.target]⟩
      · by_cases he : subU32 now s1.lastBrewingActivity > s1.stabilityTimeout
        · exact ⟨_, Rule.brewingToTransitioning, hts, ⟨rfl, ha, he⟩,
            by simp [detectBrewing, hc, ha, he, Rule.target]⟩
        · exact ⟨_, Rule.brewingStay, hts, ⟨rfl, ha, he⟩,
            by simp [detectBrewing, hc, ha, he, Rule.target]⟩
    · by_cases ha : Flt.gt (weightChange s hw) s1.brewingThreshold
      · exact ⟨_, Rule.transitioningToBrewing, hts, ⟨rfl, ha⟩,
          by simp [detectBrewing, hc, ha, Rule.target]⟩
      · by_cases he : subU32 now s1.lastBrewingActivity > mulU32 s1.stabilityTimeout 2
        · exact ⟨_, Rule.transitioningToStable, hts, ⟨rfl, ha, he⟩,
            by simp [detectBrewing, hc, ha, he, Rule.target]⟩
        · exact ⟨_, Rule.transitioningStay, hts, ⟨rfl, ha, he⟩,
            by simp [detectBrewing, hc, ha, he, Rule.target]⟩

theorem C2_witness :
    Accepted dualTransitioning dualSecond 200 ∧ CursorInRange dualTransitioning ∧
      dualTransitioning.currentFilterState = TRANSITIONING ∧
      Option.map Scale.currentFilterState (transitionState dualTransitioning dualSecond 200) =
        some BREWING := by
  have hidx : CursorInRange dualTransitioning := by unfold CursorInRange; decide
  obtain ⟨s2, h1, h2⟩ :=
    C2_transitioning_and_totality.1 dualTransitioning dualSecond 200
      accepted_dualTransitioning hidx rfl
  refine ⟨accepted_dualTransitioning, hidx, rfl, ?_⟩
  rw [h1, Option.map_some', h2]
  decide!

/-! ## Filter choice and the override -/

/-- Claim C4. For every accepted reading `r` with `|r - currentWeight| > 5`, in any filter
state, `getWeight` returns `r` itself, every slot of the sample buffer holds `r`
afterwards, `currentWeight` is `r`, and if the state was STABLE when the reading arrived
the state afterwards is BREWING with `lastBrewingActivity = now`.  On a buffer uniformly
0 g in state STABLE a reading of 10 g returns 10 g and leaves state BREWING. -/
theorem C4_rapid_change_override :
    (∀ (s : Scale) (hw : Sensors) (now : Nat), Accepted s hw now → CursorInRange s →
      Flt.gt (weightChange s hw) (Flt.val 5) →
      ∃ s3, getWeight s hw now = some (rawReading s hw, s3) ∧
        (∀ i, s3.readings i = rawReading s hw) ∧
        s3.currentWeight = rawReading s hw ∧
        (s.currentFilterState = STABLE →
          s3.currentFilterState = BREWING ∧ s3.lastBrewingActivity = now)) ∧
    (getWeight singleStart (singleUnits 0) 100 = some (Flt.val 0, stableZero) ∧
      (∀ i, stableZero.readings i = Flt.val 0) ∧
      stableZero.currentFilterState = STABLE ∧
      pollOnce stableZero (singleUnits 10) 200 =
        some (Flt.val 10, BREWING, Flt.val 10, 200)) := by
  refine ⟨?_, by decide!, fun _ => rfl, rfl, by decide!⟩
  intro s hw now hacc hidx hgt
  obtain ⟨s1, hts, hfs, hthr, hlba, -⟩ := transitionState_of_inRange s hw now hidx
  obtain ⟨s3, hfin, hall, hcw, -, hstate, hact, -⟩ :=
    finishRead_override (detectBrewing s1 (weightChange s hw) now) (rawReading s hw)
      (weightChange s hw) (applyFilter (detectBrewing s1 (weightChange s hw) now)) now hgt
  refine ⟨s3, ?_, hall, hcw, ?_⟩
  · rw [getWeight_accepted s hw now hacc, filterReading_stamped, hts]
    exact hfin
  · intro hst
    rw [hstate, hact]
    unfold detectBrewing
    rw [hfs, hst]
    dsimp only
    split <;> simp [hfs, hst]

theorem C4_witness :
    Accepted stableZero (singleUnits 10) 200 ∧ CursorInRange stableZero ∧
      Flt.gt (weightChange stableZero (singleUnits 10)) (Flt.val 5) ∧
      Option.map Prod.fst (getWeight stableZero (singleUnits 10) 200) = some (Flt.val 10) := by
  have hacc : Accepted stableZero (singleUnits 10) 200 := by
    unfold Accepted RateLimited
    decide!
  have hidx : CursorInRange stableZero := by unfold CursorInRange; decide
  have hgt : Flt.gt (weightChange stableZero (singleUnits 10)) (Flt.val 5) := by decide!
  obtain ⟨s3, h1, -⟩ := C4_rapid_change_override.1 stableZero (singleUnits 10) 200 hacc hidx hgt
  refine ⟨hacc, hidx, hgt, ?_⟩
  rw [h1, Option.map_some']
  exact congrArg some (show rawReading stableZero (singleUnits 10) = Flt.val 10 by decide!)

/-! ## Rate limiting -/

/-- Claim C5 as stated fails. A reading is taken at 1000 ms; the calls at 1015 ms and at
1030 ms are less than 20 ms apart, yet the first returns the cached 0 g and the second
takes a new reading and returns 10 g. -/
theorem C5_counterexample :
    subU32 1030 1015 < 20 ∧
      Option.map Prod.fst
          (polls singleStart
            [(singleUnits 0, 1000), (singleUnits 10, 1015), (singleUnits 10, 1030)]) =
        some [Flt.val 0, Flt.val 0, Flt.val 10] := by
  decide!

/-- Claim C5, amended. Let a call at `t1` be followed by a second call at `t2` with
`t2 - t1 < 20`.  If the scale is not connected, or the first call took a reading (it was
not rate limited), or the second call is still within 20 ms of the last reading taken,
then the second call returns the value `w1` the first call returned and leaves every
field of the state `s1` after the first call as it was.  The first call does return on
every well-formed state. -/
theorem C5_rate_limit_idempotent (s : Scale) (hw1 hw2 : Sensors) (t1 t2 : Nat)
    (hfresh : s.isConnected = false ∨ ¬ RateLimited s t1 ∨ RateLimited s t2)
    (h12 : subU32 t2 t1 < 20) :
    (∀ w1 s1, getWeight s hw1 t1 = some (w1, s1) → getWeight s1 hw2 t2 = some (w1, s1)) ∧
    (CursorInRange s → 1 ≤ s.medianSamples →
      ∃ w1 s1, getWeight s hw1 t1 = some (w1, s1) ∧
        getWeight s1 hw2 t2 = some (w1, s1)) := by
  have key : ∀ w1 s1, getWeight s hw1 t1 = some (w1, s1) →
      getWeight s1 hw2 t2 = some (w1, s1) := by
    intro w1 s1 h1
    cases hc : s.isConnected with
    | false =>
      rw [getWeight_not_connected s hw1 t1 hc] at h1
      cases h1
      exact getWeight_not_connected s hw2 t2 hc
    | true =>
      by_cases hr : RateLimited s t1
      · rw [getWeight_rateLimited s hw1 t1 hc hr] at h1
        cases h1
        rcases hfresh with h | h | h
        · rw [hc] at h
          exact absurd h (by simp)
        · exact absurd hr h
        · exact getWeight_rateLimited s hw2 t2 hc h
      · obtain ⟨hc1, hl1, hw1'⟩ := getWeight_fresh_post s s1 hw1 t1 w1 hc hr h1
        have hrl : RateLimited s1 t2 := by
          unfold RateLimited
          rw [hl1]
          exact h12
        rw [getWeight_rateLimited s1 hw2 t2 hc1 hrl, hw1']
  refine ⟨key, ?_⟩
  intro hidx hmed
  obtain ⟨w1, s1, h1⟩ := getWeight_returns s hw1 t1 hidx hmed
  exact ⟨w1, s1, h1, key w1 s1 h1⟩

theorem C5_witness :
    ¬ RateLimited stableZero 200 ∧ subU32 210 200 < 20 ∧ CursorInRange stableZero ∧
      1 ≤ stableZero.medianSamples ∧
      ∃ w1 s1, getWeight stableZero (singleUnits 10) 200 = some (w1, s1) ∧
        getWeight s1 (singleUnits 3) 210 = some (w1, s1) :=
  have hr : ¬ RateLimited stableZero 200 := by unfold RateLimited; decide
  have h12 : subU32 210 200 < 20 := by decide
  have hidx : CursorInRange stableZero := by unfold CursorInRange; decide
  have hmed : 1 ≤ stableZero.medianSamples := by decide
  ⟨hr, h12, hidx, hmed,
    (C5_rate_limit_idempotent stableZero (singleUnits 10) (singleUnits 3) 200 210
      (Or.inr (Or.inl hr)) h12).2 hidx hmed⟩

/-! ## Tuning setters -/

/-- Claim C6. Each tuning setter rejects every out-of-range value, leaving the whole state
and the store as they were (no write), and accepts every in-range value: the parameter
becomes that value, the other three keep theirs, and the store receives exactly the four
writes of the four parameters.  Not-a-number is out of range. -/
theorem C6_setters_validate_and_persist (s : Scale) (p : Prefs) :
    (∀ v : Flt, ¬ (Flt.ge v (Flt.val (5 / 100)) ∧ Flt.le v (Flt.val 1)) →
      setBrewingThreshold s p v = (s, p)) ∧
    (∀ v : Flt, Flt.ge v (Flt.val (5 / 100)) ∧ Flt.le v (Flt.val 1) →
      tuning (setBrewingThreshold s p v).1 =
          (v, s.stabilityTimeout, s.medianSamples, s.averageSamples) ∧
        (setBrewingThreshold s p v).2 =
          tuningWrites v s.stabilityTimeout s.medianSamples s.averageSamples ++ p) ∧
    (∀ v : Nat, ¬ (500 ≤ v ∧ v ≤ 10000) → setStabilityTimeout s p v = (s, p)) ∧
    (∀ v : Nat, 500 ≤ v ∧ v ≤ 10000 →
      tuning (setStabilityTimeout s p v).1 =
          (s.brewingThreshold, v, s.medianSamples, s.averageSamples) ∧
        (setStabilityTimeout s p v).2 =
          tuningWrites s.brewingThreshold v s.medianSamples s.averageSamples ++ p) ∧
    (∀ v : Int, ¬ (1 ≤ v ∧ v ≤ (MAX_SAMPLES : Int)) → setMedianSamples s p v = (s, p)) ∧
    (∀ v : Int, 1 ≤ v ∧ v ≤ (MAX_SAMPLES : Int) →
      tuning (setMedianSamples s p v).1 =
          (s.brewingThreshold, s.stabilityTimeout, v, s.averageSamples) ∧
        (setMedianSamples s p v).2 =
          tuningWrites s.brewingThreshold s.stabilityTimeout v s.averageSamples ++ p) ∧
    (∀ v : Int, ¬ (1 ≤ v ∧ v ≤ (MAX_SAMPLES : Int)) → setAverageSamples s p v = (s, p)) ∧
    (∀ v : Int, 1 ≤ v ∧ v ≤ (MAX_SAMPLES : Int) →
      tuning (setAverageSamples s p v).1 =
          (s.brewingThreshold, s.stabilityTimeout, s.medianSamples, v) ∧
        (setAverageSamples s p v).2 =
          tuningWrites s.brewingThreshold s.stabilityTimeout s.medianSamples v ++ p) ∧
    (∀ (b : Flt) (t : Nat) (m a : Int) (d : Flt) (dt : Nat) (dm da : Int),
      Prefs.getFloat (tuningWrites b t m a ++ p) "brew_thresh" d = b ∧
      Prefs.getULong (tuningWrites b t m a ++ p) "stab_timeout" dt = t ∧
      Prefs.getInt (tuningWrites b t m a ++ p) "median_samples" dm = m ∧
      Prefs.getInt (tuningWrites b t m a ++ p) "avg_samples" da = a) := by
  refine ⟨?_, ?_, ?_, ?_, ?_, ?_, ?_, ?_, ?_⟩
  · intro v hv
    unfold setBrewingThreshold
    rw [if_neg hv]
  · intro v hv
    unfold setBrewingThreshold
    rw [if_pos hv]
    exact ⟨rfl, rfl⟩
  · intro v hv
    unfold setStabilityTimeout
    rw [if_neg (by omega)]
  · intro v hv
    unfold setStabilityTimeout
    rw [if_pos (by omega)]
    exact ⟨rfl, rfl⟩
  · intro v hv
    unfold setMedianSamples
    rw [if_neg (by omega)]
  · intro v hv
    unfold setMedianSamples
    rw [if_pos (by omega)]
    exact ⟨rfl, rfl⟩
  · intro v hv
    unfold setAverageSamples
    rw [if_neg (by omega)]
  · intro v hv
    unfold setAverageSamples
    rw [if_pos (by omega)]
    exact ⟨rfl, rfl⟩
  · intro b t m a d dt dm da
    refine ⟨?_, ?_, ?_, ?_⟩ <;>
      simp [Prefs.getFloat, Prefs.getULong, Prefs.getInt, tuningWrites, List.lookup]

theorem C6_witness :
    setBrewingThreshold singleStart [] (Flt.val (1 / 100)) = (singleStart, []) ∧
      setBrewingThreshold singleStart [] (Flt.val 2) = (singleStart, []) ∧
      tuning (setBrewingThreshold singleStart [] (Flt.val (2 / 10))).1 =
        (Flt.val (2 / 10), 2000, 3, 2) ∧
      (setBrewingThreshold singleStart [] (Flt.val (2 / 10))).2 =
        tuningWrites (Flt.val (2 / 10)) 2000 3 2 ∧
      setStabilityTimeout singleStart [] 499 = (singleStart, []) ∧
      tuning (setStabilityTimeout singleStart [] 500).1 = (Flt.val (15 / 100), 500, 3, 2) ∧
      setMedianSamples singleStart [] 11 = (singleStart, []) ∧
      tuning (setMedianSamples singleStart [] 10).1 = (Flt.val (15 / 100), 2000, 10, 2) ∧
      setAverageSamples singleStart [] 0 = (singleStart, []) ∧
      tuning (setAverageSamples singleStart [] 1).1 = (Flt.val (15 / 100), 2000, 3, 1) :=
  have h := C6_setters_validate_and_persist singleStart []
  ⟨h.1 _ (by simp; norm_num), h.1 _ (by simp),
    (h.2.1 _ (by simp; norm_num)).1, (h.2.1 _ (by simp; norm_num)).2,
    h.2.2.1 _ (by decide), (h.2.2.2.1 _ (by decide)).1,
    h.2.2.2.2.1 _ (by decide), (h.2.2.2.2.2.1 _ (by decide)).1,
    h.2.2.2.2.2.2.1 _ (by decide), (h.2.2.2.2.2.2.2.1 _ (by decide)).1⟩

/-! ## Tare -/

/-- Claim C7. If the scale is not connected, `tare` leaves the whole state as it is and
makes no call at all (no hardware zeroing, no pause, no resume).  If it is connected,
then after `tare` the filter state is STABLE, `currentWeight`, `lastStableWeight` and
`lastBrewingActivity` are 0 and `samplesInitialized` is false, and the next call that
takes a reading `r` that is a number returns `r`, sets every buffer slot to `r` and
leaves the state STABLE. -/
theorem C7_tare_resets_filter (s : Scale) (times : Nat) :
    (s.isConnected = false → tare s times = (s, [])) ∧
    (s.isConnected = true →
      (tare s times).1.currentFilterState = STABLE ∧
      (tare s times).1.currentWeight = Flt.val 0 ∧
      (tare s times).1.lastStableWeight = Flt.val 0 ∧
      (tare s times).1.lastBrewingActivity = 0 ∧
      (tare s times).1.samplesInitialized = false ∧
      ∀ (hw : Sensors) (now : Nat), ¬ RateLimited (tare s times).1 now →
        (rawReading (tare s times).1 hw).isNaN = false →
        ∃ s2, getWeight (tare s times).1 hw now = some (rawReading (tare s times).1 hw, s2) ∧
          (∀ i, s2.readings i = rawReading (tare s times).1 hw) ∧
          s2.currentFilterState = STABLE) := by
  constructor
  · intro hc
    unfold tare
    rw [if_pos (by simp [hc])]
  · intro hc
    have ht : (tare s times).1 =
        { s with currentFilterState := STABLE
                 lastBrewingActivity := 0
                 currentWeight := Flt.val 0
                 lastStableWeight := Flt.val 0
                 samplesInitialized := false } := by
      unfold tare
      rw [if_neg (by simp [hc])]
    rw [ht]
    refine ⟨rfl, rfl, rfl, rfl, rfl, ?_⟩
    intro hw now hr hn
    unfold RateLimited at hr
    unfold getWeight
    rw [if_neg (by simp [hc]), if_neg hr]
    dsimp only
    rw [if_neg (by rw [Bool.not_eq_true]; exact hn), if_pos (by simp)]
    exact ⟨_, rfl, fun _ => rfl, rfl⟩

theorem C7_witness :
    tare (constructSingle (Flt.val 2000)) 20 = (constructSingle (Flt.val 2000), []) ∧
      (tare stableZero 20).1.samplesInitialized = false ∧
      (tare stableZero 20).1.currentFilterState = STABLE :=
  ⟨(C7_tare_resets_filter (constructSingle (Flt.val 2000)) 20).1 rfl,
    ((C7_tare_resets_filter stableZero 20).2 rfl).2.2.2.2.1,
    ((C7_tare_resets_filter stableZero 20).2 rfl).1⟩

/-! ## Read failures -/

/-- Claim C8, the code at the failing input. A connected single scale with the default
tuning reads 0 g at 100 ms and 0.1 g at 200 ms, which returns the filtered 0.05 g; at
300 ms the sensor is not ready.  The call does not return the previous filtered weight
0.05 g: the held value is stored as a new sample and filtered, and 0.075 g is returned. -/
theorem C8_not_ready_value_is_filtered :
    Option.map Prod.fst
        (polls singleStart [(singleUnits 0, 100), (singleUnits (1 / 10), 200)]) =
      some [Flt.val 0, Flt.val (1 / 20)] ∧
    Option.map (Scale.currentWeight ∘ Prod.snd)
        (polls singleStart [(singleUnits 0, 100), (singleUnits (1 / 10), 200)]) =
      some (Flt.val (1 / 20)) ∧
    Option.map Prod.fst
        (polls singleStart
          [(singleUnits 0, 100), (singleUnits (1 / 10), 200), (notReady, 300)]) =
      some [Flt.val 0, Flt.val (1 / 20), Flt.val (3 / 40)] := by
  decide!

/-- Claim C9. For a connected scale, when a call that is not rate limited obtains a fused
reading that is not-a-number, `getWeight` returns the previous `currentWeight`; only
`lastReadTime` changes, so the filter state, `lastBrewingActivity`, the sample buffer,
the write cursor, `samplesInitialized`, `currentWeight` and `lastSuccessfulRead` are
unchanged. -/
theorem C9_nan_guard (s : Scale) (hw : Sensors) (now : Nat)
    (hc : s.isConnected = true) (hr : ¬ RateLimited s now)
    (hn : (rawReading s hw).isNaN = true) :
    getWeight s hw now = some (s.currentWeight, { s with lastReadTime := now }) ∧
    ∀ s2, getWeight s hw now = some (s.currentWeight, s2) →
      s2.currentFilterState = s.currentFilterState ∧
      s2.lastBrewingActivity = s.lastBrewingActivity ∧
      s2.readings = s.readings ∧
      s2.readingIndex = s.readingIndex ∧
      s2.samplesInitialized = s.samplesInitialized ∧
      s2.currentWeight = s.currentWeight ∧
      s2.lastSuccessfulRead = s.lastSuccessfulRead := by
  have h : getWeight s hw now = some (s.currentWeight, { s with lastReadTime := now }) := by
    unfold RateLimited at hr
    unfold getWeight
    rw [if_neg (by simp [hc]), if_neg hr]
    dsimp only
    rw [if_pos (by exact hn)]
  refine ⟨h, ?_⟩
  intro s2 h2
  rw [h] at h2
  cases h2
  exact ⟨rfl, rfl, rfl, rfl, rfl, rfl, rfl⟩

theorem C9_witness :
    stableZero.isConnected = true ∧ ¬ RateLimited stableZero 200 ∧
      (rawReading stableZero nanUnits).isNaN = true ∧
      getWeight stableZero nanUnits 200 =
        some (stableZero.currentWeight, { stableZero with lastReadTime := 200 }) :=
  ⟨rfl, by unfold RateLimited; decide, by decide,
    (C9_nan_guard stableZero nanUnits 200 rfl (by unfold RateLimited; decide) (by decide)).1⟩

/-! ## Fusion -/

/-- Claim C10. In dual mode with both channels ready the fused reading of `getWeight` is
the sum of the two channel readings, and it is what a first reading returns; it differs
from their mean whenever the sum is not zero.  `getRawValue` of a connected dual scale
is the `long` sum of the two raw values, equal to `raw1 + raw2` whenever that fits a
`long` (it always does for the 24-bit counts of the HX711).  In single mode the fused
reading of a ready channel and the raw value of a connected scale are that channel's. -/
theorem C10_fusion_is_sum (s : Scale) (hw : Sensors) :
    (s.dualHX711 = true → hw.hx7111.is_ready = true → hw.hx7112.is_ready = true →
      rawReading s hw = Flt.add hw.hx7111.get_units hw.hx7112.get_units ∧
      (∀ now, s.isConnected = true → ¬ RateLimited s now → s.samplesInitialized = false →
        (Flt.add hw.hx7111.get_units hw.hx7112.get_units).isNaN = false →
        Option.map Prod.fst (getWeight s hw now) =
          some (Flt.add hw.hx7111.get_units hw.hx7112.get_units)) ∧
      (∀ g1 g2 : ℚ, hw.hx7111.get_units = Flt.val g1 → hw.hx7112.get_units = Flt.val g2 →
        g1 + g2 ≠ 0 → rawReading s hw = Flt.val (g1 + g2) ∧
          rawReading s hw ≠ Flt.val ((g1 + g2) / 2))) ∧
    (s.dualHX711 = true → s.isConnected = true →
      getRawValue s hw = wrapLong (hw.hx7111.get_value + hw.hx7112.get_value) ∧
      (-2 ^ 31 ≤ hw.hx7111.get_value + hw.hx7112.get_value →
        hw.hx7111.get_value + hw.hx7112.get_value < 2 ^ 31 →
        getRawValue s hw = hw.hx7111.get_value + hw.hx7112.get_value)) ∧
    (s.dualHX711 = false → hw.hx7111.is_ready = true →
      rawReading s hw = hw.hx7111.get_units) ∧
    (s.dualHX711 = false → s.isConnected = true →
      getRawValue s hw = hw.hx7111.get_value) := by
  refine ⟨?_, ?_, ?_, ?_⟩
  · intro hd h1 h2
    have hraw : rawReading s hw = Flt.add hw.hx7111.get_units hw.hx7112.get_units := by
      simp [rawReading, readDualHX711, hd, h1, h2]
    refine ⟨hraw, ?_, ?_⟩
    · intro now hc hr hi hn
      unfold RateLimited at hr
      unfold getWeight
      rw [if_neg (by simp [hc]), if_neg hr]
      dsimp only
      have hraw2 : rawReading { s with lastReadTime := now } hw =
          Flt.add hw.hx7111.get_units hw.hx7112.get_units := hraw
      rw [hraw2, if_neg (by rw [Bool.not_eq_true]; exact hn), if_pos (by simp [hi])]
      rfl
    · intro g1 g2 hg1 hg2 hne
      rw [hraw, hg1, hg2, Flt.add_val]
      refine ⟨rfl, ?_⟩
      intro h
      injection h with h
      apply hne
      linarith
  · intro hd hc
    have hv : getRawValue s hw = wrapLong (hw.hx7111.get_value + hw.hx7112.get_value) := by
      simp [getRawValue, hd, hc]
    refine ⟨hv, ?_⟩
    intro hlo hhi
    rw [hv]
    unfold wrapLong
    omega
  · intro hd h1
    simp [rawReading, readSingleHX711, hd, h1]
  · intro hd hc
    simp [getRawValue, hd, hc]

theorem C10_witness :
    rawReading dualStart dualSecond = Flt.val (5 / 2) ∧
      rawReading dualStart dualSecond ≠ Flt.val (5 / 4) ∧
      Option.map Prod.fst (getWeight dualStart dualSecond 100) = some (Flt.val (5 / 2)) ∧
      getRawValue dualStart dualSecond = 2500 ∧
      rawReading singleStart (singleUnits 3) = Flt.val 3 ∧
      getRawValue singleStart (singleUnits 3) = 0 := by
  have hd := (C10_fusion_is_sum dualStart dualSecond).1 rfl rfl rfl
  have h3 := hd.2.2 1 (3 / 2) rfl rfl (by norm_num)
  have hn : (5 / 2 : ℚ) = 1 + 3 / 2 := by norm_num
  have hm : (5 / 4 : ℚ) = (1 + 3 / 2) / 2 := by norm_num
  refine ⟨?_, ?_, ?_, ?_, ?_, ?_⟩
  · rw [hn]
    exact h3.1
  · rw [hm]
    exact h3.2
  · rw [hd.2.1 100 rfl (by unfold RateLimited; decide) rfl rfl]
    decide!
  · exact ((C10_fusion_is_sum dualStart dualSecond).2.1 rfl rfl).2 (by decide) (by decide)
  · exact (C10_fusion_is_sum singleStart (singleUnits 3)).2.2.1 rfl rfl
  · exact (C10_fusion_is_sum singleStart (singleUnits 3)).2.2.2 rfl rfl

/-! ## Calibration -/

theorem detectBrewing_settings (s : Scale) (d : Flt) (t : Nat) :
    settings (detectBrewing s d t) = settings s := by
  unfold detectBrewing
  split
  · split <;> rfl
  · split
    · rfl
    · split <;> rfl
  · split
    · rfl
    · split <;> rfl

theorem finishRead_settings (s2 s3 : Scale) (raw d w : Flt) (fw : Option Flt) (now : Nat)
    (h : finishRead s2 raw d fw now = some (w, s3)) : settings s3 = settings s2 := by
  unfold finishRead initializeSamples at h
  split at h
  · dsimp only at h
    split at h
    · cases h
      rfl
    · cases h
      rfl
  · cases fw with
    | none => exact absurd h (by simp)
    | some v =>
      cases h
      rfl

/-- A call of `getWeight` leaves the calibration factors, the mode and the tuning
parameters alone. -/
theorem getWeight_settings (s s3 : Scale) (hw : Sensors) (t : Nat) (w : Flt)
    (h : getWeight s hw t = some (w, s3)) : settings s3 = settings s := by
  unfold getWeight at h
  split at h
  · cases h
    rfl
  · split at h
    · cases h
      rfl
    · dsimp only at h
      split at h
      · cases h
        rfl
      · split at h
        · cases h
          rfl
        · unfold filterReading at h
          split at h
          · exact absurd h (by simp)
          · rename_i s1 hst
            have h1 : settings s1 = settings s := by
              unfold storeReading at hst
              split at hst
              · exact absurd hst (by simp)
              · cases hst
                rfl
            rw [finishRead_settings _ _ _ _ _ _ _ h, detectBrewing_settings, h1]

theorem Flt.div_add_self (f : Flt) : Flt.div (Flt.add f f) (Flt.val 2) = f := by
  cases f with
  | nan => rfl
  | val q =>
    show (if (2 : ℚ) = 0 then Flt.nan else Flt.val ((q + q) / 2)) = Flt.val q
    rw [if_neg (by norm_num)]
    congr 1
    ring

theorem calibration_of_settings {s s1 : Scale} (h : settings s1 = settings s) :
    calibration s1 = calibration s := by
  unfold settings at h
  unfold calibration
  simp only [Prod.mk.injEq] at h ⊢
  exact ⟨h.1, h.2.1, h.2.2.1, h.2.2.2.1⟩

theorem meanInv_of_calibration {s s1 : Scale} (h : calibration s1 = calibration s)
    (hd : s.dualHX711 = true) (hm : MeanInv s) : s1.dualHX711 = true ∧ MeanInv s1 := by
  unfold calibration at h
  simp only [Prod.mk.injEq] at h
  obtain ⟨h0, h1, h2, h3⟩ := h
  unfold MeanInv at hm ⊢
  rw [h0, h1, h2, h3]
  exact ⟨hd, hm⟩

theorem beginCalibration_dual (s : Scale) (p : Prefs) (hd : s.dualHX711 = true) :
    (beginCalibration s p).dualHX711 = true ∧ MeanInv (beginCalibration s p) ∧
      (beginCalibration s p).calibrationFactor1 = p.getFloat "calib1" s.calibrationFactor ∧
      (beginCalibration s p).calibrationFactor2 = p.getFloat "calib2" s.calibrationFactor := by
  unfold beginCalibration
  rw [if_pos hd]
  exact ⟨hd, rfl, rfl, rfl⟩

theorem begin_calibration (s : Scale) (p : Prefs) (tested : Bool) (now : Nat) :
    calibration (begin s p tested now).2.1 = calibration (beginCalibration s p) := by
  unfold begin
  dsimp only
  split <;> split <;> rfl

theorem loadDualCalibration_dual (s : Scale) (p : Prefs) (hd : s.dualHX711 = true) :
    (loadDualCalibration s p).dualHX711 = true ∧ MeanInv (loadDualCalibration s p) ∧
      (loadDualCalibration s p).calibrationFactor1 = p.getFloat "calib1" s.calibrationFactor ∧
      (loadDualCalibration s p).calibrationFactor2 = p.getFloat "calib2" s.calibrationFactor := by
  unfold loadDualCalibration
  rw [if_neg (by simp [hd])]
  exact ⟨hd, rfl, rfl, rfl⟩

theorem setCalibrationFactors_dual (s : Scale) (p : Prefs) (f1 f2 : Flt)
    (hd : s.dualHX711 = true) :
    (setCalibrationFactors s p f1 f2).1.dualHX711 = true ∧
      MeanInv (setCalibrationFactors s p f1 f2).1 ∧
      (setCalibrationFactors s p f1 f2).1.calibrationFactor1 = f1 ∧
      (setCalibrationFactors s p f1 f2).1.calibrationFactor2 = f2 ∧
      (setCalibrationFactors s p f1 f2).1.calibrationFactor =
        Flt.div (Flt.add f1 f2) (Flt.val 2) ∧
      (setCalibrationFactors s p f1 f2).2 = (p.putFloat "calib1" f1).putFloat "calib2" f2 := by
  unfold setCalibrationFactors
  rw [if_pos hd]
  refine ⟨hd, rfl, rfl, rfl, rfl, ?_⟩
  show saveDualCalibration _ p = _
  unfold saveDualCalibration
  rw [if_neg (by simp [hd])]

theorem set_scale_changed (s : Scale) (p : Prefs) (f : Flt) (hd : s.dualHX711 = true)
    (hne : Flt.ne s.calibrationFactor f) :
    (set_scale s p f).1.dualHX711 = true ∧
      (set_scale s p f).1.calibrationFactor = f ∧
      (set_scale s p f).1.calibrationFactor1 = f ∧
      (set_scale s p f).1.calibrationFactor2 = f ∧
      (set_scale s p f).2 = (p.putFloat "calib1" f).putFloat "calib2" f := by
  unfold set_scale
  rw [if_pos hne]
  dsimp only
  rw [if_pos hd]
  refine ⟨hd, rfl, rfl, rfl, ?_⟩
  show saveCalibration _ p = _
  unfold saveCalibration
  rw [if_pos hd]

theorem set_scale_unchanged (s : Scale) (p : Prefs) (f : Flt)
    (h : ¬ Flt.ne s.calibrationFactor f) : set_scale s p f = (s, p) := by
  unfold set_scale
  rw [if_neg h]

theorem set_scale_meanInv (s : Scale) (p : Prefs) (f : Flt) (hd : s.dualHX711 = true)
    (hm : MeanInv s) : (set_scale s p f).1.dualHX711 = true ∧ MeanInv (set_scale s p f).1 := by
  by_cases hne : Flt.ne s.calibrationFactor f
  · obtain ⟨h0, h1, h2, h3, -⟩ := set_scale_changed s p f hd hne
    refine ⟨h0, ?_⟩
    unfold MeanInv
    rw [h1, h2, h3, Flt.div_add_self]
  · rw [set_scale_unchanged s p f hne]
    exact ⟨hd, hm⟩

theorem tare_settings (s : Scale) (times : Nat) : settings (tare s times).1 = settings s := by
  unfold tare
  split <;> rfl

theorem setter_calibration (s : Scale) (p : Prefs) :
    (∀ v, calibration (setBrewingThreshold s p v).1 = calibration s) ∧
    (∀ v, calibration (setStabilityTimeout s p v).1 = calibration s) ∧
    (∀ v, calibration (setMedianSamples s p v).1 = calibration s) ∧
    (∀ v, calibration (setAverageSamples s p v).1 = calibration s) := by
  refine ⟨?_, ?_, ?_, ?_⟩
  · intro v
    unfold setBrewingThreshold
    split <;> rfl
  · intro v
    unfold setStabilityTimeout
    split <;> rfl
  · intro v
    unfold setMedianSamples
    split <;> rfl
  · intro v
    unfold setAverageSamples
    split <;> rfl

/-- Every operation other than `loadCalibration` keeps a dual scale dual and keeps the
combined factor equal to the mean of the channel factors. -/
theorem run_meanInv (op : Operation) (s s1 : Scale) (p p1 : Prefs)
    (hop : op ≠ Operation.loadCalibration) (hd : s.dualHX711 = true) (hm : MeanInv s)
    (h : op.run (s, p) = some (s1, p1)) : s1.dualHX711 = true ∧ MeanInv s1 := by
  cases op with
  | begin tested now =>
    simp only [Operation.run, Option.some.injEq] at h
    have hs : s1 = (begin s p tested now).2.1 := by rw [h]
    rw [hs]
    exact meanInv_of_calibration (begin_calibration s p tested now)
      (beginCalibration_dual s p hd).1 (beginCalibration_dual s p hd).2.1
  | tare times =>
    simp only [Operation.run, Option.some.injEq, Prod.mk.injEq] at h
    rw [← h.1]
    exact meanInv_of_calibration (calibration_of_settings (tare_settings s times)) hd hm
  | set_scale factor =>
    simp only [Operation.run, Option.some.injEq] at h
    have hs : s1 = (set_scale s p factor).1 := by rw [h]
    rw [hs]
    exact set_scale_meanInv s p factor hd hm
  | getWeight hw now =>
    simp only [Operation.run] at h
    split at h
    · exact absurd h (by simp)
    · rename_i w s2 hg
      simp only [Option.some.injEq, Prod.mk.injEq] at h
      rw [← h.1]
      exact meanInv_of_calibration (calibration_of_settings (getWeight_settings _ _ _ _ _ hg))
        hd hm
  | saveCalibration =>
    simp only [Operation.run, Option.some.injEq, Prod.mk.injEq] at h
    rw [← h.1]
    exact ⟨hd, hm⟩
  | loadCalibration => exact absurd rfl hop
  | setCalibrationFactors f1 f2 =>
    simp only [Operation.run, Option.some.injEq] at h
    have hs : s1 = (setCalibrationFactors s p f1 f2).1 := by rw [h]
    rw [hs]
    exact ⟨(setCalibrationFactors_dual s p f1 f2 hd).1, (setCalibrationFactors_dual s p f1 f2 hd).2.1⟩
  | saveDualCalibration =>
    simp only [Operation.run, Option.some.injEq, Prod.mk.injEq] at h
    rw [← h.1]
    exact ⟨hd, hm⟩
  | loadDualCalibration =>
    simp only [Operation.run, Option.some.injEq, Prod.mk.injEq] at h
    rw [← h.1]
    exact ⟨(loadDualCalibration_dual s p hd).1, (loadDualCalibration_dual s p hd).2.1⟩
  | setBrewingThreshold v =>
    simp only [Operation.run, Option.some.injEq] at h
    have hs : s1 = (setBrewingThreshold s p v).1 := by rw [h]
    rw [hs]
    exact meanInv_of_calibration ((setter_calibration s p).1 v) hd hm
  | setStabilityTimeout v =>
    simp only [Operation.run, Option.some.injEq] at h
    have hs : s1 = (setStabilityTimeout s p v).1 := by rw [h]
    rw [hs]
    exact meanInv_of_calibration ((setter_calibration s p).2.1 v) hd hm
  | setMedianSamples v =>
    simp only [Operation.run, Option.some.injEq] at h
    have hs : s1 = (setMedianSamples s p v).1 := by rw [h]
    rw [hs]
    exact meanInv_of_calibration ((setter_calibration s p).2.2.1 v) hd hm
  | setAverageSamples v =>
    simp only [Operation.run, Option.some.injEq] at h
    have hs : s1 = (setAverageSamples s p v).1 := by rw [h]
    rw [hs]
    exact meanInv_of_calibration ((setter_calibration s p).2.2.2 v) hd hm
  | saveFilterSettings =>
    simp only [Operation.run, Option.some.injEq, Prod.mk.injEq] at h
    rw [← h.1]
    exact ⟨hd, hm⟩
  | loadFilterSettings =>
    simp only [Operation.run, Option.some.injEq, Prod.mk.injEq] at h
    rw [← h.1]
    exact meanInv_of_calibration rfl hd hm

theorem runAll_meanInv (ops : List Operation) (s s1 : Scale) (p p1 : Prefs)
    (hops : ∀ op ∈ ops, op ≠ Operation.loadCalibration) (hd : s.dualHX711 = true)
    (hm : MeanInv s) (h : runAll ops (s, p) = some (s1, p1)) :
    s1.dualHX711 = true ∧ MeanInv s1 := by
  induction ops generalizing s p with
  | nil =>
    simp only [runAll, Option.some.injEq, Prod.mk.injEq] at h
    rw [← h.1]
    exact ⟨hd, hm⟩
  | cons op ops ih =>
    unfold runAll at h
    split at h
    · exact absurd h (by simp)
    · rename_i sp1 hrun
      obtain ⟨s2, p2⟩ := sp1
      obtain ⟨hd2, hm2⟩ := run_meanInv op s s2 p p2 (hops op (List.mem_cons_self _ _)) hd hm hrun
      exact ih s2 p2 (fun o ho => hops o (List.mem_cons_of_mem _ ho)) hd2 hm2 h

theorem getFloat_putFloat_same (p : Prefs) (k : String) (v d : Flt) :
    (p.putFloat k v).getFloat k d = v := by
  simp [Prefs.getFloat, Prefs.putFloat, List.lookup]

theorem getFloat_putFloat_other (p : Prefs) (k k1 : String) (v d : Flt) (h : k ≠ k1) :
    (p.putFloat k1 v).getFloat k d = p.getFloat k d := by
  have hb : (k == k1) = false := by simpa using h
  simp [Prefs.getFloat, Prefs.putFloat, List.lookup, hb]

theorem getFloat_of_not_isKey (p : Prefs) (k : String) (d : Flt) (h : p.isKey k = false) :
    p.getFloat k d = d := by
  unfold Prefs.isKey at h
  unfold Prefs.getFloat
  cases hl : List.lookup k p with
  | none => rfl
  | some v =>
    rw [hl] at h
    exact absurd h (by simp)

/-- Claim C11 as stated fails. Straight after construction of a dual scale with factor
1000 the channel factors are 0 and the combined factor is 1000, not their mean.  On a
dual scale with channel factors 1000 and 3000 (combined 2000, their mean),
`loadCalibration` with a store holding `calib = 500` sets the combined factor to 500. -/
theorem C11_counterexample :
    (constructDual (Flt.val 1000)).dualHX711 = true ∧
      calibration (constructDual (Flt.val 1000)) =
        (Flt.val 1000, Flt.val 0, Flt.val 0, true) ∧
      ¬ MeanInv (constructDual (Flt.val 1000)) ∧
      dualUnequal.dualHX711 = true ∧ MeanInv dualUnequal ∧
      calibration (loadCalibration dualUnequal [("calib", PVal.float (Flt.val 500))]) =
        (Flt.val 500, Flt.val 1000, Flt.val 3000, true) ∧
      ¬ MeanInv (loadCalibration dualUnequal [("calib", PVal.float (Flt.val 500))]) := by
  decide!

/-- Claim C11, amended. For a dual scale in any state and any store contents: the
calibration load of `begin`, `setCalibrationFactors`, `loadDualCalibration`, and
`set_scale(f)` with `f` different from the combined factor each leave the combined factor
equal to the mean of the two channel factors; once that holds it is kept by every
sequence of operations without `loadCalibration` (so by `set_scale`, `saveCalibration`
and `saveDualCalibration` too); and the two loads do not read the key `calib`.  A
constructed scale has channel factors 0 and the constructor's factor as combined
factor. -/
theorem C11_combined_factor_is_mean (s : Scale) (p : Prefs) (hd : s.dualHX711 = true) :
    (∀ tested now, MeanInv (begin s p tested now).2.1) ∧
    (∀ f1 f2, MeanInv (setCalibrationFactors s p f1 f2).1) ∧
    MeanInv (loadDualCalibration s p) ∧
    (∀ f, Flt.ne s.calibrationFactor f → MeanInv (set_scale s p f).1) ∧
    (MeanInv s → ∀ ops s1 p1, (∀ op ∈ ops, op ≠ Operation.loadCalibration) →
      runAll ops (s, p) = some (s1, p1) → s1.dualHX711 = true ∧ MeanInv s1) ∧
    (∀ v tested now, calibration (begin s (p.putFloat "calib" v) tested now).2.1 =
      calibration (begin s p tested now).2.1) ∧
    (∀ v, loadDualCalibration s (p.putFloat "calib" v) = loadDualCalibration s p) ∧
    (∀ c, calibration (constructDual c) = (c, Flt.val 0, Flt.val 0, true)) := by
  refine ⟨?_, ?_, ?_, ?_, ?_, ?_, ?_, fun _ => rfl⟩
  · intro tested now
    exact (meanInv_of_calibration (begin_calibration s p tested now)
      (beginCalibration_dual s p hd).1 (beginCalibration_dual s p hd).2.1).2
  · intro f1 f2
    exact (setCalibrationFactors_dual s p f1 f2 hd).2.1
  · exact (loadDualCalibration_dual s p hd).2.1
  · intro f hne
    obtain ⟨-, h1, h2, h3, -⟩ := set_scale_changed s p f hd hne
    unfold MeanInv
    rw [h1, h2, h3, Flt.div_add_self]
  · intro hm ops s1 p1 hops hrun
    exact runAll_meanInv ops s s1 p p1 hops hd hm hrun
  · intro v tested now
    rw [begin_calibration, begin_calibration]
    unfold beginCalibration
    rw [if_pos hd, if_pos hd]
    dsimp only
    rw [getFloat_putFloat_other _ _ _ _ _ (by decide),
      getFloat_putFloat_other _ _ _ _ _ (by decide)]
  · intro v
    unfold loadDualCalibration
    rw [if_neg (by simp [hd]), if_neg (by simp [hd])]
    dsimp only
    rw [getFloat_putFloat_other _ _ _ _ _ (by decide),
      getFloat_putFloat_other _ _ _ _ _ (by decide)]

theorem C11_witness :
    (constructDual (Flt.val 1000)).dualHX711 = true ∧
      MeanInv (begin (constructDual (Flt.val 1000)) [] true 50).2.1 ∧
      MeanInv (setCalibrationFactors (constructDual (Flt.val 1000)) []
        (Flt.val 1000) (Flt.val 3000)).1 ∧
      MeanInv (loadDualCalibration (constructDual (Flt.val 1000)) []) ∧
      MeanInv (set_scale (constructDual (Flt.val 1000)) [] (Flt.val 2000)).1 :=
  have h := C11_combined_factor_is_mean (constructDual (Flt.val 1000)) [] rfl
  ⟨rfl, h.1 true 50, h.2.1 _ _, h.2.2.1, h.2.2.2.1 _ (by decide!)⟩

/-- Claim C12 as stated fails. On a dual scale with channel factors 1000 and 3000 the
combined factor is 2000; `set_scale(2000)` then changes nothing, and the channel factors
stay 1000 and 3000. -/
theorem C12_counterexample :
    dualUnequal.dualHX711 = true ∧
      calibration dualUnequal = (Flt.val 2000, Flt.val 1000, Flt.val 3000, true) ∧
      calibration (set_scale dualUnequal [] (Flt.val 2000)).1 =
        (Flt.val 2000, Flt.val 1000, Flt.val 3000, true) := by
  decide!

/-- Claim C12, amended. For a dual scale in any state: `set_scale(f)` with `f` different
from the current combined factor (the test `calibrationFactor != factor`) sets both
channel factors and the combined factor to `f` and saves the two channel factors; with
`f` equal to the combined factor it changes neither the scale nor the store.  After
`setCalibrationFactors(f1, f2)` the channel factors are `f1` and `f2` and the combined
factor is `(f1 + f2) / 2`. -/
theorem C12_set_scale_and_factors (s : Scale) (p : Prefs) (hd : s.dualHX711 = true) :
    (∀ f, Flt.ne s.calibrationFactor f →
      (set_scale s p f).1.calibrationFactor1 = f ∧
      (set_scale s p f).1.calibrationFactor2 = f ∧
      (set_scale s p f).1.calibrationFactor = f ∧
      (set_scale s p f).2 = (p.putFloat "calib1" f).putFloat "calib2" f) ∧
    (∀ f, ¬ Flt.ne s.calibrationFactor f → set_scale s p f = (s, p)) ∧
    (∀ f1 f2,
      (setCalibrationFactors s p f1 f2).1.calibrationFactor1 = f1 ∧
      (setCalibrationFactors s p f1 f2).1.calibrationFactor2 = f2 ∧
      (setCalibrationFactors s p f1 f2).1.calibrationFactor =
        Flt.div (Flt.add f1 f2) (Flt.val 2)) := by
  refine ⟨?_, ?_, ?_⟩
  · intro f hne
    obtain ⟨-, h1, h2, h3, h4⟩ := set_scale_changed s p f hd hne
    exact ⟨h2, h3, h1, h4⟩
  · intro f hne
    exact set_scale_unchanged s p f hne
  · intro f1 f2
    obtain ⟨-, -, h1, h2, h3, -⟩ := setCalibrationFactors_dual s p f1 f2 hd
    exact ⟨h1, h2, h3⟩

theorem C12_witness :
    dualUnequal.dualHX711 = true ∧ Flt.ne dualUnequal.calibrationFactor (Flt.val 1500) ∧
      (set_scale dualUnequal [] (Flt.val 1500)).1.calibrationFactor1 = Flt.val 1500 ∧
      (set_scale dualUnequal [] (Flt.val 1500)).1.calibrationFactor2 = Flt.val 1500 ∧
      (set_scale dualUnequal [] (Flt.val 1500)).1.calibrationFactor = Flt.val 1500 ∧
      ¬ Flt.ne dualUnequal.calibrationFactor (Flt.val 2000) ∧
      set_scale dualUnequal [] (Flt.val 2000) = (dualUnequal, []) :=
  have h := C12_set_scale_and_factors dualUnequal [] (by decide!)
  have hne : Flt.ne dualUnequal.calibrationFactor (Flt.val 1500) := by decide!
  have heq : ¬ Flt.ne dualUnequal.calibrationFactor (Flt.val 2000) := by decide!
  ⟨by decide!, hne, (h.1 _ hne).1, (h.1 _ hne).2.1, (h.1 _ hne).2.2.1, heq, h.2.1 _ heq⟩

theorem saveCalibration_dual (s : Scale) (p : Prefs) (hd : s.dualHX711 = true) :
    saveCalibration s p =
      (p.putFloat "calib1" s.calibrationFactor1).putFloat "calib2" s.calibrationFactor2 := by
  unfold saveCalibration
  rw [if_pos hd]

theorem saveDualCalibration_dual (s : Scale) (p : Prefs) (hd : s.dualHX711 = true) :
    saveDualCalibration s p =
      (p.putFloat "calib1" s.calibrationFactor1).putFloat "calib2" s.calibrationFactor2 := by
  unfold saveDualCalibration
  rw [if_neg (by simp [hd])]

theorem begin_calibration_fields (s : Scale) (p : Prefs) (tested : Bool) (now : Nat) :
    (begin s p tested now).2.1.calibrationFactor = (beginCalibration s p).calibrationFactor ∧
    (begin s p tested now).2.1.calibrationFactor1 =
      (beginCalibration s p).calibrationFactor1 ∧
    (begin s p tested now).2.1.calibrationFactor2 =
      (beginCalibration s p).calibrationFactor2 := by
  have h := begin_calibration s p tested now
  unfold calibration at h
  simp only [Prod.mk.injEq] at h
  exact ⟨h.1, h.2.1, h.2.2.1⟩

/-- Both channel factors survive a save followed by a load on a dual scale. -/
theorem dual_round_trip (p : Prefs) (f1 f2 : Flt) (s1 : Scale) (hd : s1.dualHX711 = true) :
    (loadDualCalibration s1 ((p.putFloat "calib1" f1).putFloat "calib2" f2)).calibrationFactor1
        = f1 ∧
    (loadDualCalibration s1 ((p.putFloat "calib1" f1).putFloat "calib2" f2)).calibrationFactor2
        = f2 ∧
    (beginCalibration s1 ((p.putFloat "calib1" f1).putFloat "calib2" f2)).calibrationFactor1
        = f1 ∧
    (beginCalibration s1 ((p.putFloat "calib1" f1).putFloat "calib2" f2)).calibrationFactor2
        = f2 := by
  obtain ⟨-, -, h1, h2⟩ :=
    loadDualCalibration_dual s1 ((p.putFloat "calib1" f1).putFloat "calib2" f2) hd
  obtain ⟨-, -, h3, h4⟩ :=
    beginCalibration_dual s1 ((p.putFloat "calib1" f1).putFloat "calib2" f2) hd
  rw [h1, h2, h3, h4, getFloat_putFloat_other _ _ _ _ _ (by decide), getFloat_putFloat_same,
    getFloat_putFloat_same]
  exact ⟨rfl, rfl, rfl, rfl⟩

/-- Claim C13. Over the key-value store: in single mode `saveCalibration` followed by
`loadCalibration` (or by the load of `begin`) on any single scale yields the saved
factor; in dual mode either save followed by `loadDualCalibration` or by the load of
`begin` on any dual scale yields both saved channel factors; and with no persisted record
the load on a constructed scale yields the constructor's factor (for both channels in
dual mode).  This holds for every factor, zero and not-a-number included. -/
theorem C13_calibration_round_trip :
    (∀ (s s1 : Scale) (p : Prefs), s.dualHX711 = false →
      (loadCalibration s1 (saveCalibration s p)).calibrationFactor = s.calibrationFactor ∧
      (s1.dualHX711 = false → ∀ tested now,
        (begin s1 (saveCalibration s p) tested now).2.1.calibrationFactor =
          s.calibrationFactor)) ∧
    (∀ (s s1 : Scale) (p : Prefs), s.dualHX711 = true → s1.dualHX711 = true →
      ∀ saved, saved = saveCalibration s p ∨ saved = saveDualCalibration s p →
        (loadDualCalibration s1 saved).calibrationFactor1 = s.calibrationFactor1 ∧
        (loadDualCalibration s1 saved).calibrationFactor2 = s.calibrationFactor2 ∧
        ∀ tested now,
          (begin s1 saved tested now).2.1.calibrationFactor1 = s.calibrationFactor1 ∧
          (begin s1 saved tested now).2.1.calibrationFactor2 = s.calibrationFactor2) ∧
    (∀ (c : Flt) (p : Prefs), p.isKey "calib" = false →
      (loadCalibration (constructSingle c) p).calibrationFactor = c ∧
      ∀ tested now, (begin (constructSingle c) p tested now).2.1.calibrationFactor = c) ∧
    (∀ (c : Flt) (p : Prefs), p.isKey "calib1" = false → p.isKey "calib2" = false →
      (loadDualCalibration (constructDual c) p).calibrationFactor1 = c ∧
      (loadDualCalibration (constructDual c) p).calibrationFactor2 = c ∧
      (loadDualCalibration (constructDual c) p).calibrationFactor = c ∧
      ∀ tested now,
        (begin (constructDual c) p tested now).2.1.calibrationFactor1 = c ∧
        (begin (constructDual c) p tested now).2.1.calibrationFactor2 = c ∧
        (begin (constructDual c) p tested now).2.1.calibrationFactor = c) := by
  refine ⟨?_, ?_, ?_, ?_⟩
  · intro s s1 p hs
    have hsave : saveCalibration s p = p.putFloat "calib" s.calibrationFactor := by
      unfold saveCalibration
      rw [if_neg (by simp [hs])]
    refine ⟨?_, ?_⟩
    · rw [hsave]
      show (p.putFloat "calib" s.calibrationFactor).getFloat "calib" s1.calibrationFactor = _
      exact getFloat_putFloat_same _ _ _ _
    · intro hs1 tested now
      rw [(begin_calibration_fields s1 _ tested now).1, hsave]
      unfold beginCalibration
      rw [if_neg (by simp [hs1])]
      show (p.putFloat "calib" s.calibrationFactor).getFloat "calib" s1.calibrationFactor = _
      exact getFloat_putFloat_same _ _ _ _
  · intro s s1 p hs hs1 saved hsaved
    have hsave : saved =
        (p.putFloat "calib1" s.calibrationFactor1).putFloat "calib2" s.calibrationFactor2 := by
      rcases hsaved with h | h
      · rw [h, saveCalibration_dual s p hs]
      · rw [h, saveDualCalibration_dual s p hs]
    obtain ⟨h1, h2, h3, h4⟩ := dual_round_trip p s.calibrationFactor1 s.calibrationFactor2 s1 hs1
    rw [hsave]
    refine ⟨h1, h2, ?_⟩
    intro tested now
    obtain ⟨-, hb1, hb2⟩ := begin_calibration_fields s1
      ((p.putFloat "calib1" s.calibrationFactor1).putFloat "calib2" s.calibrationFactor2)
      tested now
    rw [hb1, hb2]
    exact ⟨h3, h4⟩
  · intro c p hk
    have hload : (loadCalibration (constructSingle c) p).calibrationFactor = c :=
      getFloat_of_not_isKey p "calib" c hk
    refine ⟨hload, ?_⟩
    intro tested now
    rw [(begin_calibration_fields (constructSingle c) p tested now).1]
    exact hload
  · intro c p hk1 hk2
    obtain ⟨-, hm, h1, h2⟩ := loadDualCalibration_dual (constructDual c) p rfl
    obtain ⟨-, hmb, hb1, hb2⟩ := beginCalibration_dual (constructDual c) p rfl
    have hc : (constructDual c).calibrationFactor = c := rfl
    rw [hc, getFloat_of_not_isKey p _ c hk1] at h1 hb1
    rw [hc, getFloat_of_not_isKey p _ c hk2] at h2 hb2
    unfold MeanInv at hm hmb
    rw [h1, h2, Flt.div_add_self] at hm
    rw [hb1, hb2, Flt.div_add_self] at hmb
    refine ⟨h1, h2, hm, ?_⟩
    intro tested now
    obtain ⟨hf, hf1, hf2⟩ := begin_calibration_fields (constructDual c) p tested now
    rw [hf, hf1, hf2]
    exact ⟨hb1, hb2, hmb⟩

theorem C13_witness :
    (loadCalibration (constructSingle (Flt.val 1))
        (saveCalibration (constructSingle (Flt.val 2000)) [])).calibrationFactor =
        Flt.val 2000 ∧
      (loadDualCalibration (constructDual (Flt.val 1))
        (saveCalibration dualUnequal [])).calibrationFactor1 = Flt.val 1000 ∧
      (loadDualCalibration (constructDual (Flt.val 1))
        (saveCalibration dualUnequal [])).calibrationFactor2 = Flt.val 3000 ∧
      (loadCalibration (constructSingle (Flt.val 2000)) []).calibrationFactor =
        Flt.val 2000 ∧
      (loadDualCalibration (constructDual (Flt.val 2000)) []).calibrationFactor1 =
        Flt.val 2000 :=
  have hd := C13_calibration_round_trip.2.1 dualUnequal (constructDual (Flt.val 1)) []
    (by decide!) rfl _ (Or.inl rfl)
  ⟨(C13_calibration_round_trip.1 (constructSingle (Flt.val 2000))
      (constructSingle (Flt.val 1)) [] rfl).1,
    hd.1.trans (by decide!), hd.2.1.trans (by decide!),
    (C13_calibration_round_trip.2.2.1 (Flt.val 2000) [] rfl).1,
    (C13_calibration_round_trip.2.2.2 (Flt.val 2000) [] rfl rfl).1⟩

/-! ## Start-up threshold and health status -/

/-- Claim C14 as stated fails. With an empty store and the constructor factor -3000,
whose magnitude 3000 is not below 2500, `begin` sets the threshold to 0.25, not 0.1. -/
theorem C14_counterexample :
    Prefs.isKey [] "brew_thresh" = false ∧
      Flt.abs (Flt.val (-3000)) = Flt.val 3000 ∧
      (begin (constructSingle (Flt.val (-3000))) [] true 50).2.1.calibrationFactor =
        Flt.val (-3000) ∧
      (begin (constructSingle (Flt.val (-3000))) [] true 50).2.1.brewingThreshold =
        Flt.val (25 / 100) := by
  decide!

/-- Claim C14, amended. When `begin` runs on a store without the key `brew_thresh`, the
brewing threshold is chosen from the signed calibration factor `c` left by the
calibration load: 0.25 if `c < 1000` (every negative factor included), 0.15 if `c` is not
below 1000 but below 2500, and 0.1 otherwise; that value and the three other parameters
as loaded are written to the store.  For `c >= 0` this is the choice by magnitude. -/
theorem C14_first_boot_threshold (s : Scale) (p : Prefs) (tested : Bool) (now : Nat)
    (hkey : p.isKey "brew_thresh" = false) :
    (begin s p tested now).2.1.calibrationFactor = (beginCalibration s p).calibrationFactor ∧
    (Flt.lt (beginCalibration s p).calibrationFactor (Flt.val 1000) →
      (begin s p tested now).2.1.brewingThreshold = Flt.val (25 / 100)) ∧
    (¬ Flt.lt (beginCalibration s p).calibrationFactor (Flt.val 1000) →
      Flt.lt (beginCalibration s p).calibrationFactor (Flt.val 2500) →
      (begin s p tested now).2.1.brewingThreshold = Flt.val (15 / 100)) ∧
    (¬ Flt.lt (beginCalibration s p).calibrationFactor (Flt.val 1000) →
      ¬ Flt.lt (beginCalibration s p).calibrationFactor (Flt.val 2500) →
      (begin s p tested now).2.1.brewingThreshold = Flt.val (1 / 10)) ∧
    (begin s p tested now).2.2 =
      tuningWrites (begin s p tested now).2.1.brewingThreshold (p.getULong "stab_timeout" 2000)
        (p.getInt "median_samples" 3) (p.getInt "avg_samples" 2) ++ p ∧
    (∀ q : ℚ, 0 ≤ q → (Flt.lt (Flt.val q) (Flt.val 1000) ↔ |q| < 1000) ∧
      (Flt.lt (Flt.val q) (Flt.val 2500) ↔ |q| < 2500)) := by
  have hthr : (begin s p tested now).2.1.brewingThreshold =
      autoThreshold (beginCalibration s p).calibrationFactor := by
    unfold begin
    simp only [hkey, Bool.not_false, if_true]
    cases tested <;> rfl
  refine ⟨(begin_calibration_fields s p tested now).1, ?_, ?_, ?_, ?_, ?_⟩
  · intro h
    rw [hthr]
    unfold autoThreshold
    rw [if_pos h]
  · intro h1 h2
    rw [hthr]
    unfold autoThreshold
    rw [if_neg h1, if_pos h2]
  · intro h1 h2
    rw [hthr]
    unfold autoThreshold
    rw [if_neg h1, if_neg h2]
  · rw [hthr]
    unfold begin
    simp only [hkey, Bool.not_false, if_true]
    cases tested <;> rfl
  · intro q hq
    rw [abs_of_nonneg hq]
    exact ⟨Iff.rfl, Iff.rfl⟩

theorem C14_witness :
    Prefs.isKey [] "brew_thresh" = false ∧
      (begin (constructSingle (Flt.val 500)) [] true 50).2.1.brewingThreshold =
        Flt.val (25 / 100) ∧
      (begin (constructSingle (Flt.val 2000)) [] true 50).2.1.brewingThreshold =
        Flt.val (15 / 100) ∧
      (begin (constructSingle (Flt.val 4000)) [] true 50).2.1.brewingThreshold =
        Flt.val (1 / 10) ∧
      (begin (constructSingle (Flt.val 4000)) [] true 50).2.2 =
        tuningWrites (Flt.val (1 / 10)) 2000 3 2 :=
  have h1 := C14_first_boot_threshold (constructSingle (Flt.val 500)) [] true 50 rfl
  have h2 := C14_first_boot_threshold (constructSingle (Flt.val 2000)) [] true 50 rfl
  have h3 := C14_first_boot_threshold (constructSingle (Flt.val 4000)) [] true 50 rfl
  ⟨rfl, h1.2.1 (by decide!), h2.2.2.1 (by decide!) (by decide!),
    h3.2.2.2.1 (by decide!) (by decide!), h3.2.2.2.2.1.trans (by decide!)⟩

/-- Claim C15, the code at the failing input. A connected single scale last read its
sensor successfully at 100 ms.  From 1000 ms to 7000 ms the sensor is not ready on every
poll, yet each poll stamps `lastSuccessfulRead`, and the status at 7000 ms is
`SINGLE_OK`.  Without the polls the status at 7000 ms is `SINGLE_FAILED`. -/
theorem C15_not_ready_polls_report_ok :
    stableZero.isConnected = true ∧ stableZero.lastSuccessfulRead = 100 ∧
      getHX711Status stableZero 7000 = "SINGLE_FAILED" ∧
      lastSuccessAfter stableZero [(notReady, 1000)] = some 1000 ∧
      lastSuccessAfter stableZero
          [(notReady, 1000), (notReady, 2000), (notReady, 3000), (notReady, 4000),
            (notReady, 5000), (notReady, 6000), (notReady, 7000)] = some 7000 ∧
      statusAfter stableZero
          [(notReady, 1000), (notReady, 2000), (notReady, 3000), (notReady, 4000),
            (notReady, 5000), (notReady, 6000), (notReady, 7000)] 7000 = some "SINGLE_OK" := by
  decide!

/-! ## Tuning bounds -/

theorem storedTuning_tuningWrites (b : Flt) (t : Nat) (m a : Int) (p : Prefs) :
    storedTuning (tuningWrites b t m a ++ p) = (b, t, m, a) := by
  simp [storedTuning, Prefs.getFloat, Prefs.getULong, Prefs.getInt, tuningWrites, List.lookup]

theorem saveFilterSettings_eq (s : Scale) (p : Prefs) :
    saveFilterSettings s p =
      tuningWrites s.brewingThreshold s.stabilityTimeout s.medianSamples s.averageSamples ++ p :=
  rfl

theorem storedTuning_saveFilterSettings (s : Scale) (p : Prefs) :
    storedTuning (saveFilterSettings s p) = tuning s := by
  rw [saveFilterSettings_eq, storedTuning_tuningWrites]
  rfl

theorem storedTuning_putFloat (p : Prefs) (k : String) (v : Flt)
    (h1 : k ≠ "brew_thresh") (h2 : k ≠ "stab_timeout") (h3 : k ≠ "median_samples")
    (h4 : k ≠ "avg_samples") : storedTuning (p.putFloat k v) = storedTuning p := by
  have e1 : ("brew_thresh" == k) = false := by simpa using fun h => h1 h.symm
  have e2 : ("stab_timeout" == k) = false := by simpa using fun h => h2 h.symm
  have e3 : ("median_samples" == k) = false := by simpa using fun h => h3 h.symm
  have e4 : ("avg_samples" == k) = false := by simpa using fun h => h4 h.symm
  simp [storedTuning, Prefs.getFloat, Prefs.getULong, Prefs.getInt, Prefs.putFloat,
    List.lookup, e1, e2, e3, e4]

theorem inBounds_autoThreshold (c : Flt) :
    Flt.ge (autoThreshold c) (Flt.val (5 / 100)) ∧ Flt.le (autoThreshold c) (Flt.val 1) := by
  unfold autoThreshold
  split
  · simp
    norm_num
  · split
    · simp
      norm_num
    · simp
      norm_num

/-- What `begin` leaves as tuning parameters and store: the stored parameters when the
key `brew_thresh` is present, otherwise the chosen threshold with the other three as
stored, written back. -/
theorem begin_tuning (s : Scale) (p : Prefs) (tested : Bool) (now : Nat) :
    (p.isKey "brew_thresh" = true →
      tuning (begin s p tested now).2.1 = storedTuning p ∧ (begin s p tested now).2.2 = p) ∧
    (p.isKey "brew_thresh" = false →
      tuning (begin s p tested now).2.1 =
        (autoThreshold (beginCalibration s p).calibrationFactor, (storedTuning p).2) ∧
      storedTuning (begin s p tested now).2.2 = tuning (begin s p tested now).2.1) := by
  constructor
  · intro hkey
    unfold begin
    simp only [hkey, Bool.not_true, Bool.false_eq_true, if_false]
    cases tested <;> exact ⟨rfl, rfl⟩
  · intro hkey
    unfold begin
    simp only [hkey, Bool.not_false, if_true]
    cases tested <;> exact ⟨rfl, storedTuning_saveFilterSettings _ _⟩

theorem setters_keep_bounds (s : Scale) (p : Prefs) (hs : TuningOk s) (hp : StoreOk p) :
    (∀ v, TuningOk (setBrewingThreshold s p v).1 ∧ StoreOk (setBrewingThreshold s p v).2) ∧
    (∀ v, TuningOk (setStabilityTimeout s p v).1 ∧ StoreOk (setStabilityTimeout s p v).2) ∧
    (∀ v, TuningOk (setMedianSamples s p v).1 ∧ StoreOk (setMedianSamples s p v).2) ∧
    (∀ v, TuningOk (setAverageSamples s p v).1 ∧ StoreOk (setAverageSamples s p v).2) := by
  unfold TuningOk InBounds tuning at hs
  refine ⟨?_, ?_, ?_, ?_⟩
  · intro v
    unfold setBrewingThreshold
    split
    · rename_i hv
      have h : TuningOk { s with brewingThreshold := v } := ⟨hv, hs.2⟩
      exact ⟨h, by unfold StoreOk; rw [storedTuning_saveFilterSettings]; exact h⟩
    · exact ⟨hs, hp⟩
  · intro v
    unfold setStabilityTimeout
    split
    · rename_i hv
      have h : TuningOk { s with stabilityTimeout := v } := ⟨hs.1, ⟨hv.1, hv.2⟩, hs.2.2⟩
      exact ⟨h, by unfold StoreOk; rw [storedTuning_saveFilterSettings]; exact h⟩
    · exact ⟨hs, hp⟩
  · intro v
    unfold setMedianSamples
    split
    · rename_i hv
      have h : TuningOk { s with medianSamples := v } :=
        ⟨hs.1, hs.2.1, ⟨hv.1, hv.2⟩, hs.2.2.2⟩
      exact ⟨h, by unfold StoreOk; rw [storedTuning_saveFilterSettings]; exact h⟩
    · exact ⟨hs, hp⟩
  · intro v
    unfold setAverageSamples
    split
    · rename_i hv
      have h : TuningOk { s with averageSamples := v } :=
        ⟨hs.1, hs.2.1, hs.2.2.1, ⟨hv.1, hv.2⟩⟩
      exact ⟨h, by unfold StoreOk; rw [storedTuning_saveFilterSettings]; exact h⟩
    · exact ⟨hs, hp⟩

theorem tuning_of_settings {s s1 : Scale} (h : settings s1 = settings s) :
    tuning s1 = tuning s := by
  unfold settings at h
  unfold tuning
  simp only [Prod.mk.injEq] at h ⊢
  exact ⟨h.2.2.2.2.1, h.2.2.2.2.2.1, h.2.2.2.2.2.2.1, h.2.2.2.2.2.2.2⟩

theorem storedTuning_saveCalibration (s : Scale) (p : Prefs) :
    storedTuning (saveCalibration s p) = storedTuning p ∧
      storedTuning (saveDualCalibration s p) = storedTuning p := by
  unfold saveCalibration saveDualCalibration
  constructor
  · split
    · rw [storedTuning_putFloat _ _ _ (by decide) (by decide) (by decide) (by decide),
        storedTuning_putFloat _ _ _ (by decide) (by decide) (by decide) (by decide)]
    · rw [storedTuning_putFloat _ _ _ (by decide) (by decide) (by decide) (by decide)]
  · split
    · rfl
    · rw [storedTuning_putFloat _ _ _ (by decide) (by decide) (by decide) (by decide),
        storedTuning_putFloat _ _ _ (by decide) (by decide) (by decide) (by decide)]

theorem set_scale_tuning (s : Scale) (p : Prefs) (f : Flt) :
    tuning (set_scale s p f).1 = tuning s ∧
      storedTuning (set_scale s p f).2 = storedTuning p := by
  unfold set_scale
  split
  · dsimp only
    split
    · exact ⟨rfl, (storedTuning_saveCalibration _ p).1⟩
    · exact ⟨rfl, (storedTuning_saveCalibration _ p).1⟩
  · exact ⟨rfl, rfl⟩

theorem setCalibrationFactors_tuning (s : Scale) (p : Prefs) (f1 f2 : Flt) :
    tuning (setCalibrationFactors s p f1 f2).1 = tuning s ∧
      storedTuning (setCalibrationFactors s p f1 f2).2 = storedTuning p := by
  unfold setCalibrationFactors
  split
  · exact ⟨rfl, (storedTuning_saveCalibration _ p).2⟩
  · exact set_scale_tuning s p f1

theorem loadDualCalibration_tuning (s : Scale) (p : Prefs) :
    tuning (loadDualCalibration s p) = tuning s := by
  unfold loadDualCalibration
  split <;> rfl

/-- Every operation keeps the tuning parameters of the scale and those held by the store
within their bounds. -/
theorem run_keeps_bounds (op : Operation) (s s1 : Scale) (p p1 : Prefs)
    (hs : TuningOk s) (hp : StoreOk p) (h : op.run (s, p) = some (s1, p1)) :
    TuningOk s1 ∧ StoreOk p1 := by
  cases op with
  | begin tested now =>
    simp only [Operation.run, Option.some.injEq] at h
    have h1 : s1 = (begin s p tested now).2.1 := by rw [h]
    have h2 : p1 = (begin s p tested now).2.2 := by rw [h]
    rw [h1, h2]
    cases hkey : p.isKey "brew_thresh" with
    | true =>
      obtain ⟨ht, hst⟩ := (begin_tuning s p tested now).1 hkey
      unfold TuningOk
      rw [ht, hst]
      exact ⟨hp, hp⟩
    | false =>
      obtain ⟨ht, hst⟩ := (begin_tuning s p tested now).2 hkey
      have hb : TuningOk (begin s p tested now).2.1 := by
        unfold TuningOk
        rw [ht]
        exact ⟨inBounds_autoThreshold _, hp.2⟩
      refine ⟨hb, ?_⟩
      unfold StoreOk
      rw [hst]
      exact hb
  | tare times =>
    simp only [Operation.run, Option.some.injEq, Prod.mk.injEq] at h
    rw [← h.1, ← h.2]
    refine ⟨?_, hp⟩
    unfold TuningOk
    rw [tuning_of_settings (tare_settings s times)]
    exact hs
  | set_scale factor =>
    simp only [Operation.run, Option.some.injEq] at h
    have h1 : s1 = (set_scale s p factor).1 := by rw [h]
    have h2 : p1 = (set_scale s p factor).2 := by rw [h]
    rw [h1, h2]
    unfold TuningOk StoreOk
    rw [(set_scale_tuning s p factor).1, (set_scale_tuning s p factor).2]
    exact ⟨hs, hp⟩
  | getWeight hw now =>
    simp only [Operation.run] at h
    split at h
    · exact absurd h (by simp)
    · rename_i w s2 hg
      simp only [Option.some.injEq, Prod.mk.injEq] at h
      rw [← h.1, ← h.2]
      refine ⟨?_, hp⟩
      unfold TuningOk
      rw [tuning_of_settings (getWeight_settings _ _ _ _ _ hg)]
      exact hs
  | saveCalibration =>
    simp only [Operation.run, Option.some.injEq, Prod.mk.injEq] at h
    rw [← h.1, ← h.2]
    refine ⟨hs, ?_⟩
    unfold StoreOk
    rw [(storedTuning_saveCalibration s p).1]
    exact hp
  | loadCalibration =>
    simp only [Operation.run, Option.some.injEq, Prod.mk.injEq] at h
    rw [← h.1, ← h.2]
    exact ⟨hs, hp⟩
  | setCalibrationFactors f1 f2 =>
    simp only [Operation.run, Option.some.injEq] at h
    have h1 : s1 = (setCalibrationFactors s p f1 f2).1 := by rw [h]
    have h2 : p1 = (setCalibrationFactors s p f1 f2).2 := by rw [h]
    rw [h1, h2]
    unfold TuningOk StoreOk
    rw [(setCalibrationFactors_tuning s p f1 f2).1, (setCalibrationFactors_tuning s p f1 f2).2]
    exact ⟨hs, hp⟩
  | saveDualCalibration =>
    simp only [Operation.run, Option.some.injEq, Prod.mk.injEq] at h
    rw [← h.1, ← h.2]
    refine ⟨hs, ?_⟩
    unfold StoreOk
    rw [(storedTuning_saveCalibration s p).2]
    exact hp
  | loadDualCalibration =>
    simp only [Operation.run, Option.some.injEq, Prod.mk.injEq] at h
    rw [← h.1, ← h.2]
    refine ⟨?_, hp⟩
    unfold TuningOk
    rw [loadDualCalibration_tuning]
    exact hs
  | setBrewingThreshold v =>
    simp only [Operation.run, Option.some.injEq] at h
    have h1 : s1 = (setBrewingThreshold s p v).1 := by rw [h]
    have h2 : p1 = (setBrewingThreshold s p v).2 := by rw [h]
    rw [h1, h2]
    exact (setters_keep_bounds s p hs hp).1 v
  | setStabilityTimeout v =>
    simp only [Operation.run, Option.some.injEq] at h
    have h1 : s1 = (setStabilityTimeout s p v).1 := by rw [h]
    have h2 : p1 = (setStabilityTimeout s p v).2 := by rw [h]
    rw [h1, h2]
    exact (setters_keep_bounds s p hs hp).2.1 v
  | setMedianSamples v =>
    simp only [Operation.run, Option.some.injEq] at h
    have h1 : s1 = (setMedianSamples s p v).1 := by rw [h]
    have h2 : p1 = (setMedianSamples s p v).2 := by rw [h]
    rw [h1, h2]
    exact (setters_keep_bounds s p hs hp).2.2.1 v
  | setAverageSamples v =>
    simp only [Operation.run, Option.some.injEq] at h
    have h1 : s1 = (setAverageSamples s p v).1 := by rw [h]
    have h2 : p1 = (setAverageSamples s p v).2 := by rw [h]
    rw [h1, h2]
    exact (setters_keep_bounds s p hs hp).2.2.2 v
  | saveFilterSettings =>
    simp only [Operation.run, Option.some.injEq, Prod.mk.injEq] at h
    rw [← h.1, ← h.2]
    refine ⟨hs, ?_⟩
    unfold StoreOk
    rw [storedTuning_saveFilterSettings]
    exact hs
  | loadFilterSettings =>
    simp only [Operation.run, Option.some.injEq, Prod.mk.injEq] at h
    rw [← h.1, ← h.2]
    exact ⟨hp, hp⟩

theorem runAll_keeps_bounds (ops : List Operation) (s s1 : Scale) (p p1 : Prefs)
    (hs : TuningOk s) (hp : StoreOk p) (h : runAll ops (s, p) = some (s1, p1)) :
    TuningOk s1 ∧ StoreOk p1 := by
  induction ops generalizing s p with
  | nil =>
    simp only [runAll, Option.some.injEq, Prod.mk.injEq] at h
    rw [← h.1, ← h.2]
    exact ⟨hs, hp⟩
  | cons op ops ih =>
    unfold runAll at h
    split at h
    · exact absurd h (by simp)
    · rename_i sp1 hrun
      obtain ⟨s2, p2⟩ := sp1
      obtain ⟨hs2, hp2⟩ := run_keeps_bounds op s s2 p p2 hs hp hrun
      exact ih s2 p2 hs2 hp2 h

theorem tuningOk_construct (dual : Bool) (c : Flt) : TuningOk (construct dual c) := by
  unfold TuningOk InBounds tuning construct
  simp
  norm_num

theorem runAll_tuning_returns (ops : List Operation) (sp : Scale × Prefs)
    (hops : ∀ op ∈ ops, op.isTuning = true) : ∃ sp1, runAll ops sp = some sp1 := by
  induction ops generalizing sp with
  | nil => exact ⟨sp, rfl⟩
  | cons op ops ih =>
    have hop := hops op (List.mem_cons_self _ _)
    have hrest : ∀ o ∈ ops, o.isTuning = true := fun o ho => hops o (List.mem_cons_of_mem _ ho)
    obtain ⟨s, p⟩ := sp
    unfold runAll
    cases op with
    | begin tested now => exact ih _ hrest
    | setBrewingThreshold v => exact ih _ hrest
    | setStabilityTimeout v => exact ih _ hrest
    | setMedianSamples v => exact ih _ hrest
    | setAverageSamples v => exact ih _ hrest
    | loadFilterSettings => exact ih _ hrest
    | tare times => exact absurd hop (by simp [Operation.isTuning])
    | set_scale f => exact absurd hop (by simp [Operation.isTuning])
    | getWeight hw now => exact absurd hop (by simp [Operation.isTuning])
    | saveCalibration => exact absurd hop (by simp [Operation.isTuning])
    | loadCalibration => exact absurd hop (by simp [Operation.isTuning])
    | setCalibrationFactors f1 f2 => exact absurd hop (by simp [Operation.isTuning])
    | saveDualCalibration => exact absurd hop (by simp [Operation.isTuning])
    | loadDualCalibration => exact absurd hop (by simp [Operation.isTuning])
    | saveFilterSettings => exact absurd hop (by simp [Operation.isTuning])

/-- Claim C16 as stated fails. On a store that holds threshold 5 g and zero average
samples, `loadFilterSettings` and `begin` both leave the constructed scale with
`brewingThreshold = 5` and `averageSamples = 0`, outside the bounds. -/
theorem C16_counterexample :
    tuningAfter [Operation.loadFilterSettings] (constructSingle (Flt.val 2000)) foreignStore =
        some (Flt.val 5, 2000, 3, 0) ∧
      tuningAfter [Operation.begin true 50] (constructSingle (Flt.val 2000)) foreignStore =
        some (Flt.val 5, 2000, 3, 0) ∧
      ¬ InBounds (Flt.val 5, 2000, 3, 0) := by
  decide!

/-- Claim C16, amended. Let the store be one from which a load reads in-range values:
each tuning key is absent or holds an in-range value (the empty store, and every store
this program has written starting from such a store).  Then, starting from a constructed
scale, after any sequence of operations (the four setters, `loadFilterSettings` and
`begin` among them) `brewingThreshold` is in `[0.05, 1.0]`, `stabilityTimeout` in
`[500, 10000]`, and `medianSamples` and `averageSamples` in `[1, MAX_SAMPLES]`, and the
store is again such a store; a sequence of tuning operations always runs to its end. -/
theorem C16_tuning_bounds (dual : Bool) (c : Flt) (p : Prefs) (hp : StoreOk p)
    (ops : List Operation) :
    (∀ s1 p1, runAll ops (construct dual c, p) = some (s1, p1) →
      ((Flt.ge s1.brewingThreshold (Flt.val (5 / 100)) ∧
          Flt.le s1.brewingThreshold (Flt.val 1)) ∧
        (500 ≤ s1.stabilityTimeout ∧ s1.stabilityTimeout ≤ 10000) ∧
        (1 ≤ s1.medianSamples ∧ s1.medianSamples ≤ (MAX_SAMPLES : Int)) ∧
        (1 ≤ s1.averageSamples ∧ s1.averageSamples ≤ (MAX_SAMPLES : Int))) ∧
      StoreOk p1) ∧
    ((∀ op ∈ ops, op.isTuning = true) →
      ∃ s1 p1, runAll ops (construct dual c, p) = some (s1, p1) ∧ TuningOk s1) ∧
    StoreOk [] := by
  refine ⟨?_, ?_, by decide!⟩
  · intro s1 p1 h
    exact runAll_keeps_bounds ops _ s1 p p1 (tuningOk_construct dual c) hp h
  · intro hops
    obtain ⟨⟨s1, p1⟩, h⟩ := runAll_tuning_returns ops (construct dual c, p) hops
    exact ⟨s1, p1, h,
      (runAll_keeps_bounds ops _ s1 p p1 (tuningOk_construct dual c) hp h).1⟩

theorem C16_witness :
    StoreOk [] ∧
      ∃ s1 p1,
        runAll [Operation.begin true 50, Operation.setBrewingThreshold (Flt.val 2),
            Operation.setMedianSamples 5, Operation.loadFilterSettings]
          (construct false (Flt.val 2000), []) = some (s1, p1) ∧ TuningOk s1 :=
  have h : StoreOk [] := by decide!
  ⟨h, (C16_tuning_bounds false (Flt.val 2000) [] h _).2.1 (by decide)⟩

/-! ## Sample history -/

/-- An accepted reading without override is written at the cursor, and the cursor moves
on by one modulo the capacity. -/
theorem getWeight_push (s s3 : Scale) (hw : Sensors) (t : Nat) (w : Flt)
    (hacc : Accepted s hw t) (hidx : CursorInRange s)
    (hsmall : ¬ Flt.gt (weightChange s hw) (Flt.val 5))
    (h : getWeight s hw t = some (w, s3)) :
    IsUpdate s.readings s3.readings s.readingIndex (rawReading s hw) ∧
      s3.readingIndex = Int.tmod (s.readingIndex + 1) 10 := by
  obtain ⟨s1, hst, hupd, hcur, -⟩ :=
    storeReading_of_inRange (stamped s t) (rawReading s hw) hidx
  have hts : transitionState s hw t = some (detectBrewing s1 (weightChange s hw) t) := by
    unfold transitionState
    rw [hst]
  obtain ⟨-, -, -, hrd, hri, -⟩ := detectBrewing_frame s1 (weightChange s hw) t
  rw [getWeight_accepted s hw t hacc, filterReading_stamped, hts] at h
  dsimp only at h
  unfold finishRead at h
  rw [if_neg hsmall] at h
  split at h
  · exact absurd h (by simp)
  · cases h
    refine ⟨?_, ?_⟩
    · intro i
      show (detectBrewing s1 (weightChange s hw) t).readings i = _
      rw [hrd]
      exact hupd i
    · show (detectBrewing s1 (weightChange s hw) t).readingIndex = _
      rw [hri, hcur]
      rfl

/-- A call that is rate limited or finds not-a-number leaves buffer and cursor alone. -/
theorem getWeight_idle (s s3 : Scale) (hw : Sensors) (t : Nat) (w : Flt)
    (hc : s.isConnected = true)
    (hidle : RateLimited s t ∨ (rawReading s hw).isNaN = true)
    (h : getWeight s hw t = some (w, s3)) :
    s3.readings = s.readings ∧ s3.readingIndex = s.readingIndex := by
  by_cases hr : RateLimited s t
  · rw [getWeight_rateLimited s hw t hc hr] at h
    cases h
    exact ⟨rfl, rfl⟩
  · have hn : (rawReading s hw).isNaN = true := by
      rcases hidle with h1 | h1
      · exact absurd h1 hr
      · exact h1
    unfold RateLimited at hr
    unfold getWeight at h
    rw [if_neg (by simp [hc]), if_neg hr] at h
    dsimp only at h
    rw [if_pos (by exact hn)] at h
    cases h
    exact ⟨rfl, rfl⟩

theorem cursorInRange_tmod (c : Int) (h : 0 ≤ c ∧ c < 10) :
    0 ≤ Int.tmod (c + 1) 10 ∧ Int.tmod (c + 1) 10 < 10 := by
  rw [Int.tmod_eq_emod (by omega) (by omega)]
  omega

/-- One push: the new reading is the most recent sample and the former samples move
back by one. -/
theorem history_push (s s3 : Scale) (r : Flt) (hidx : CursorInRange s)
    (hupd : IsUpdate s.readings s3.readings s.readingIndex r)
    (hcur : s3.readingIndex = Int.tmod (s.readingIndex + 1) 10) :
    history s3 0 = r ∧ ∀ i, i < 9 → history s3 (i + 1) = history s i := by
  obtain ⟨h0, hs, hne⟩ := recentSlot_after_store s.readingIndex hidx
  unfold history
  rw [hcur]
  refine ⟨?_, ?_⟩
  · rw [hupd, if_pos h0]
  · intro i hi
    rw [hs i, hupd, if_neg (hne i hi)]

/-- After pushes the `i`-th most recent sample is the reading pushed `i` pushes before
the last, or the sample that was `i - k` back before the `k` pushes. -/
theorem history_pushed (s s2 : Scale) (rs : List Flt) (h : Pushed s rs s2)
    (hidx : CursorInRange s) :
    CursorInRange s2 ∧ ∀ i, i < 10 → ∀ d,
      history s2 i =
        if i < rs.length then rs.getD (rs.length - 1 - i) d else history s (i - rs.length) := by
  induction h with
  | done s => exact ⟨hidx, fun i _ _ => by simp⟩
  | @push s s1 s2 hw t w rs hacc hsmall hget _ ih =>
    obtain ⟨hupd, hcur⟩ := getWeight_push s s1 hw t w hacc hidx hsmall hget
    have hidx1 : CursorInRange s1 := by
      unfold CursorInRange
      rw [hcur]
      exact cursorInRange_tmod _ hidx
    obtain ⟨hidx2, hrec⟩ := ih hidx1
    obtain ⟨h0, hshift⟩ := history_push s s1 _ hidx hupd hcur
    refine ⟨hidx2, ?_⟩
    intro i hi d
    rw [hrec i hi d]
    simp only [List.length_cons]
    by_cases h1 : i < rs.length
    · rw [if_pos h1, if_pos (by omega)]
      have e : rs.length + 1 - 1 - i = (rs.length - 1 - i) + 1 := by omega
      rw [e, List.getD_cons_succ]
    · rw [if_neg h1]
      by_cases h2 : i = rs.length
      · rw [if_pos (by omega)]
        have e : rs.length + 1 - 1 - i = 0 := by omega
        have e0 : i - rs.length = 0 := by omega
        rw [e, e0, h0]
        rfl
      · rw [if_neg (by omega)]
        have e : i - rs.length = (i - (rs.length + 1)) + 1 := by omega
        rw [e, hshift _ (by omega)]
  | @idle s s1 s2 hw t w rs hc hidle hget _ ih =>
    obtain ⟨hrd, hri⟩ := getWeight_idle s s1 hw t w hc hidle hget
    have hidx1 : CursorInRange s1 := by
      unfold CursorInRange
      rw [hri]
      exact hidx
    obtain ⟨hidx2, hrec⟩ := ih hidx1
    refine ⟨hidx2, ?_⟩
    intro i hi d
    rw [hrec i hi d]
    unfold history
    rw [hrd, hri]

/-- Claim C17. Let the buffer hold `v0` in every slot, and let `getWeight` then push the
accepted readings `r1 .. rk` (no `> 5 g` override among them).  Then for every
`i < MAX_SAMPLES` the slot at index `(readingIndex - 1 - i + MAX_SAMPLES) % MAX_SAMPLES`
is inside the buffer and holds `r(k-i)` when `i < k` and `v0` when `i >= k`: the buffer
holds the most recent `MAX_SAMPLES` readings.  The cursor stays inside the buffer and is
the slot of the oldest sample, which the next push overwrites. -/
theorem C17_sample_history (s s2 : Scale) (v0 : Flt) (rs : List Flt)
    (hinit : ∀ j, s.readings j = v0) (hidx : CursorInRange s) (hpush : Pushed s rs s2) :
    CursorInRange s2 ∧
    (∀ i, i < MAX_SAMPLES →
      readAt s2.readings (recentIndex s2.readingIndex i) = some (expectedSample v0 rs i) ∧
      history s2 i = expectedSample v0 rs i ∧
      ((recentSlot s2.readingIndex i).val : Int) = (s2.readingIndex - 1 - (i : Int) + 10) % 10) ∧
    ((recentSlot s2.readingIndex 9).val : Int) = s2.readingIndex := by
  obtain ⟨hidx2, hrec⟩ := history_pushed s s2 rs hpush hidx
  have hhist : ∀ i, i < MAX_SAMPLES → history s2 i = expectedSample v0 rs i := by
    intro i hi
    rw [hrec i hi v0]
    unfold expectedSample
    split
    · rfl
    · exact hinit _
  have hslot : ∀ c : Int, ∀ i : Nat,
      ((recentSlot c i).val : Int) = (c - 1 - (i : Int) + 10) % 10 := by
    intro c i
    unfold recentSlot
    show ((((c - 1 - (i : Int) + 10) % 10).toNat : Nat) : Int) = _
    omega
  refine ⟨hidx2, ?_, ?_⟩
  · intro i hi
    refine ⟨?_, hhist i hi, hslot _ _⟩
    rw [readAt_recentIndex s2 i hidx2 hi]
    exact congrArg some (hhist i hi)
  · rw [hslot]
    unfold CursorInRange at hidx2
    omega

theorem C17_witness :
    (∀ j, stableZero.readings j = Flt.val 0) ∧ CursorInRange stableZero ∧
      ∃ s2, Pushed stableZero [Flt.val (1 / 10)] s2 ∧
        history s2 0 = Flt.val (1 / 10) ∧ history s2 1 = Flt.val 0 := by
  have hidx : CursorInRange stableZero := by unfold CursorInRange; decide
  have hacc : Accepted stableZero (singleUnits (1 / 10)) 200 := by
    unfold Accepted RateLimited
    decide!
  have hsmall : ¬ Flt.gt (weightChange stableZero (singleUnits (1 / 10))) (Flt.val 5) := by
    decide!
  have hraw : rawReading stableZero (singleUnits (1 / 10)) = Flt.val (1 / 10) := by decide!
  obtain ⟨w, s2, hget⟩ :=
    getWeight_returns stableZero (singleUnits (1 / 10)) 200 hidx (by decide)
  have hp : Pushed stableZero [Flt.val (1 / 10)] s2 :=
    hraw ▸ Pushed.push hacc hsmall hget (Pushed.done s2)
  have h := (C17_sample_history stableZero s2 (Flt.val 0) [Flt.val (1 / 10)]
    (fun _ => rfl) hidx hp).2.1
  exact ⟨fun _ => rfl, hidx, s2, hp, (h 0 (by decide)).2.1, (h 1 (by decide)).2.1⟩

/-! ## The single-sensor scenario -/

/-- Claim C18. A connected single scale with calibration factor 2000, zero tare offset,
threshold 0.15 and two average samples is polled at 100, 200 and 300 ms with raw counts
2000, 2010 and 2005 (1.0 g, 1.005 g and 1.0025 g).  The three calls return 1.0 g,
1.0025 g and 1.00375 g, each within 0.02 g of 1.0 g, and the state is STABLE after each
of them. -/
theorem C18_single_sensor_scenario :
    singleStart.isConnected = true ∧ singleStart.dualHX711 = false ∧
      singleStart.calibrationFactor = Flt.val 2000 ∧
      singleStart.brewingThreshold = Flt.val (15 / 100) ∧ singleStart.averageSamples = 2 ∧
      gramsFromRaw 2000 (Flt.val 2000) = Flt.val 1 ∧
      gramsFromRaw 2010 (Flt.val 2000) = Flt.val (201 / 200) ∧
      gramsFromRaw 2005 (Flt.val 2000) = Flt.val (401 / 400) ∧
      trace singleStart
          [(singleRaw 2000 (Flt.val 2000), 100), (singleRaw 2010 (Flt.val 2000), 200),
            (singleRaw 2005 (Flt.val 2000), 300)] =
        some [(Flt.val 1, STABLE), (Flt.val (401 / 400), STABLE),
          (Flt.val (803 / 800), STABLE)] ∧
      NearOneAndStable (Flt.val 1, STABLE) ∧
      NearOneAndStable (Flt.val (401 / 400), STABLE) ∧
      NearOneAndStable (Flt.val (803 / 800), STABLE) := by
  decide!

/-! ## The median filter as an order statistic -/

theorem medianFilter_clamp (s : Scale) (n : Int) (h : n > (MAX_SAMPLES : Int)) :
    medianFilter s n = medianFilter s (MAX_SAMPLES : Int) := by
  unfold medianFilter
  rw [if_pos h, if_neg (lt_irrefl _)]

/-- Claim C19. For a buffer of numbers, every write cursor in `[0, MAX_SAMPLES)` and
every `n` with `1 <= n <= MAX_SAMPLES`: the copy loop yields the `n` most recent samples,
the bubble sort leaves them as an ascending permutation of themselves, and `medianFilter`
returns the element at index `n / 2` of that ordering, which has at least half of the
samples on either side and, for odd `n`, as many samples before it as after it.  For
`n > MAX_SAMPLES` (and any buffer) the result is that of `medianFilter(MAX_SAMPLES)`. -/
theorem C19_median_is_order_statistic (s : Scale) (q : Fin MAX_SAMPLES → ℚ)
    (hq : ∀ i, s.readings i = Flt.val (q i)) (hidx : CursorInRange s) :
    (∀ n : Int, 1 ≤ n → n ≤ (MAX_SAMPLES : Int) →
      ∃ sorted : List ℚ,
        copyRecent s 0 n.toNat = some ((recent q s.readingIndex n.toNat).map Flt.val) ∧
        bubbleSort ((recent q s.readingIndex n.toNat).map Flt.val) = sorted.map Flt.val ∧
        sorted.Sorted (· ≤ ·) ∧ sorted.Perm (recent q s.readingIndex n.toNat) ∧
        sorted.length = n.toNat ∧
        medianFilter s n = (sorted.map Flt.val)[n.toNat / 2]? ∧
        medianFilter s n = some (Flt.val (median (recent q s.readingIndex n.toNat))) ∧
        IsMedian (median (recent q s.readingIndex n.toNat)) (recent q s.readingIndex n.toNat) ∧
        (n % 2 = 1 → n.toNat / 2 = sorted.length - 1 - n.toNat / 2)) ∧
    (∀ n : Int, n > (MAX_SAMPLES : Int) → medianFilter s n = medianFilter s (MAX_SAMPLES : Int)) := by
  refine ⟨?_, fun n hn => medianFilter_clamp s n hn⟩
  intro n h1 h10
  have h10' : n ≤ 10 := h10
  have hlen : (List.insertionSort (· ≤ ·) (recent q s.readingIndex n.toNat)).length = n.toNat := by
    rw [List.length_insertionSort, length_recent]
  have hmed := medianFilter_eq_median s q hq hidx n h1 h10'
  have hne : recent q s.readingIndex n.toNat ≠ [] := by
    intro hnil
    have hl := length_recent q s.readingIndex n.toNat
    rw [hnil] at hl
    simp only [List.length_nil] at hl
    omega
  refine ⟨List.insertionSort (· ≤ ·) (recent q s.readingIndex n.toNat), ?_,
    bubbleSort_map_val _, List.sorted_insertionSort _ _, List.perm_insertionSort _ _, hlen,
    ?_, hmed, (median_isMedian _ hne).2, ?_⟩
  · rw [copyRecent_recent s hidx n.toNat (by omega), recent_val s q hq]
  · rw [hmed, List.getElem?_map]
    unfold median
    rw [length_recent, List.getD_eq_getElem?_getD]
    have hlt : n.toNat / 2 <
        (List.insertionSort (· ≤ ·) (recent q s.readingIndex n.toNat)).length := by
      rw [hlen]
      omega
    rw [List.getElem?_eq_getElem hlt]
    rfl
  · intro hodd
    rw [hlen]
    omega

theorem C19_witness :
    (∀ i, dualAfterFirst.readings i = Flt.val 2) ∧ CursorInRange dualAfterFirst ∧
      medianFilter dualAfterFirst 3 = some (Flt.val 2) ∧
      medianFilter dualAfterFirst 11 = medianFilter dualAfterFirst 10 := by
  have hidx : CursorInRange dualAfterFirst := by unfold CursorInRange; decide
  have h := C19_median_is_order_statistic dualAfterFirst (fun _ => 2) (fun _ => rfl) hidx
  obtain ⟨sorted, -, -, -, -, -, -, hmed, -⟩ := h.1 3 (by decide) (by decide)
  exact ⟨fun _ => rfl, hidx, hmed.trans (by decide!), h.2 11 (by decide)⟩

/-! ## Index safety -/

theorem cursorInRange_construct (dual : Bool) (c : Flt) : CursorInRange (construct dual c) :=
  (bufferOk_construct dual c).1

theorem cursorInRange_finishRead (s2 s3 : Scale) (raw d w : Flt) (fw : Option Flt) (now : Nat)
    (h2 : CursorInRange s2) (h : finishRead s2 raw d fw now = some (w, s3)) :
    CursorInRange s3 := by
  unfold finishRead initializeSamples at h
  split at h
  · dsimp only at h
    split at h
    · cases h
      exact h2
    · cases h
      exact h2
  · cases fw with
    | none => exact absurd h (by simp)
    | some v =>
      cases h
      exact h2

/-- Every call of `getWeight` that returns leaves the write cursor inside the buffer. -/
theorem cursorInRange_getWeight (s s3 : Scale) (hw : Sensors) (t : Nat) (w : Flt)
    (hok : CursorInRange s) (h : getWeight s hw t = some (w, s3)) : CursorInRange s3 := by
  unfold getWeight at h
  split at h
  · cases h
    exact hok
  · split at h
    · cases h
      exact hok
    · dsimp only at h
      split at h
      · cases h
        exact hok
      · split at h
        · cases h
          exact hok
        · unfold filterReading at h
          obtain ⟨s1, hst, -, hcur, -⟩ := storeReading_of_inRange
            { s with lastReadTime := t, lastSuccessfulRead := t }
            (rawReading { s with lastReadTime := t } hw) hok
          rw [hst] at h
          dsimp only at h
          obtain ⟨-, -, -, -, hri, -⟩ := detectBrewing_frame s1
            (Flt.abs (Flt.sub (rawReading { s with lastReadTime := t } hw) s1.currentWeight)) t
          refine cursorInRange_finishRead _ s3 _ _ w _ t ?_ h
          unfold CursorInRange
          rw [hri, hcur]
          exact cursorInRange_tmod s.readingIndex hok

/-- The operations other than `getWeight` do not assign `readingIndex`. -/
theorem readingIndex_frame (s : Scale) (p : Prefs) :
    (∀ tested now, (begin s p tested now).2.1.readingIndex = s.readingIndex) ∧
    (∀ times, (tare s times).1.readingIndex = s.readingIndex) ∧
    (∀ f, (set_scale s p f).1.readingIndex = s.readingIndex) ∧
    (loadCalibration s p).readingIndex = s.readingIndex ∧
    (∀ f1 f2, (setCalibrationFactors s p f1 f2).1.readingIndex = s.readingIndex) ∧
    (loadDualCalibration s p).readingIndex = s.readingIndex ∧
    (∀ v, (setBrewingThreshold s p v).1.readingIndex = s.readingIndex) ∧
    (∀ v, (setStabilityTimeout s p v).1.readingIndex = s.readingIndex) ∧
    (∀ v, (setMedianSamples s p v).1.readingIndex = s.readingIndex) ∧
    (∀ v, (setAverageSamples s p v).1.readingIndex = s.readingIndex) ∧
    (loadFilterSettings s p).readingIndex = s.readingIndex := by
  have hss : ∀ f, (set_scale s p f).1.readingIndex = s.readingIndex := by
    intro f
    unfold set_scale
    split
    · dsimp only
      split <;> rfl
    · rfl
  refine ⟨?_, ?_, hss, rfl, ?_, ?_, ?_, ?_, ?_, ?_, rfl⟩
  · intro tested now
    have hb : (beginCalibration s p).readingIndex = s.readingIndex := by
      unfold beginCalibration
      split <;> rfl
    rw [← hb]
    unfold begin
    dsimp only
    cases tested <;> cases p.isKey "brew_thresh" <;> rfl
  · intro times
    unfold tare
    split <;> rfl
  · intro f1 f2
    unfold setCalibrationFactors
    split
    · rfl
    · exact hss f1
  · unfold loadDualCalibration
    split <;> rfl
  · intro v
    unfold setBrewingThreshold
    split <;> rfl
  · intro v
    unfold setStabilityTimeout
    split <;> rfl
  · intro v
    unfold setMedianSamples
    split <;> rfl
  · intro v
    unfold setAverageSamples
    split <;> rfl

/-- Every operation that returns leaves the write cursor inside the buffer. -/
theorem run_cursorInRange (op : Operation) (s s1 : Scale) (p p1 : Prefs)
    (hs : CursorInRange s) (h : op.run (s, p) = some (s1, p1)) : CursorInRange s1 := by
  obtain ⟨hbegin, htare, hss, hlc, hscf, hldc, hb, hst, hm, ha, hlf⟩ := readingIndex_frame s p
  have key : ∀ s2 : Scale, s2.readingIndex = s.readingIndex → CursorInRange s2 := by
    intro s2 h2
    unfold CursorInRange at hs ⊢
    rw [h2]
    exact hs
  cases op with
  | getWeight hw now =>
    simp only [Operation.run] at h
    split at h
    · exact absurd h (by simp)
    · rename_i w s2 hg
      simp only [Option.some.injEq, Prod.mk.injEq] at h
      rw [← h.1]
      exact cursorInRange_getWeight s s2 hw now w hs hg
  | begin tested now =>
    simp only [Operation.run, Option.some.injEq] at h
    have h1 : s1 = (begin s p tested now).2.1 := by rw [h]
    rw [h1]
    exact key _ (hbegin tested now)
  | tare times =>
    simp only [Operation.run, Option.some.injEq, Prod.mk.injEq] at h
    rw [← h.1]
    exact key _ (htare times)
  | set_scale factor =>
    simp only [Operation.run, Option.some.injEq] at h
    have h1 : s1 = (set_scale s p factor).1 := by rw [h]
    rw [h1]
    exact key _ (hss factor)
  | saveCalibration =>
    simp only [Operation.run, Option.some.injEq, Prod.mk.injEq] at h
    rw [← h.1]
    exact hs
  | loadCalibration =>
    simp only [Operation.run, Option.some.injEq, Prod.mk.injEq] at h
    rw [← h.1]
    exact key _ hlc
  | setCalibrationFactors f1 f2 =>
    simp only [Operation.run, Option.some.injEq] at h
    have h1 : s1 = (setCalibrationFactors s p f1 f2).1 := by rw [h]
    rw [h1]
    exact key _ (hscf f1 f2)
  | saveDualCalibration =>
    simp only [Operation.run, Option.some.injEq, Prod.mk.injEq] at h
    rw [← h.1]
    exact hs
  | loadDualCalibration =>
    simp only [Operation.run, Option.some.injEq, Prod.mk.injEq] at h
    rw [← h.1]
    exact key _ hldc
  | setBrewingThreshold v =>
    simp only [Operation.run, Option.some.injEq] at h
    have h1 : s1 = (setBrewingThreshold s p v).1 := by rw [h]
    rw [h1]
    exact key _ (hb v)
  | setStabilityTimeout v =>
    simp only [Operation.run, Option.some.injEq] at h
    have h1 : s1 = (setStabilityTimeout s p v).1 := by rw [h]
    rw [h1]
    exact key _ (hst v)
  | setMedianSamples v =>
    simp only [Operation.run, Option.some.injEq] at h
    have h1 : s1 = (setMedianSamples s p v).1 := by rw [h]
    rw [h1]
    exact key _ (hm v)
  | setAverageSamples v =>
    simp only [Operation.run, Option.some.injEq] at h
    have h1 : s1 = (setAverageSamples s p v).1 := by rw [h]
    rw [h1]
    exact key _ (ha v)
  | saveFilterSettings =>
    simp only [Operation.run, Option.some.injEq, Prod.mk.injEq] at h
    rw [← h.1]
    exact hs
  | loadFilterSettings =>
    simp only [Operation.run, Option.some.injEq, Prod.mk.injEq] at h
    rw [← h.1]
    exact key _ hlf

theorem runAll_cursorInRange (ops : List Operation) (s s1 : Scale) (p p1 : Prefs)
    (hs : CursorInRange s) (h : runAll ops (s, p) = some (s1, p1)) : CursorInRange s1 := by
  induction ops generalizing s p with
  | nil =>
    simp only [runAll, Option.some.injEq, Prod.mk.injEq] at h
    rw [← h.1]
    exact hs
  | cons op ops ih =>
    unfold runAll at h
    split at h
    · exact absurd h (by simp)
    · rename_i sp1 hrun
      obtain ⟨s2, p2⟩ := sp1
      exact ih s2 p2 (run_cursorInRange op s s2 p p2 hs hrun) h

/-- With the cursor inside the buffer and `medianSamples` at least 1, every operation
returns: none of them reads or writes outside an array. -/
theorem run_returns (op : Operation) (s : Scale) (p : Prefs) (hs : CursorInRange s)
    (hm : 1 ≤ s.medianSamples) : ∃ sp1, op.run (s, p) = some sp1 := by
  cases op with
  | getWeight hw now =>
    obtain ⟨w, s3, hg⟩ := getWeight_returns s hw now hs hm
    simp only [Operation.run, hg]
    exact ⟨_, rfl⟩
  | _ => exact ⟨_, rfl⟩

theorem recentIndex_inRange (c : Int) (i : Nat) (hc : 0 ≤ c ∧ c < 10) (hi : i < 10) :
    0 ≤ recentIndex c i ∧ recentIndex c i < 10 := by
  have hmod : recentIndex c i = (c - 1 - (i : Int) + 10) % 10 := by
    unfold recentIndex
    rw [Int.tmod_eq_emod (by simp; omega) (by simp)]
    rfl
  rw [hmod]
  omega

theorem length_copyRecent (s : Scale) (k i : Nat) (temp : List Flt)
    (h : copyRecent s i k = some temp) : temp.length = k := by
  induction k generalizing i temp with
  | zero =>
    simp only [copyRecent, Option.some.injEq] at h
    rw [← h]
    rfl
  | succ k ih =>
    unfold copyRecent at h
    split at h
    · rename_i x xs hx hxs
      cases h
      rw [List.length_cons, ih (i + 1) xs hxs]
    · exact absurd h (by simp)

theorem sumRecent_count (s : Scale) (k i : Nat) (a sum : Flt) (v n : Int)
    (h : sumRecent s i k a v = some (sum, n)) : n = v + k := by
  induction k generalizing i a v with
  | zero =>
    simp only [sumRecent, Option.some.injEq, Prod.mk.injEq] at h
    rw [← h.2]
    simp
  | succ k ih =>
    unfold sumRecent at h
    split at h
    · exact absurd h (by simp)
    · have := ih (i + 1) _ _ h
      rw [this]
      push_cast
      ring

theorem bubbleStep_inRange (t : List Flt) (n i j : Nat) (hl : t.length = n)
    (hj : j ∈ List.range (n - i - 1)) :
    j + 1 < n ∧ ∃ a b, t[j]? = some a ∧ t[j + 1]? = some b := by
  rw [List.mem_range] at hj
  have h1 : j + 1 < t.length := by omega
  have h0 : j < t.length := by omega
  exact ⟨by omega, _, _, List.getElem?_eq_getElem h0, List.getElem?_eq_getElem h1⟩

theorem clampSamples_bounds (samples : Int) (h1 : 1 ≤ samples) :
    1 ≤ clampSamples samples ∧ clampSamples samples ≤ 10 ∧
      (clampSamples samples).toNat = min samples.toNat MAX_SAMPLES := by
  unfold clampSamples
  split
  · rename_i hgt
    have : samples > 10 := hgt
    refine ⟨by decide, by decide, ?_⟩
    show (10 : Int).toNat = min samples.toNat 10
    have h10 : (10 : Int).toNat = 10 := rfl
    rw [h10]
    omega
  · rename_i hgt
    have : ¬ samples > 10 := hgt
    refine ⟨h1, by omega, ?_⟩
    show samples.toNat = min samples.toNat 10
    omega

/-- Claim C20. Index safety.  The constructor leaves `readingIndex` in
`[0, MAX_SAMPLES)`; every operation that starts with it there ends with it there, and
returns when `medianSamples >= 1`; so it is there after every sequence of operations on a
constructed scale.  With `readingIndex` in range and `1 <= samples`, for the clamped
`samples` (which is `min(samples, MAX_SAMPLES)`): every buffer index
`(readingIndex - 1 - i + MAX_SAMPLES) % MAX_SAMPLES` with `i < min(samples, MAX_SAMPLES)`
lies in `[0, MAX_SAMPLES)` and the read there succeeds; the copy loop of `medianFilter`
fills a temporary array of `min(samples, MAX_SAMPLES)` elements, the sort keeps that
length and reads `temp[j]` and `temp[j + 1]` inside it for every `j` of its inner loop,
`samples / 2` is an index inside it and `medianFilter` returns the element there; and the
loop of `averageFilter` ends with `validSamples = min(samples, MAX_SAMPLES)`, which is
not zero, and `averageFilter` returns the quotient by it. -/
theorem C20_index_safety :
    (∀ dual c, CursorInRange (construct dual c)) ∧
    (∀ op s p s1 p1, CursorInRange s → Operation.run op (s, p) = some (s1, p1) →
      CursorInRange s1) ∧
    (∀ op s p, CursorInRange s → 1 ≤ s.medianSamples →
      ∃ sp1, Operation.run op (s, p) = some sp1) ∧
    (∀ ops dual c p s1 p1, runAll ops (construct dual c, p) = some (s1, p1) →
      CursorInRange s1) ∧
    (∀ s samples, CursorInRange s → 1 ≤ samples →
      (clampSamples samples).toNat = min samples.toNat MAX_SAMPLES ∧
      (∀ i, i < (clampSamples samples).toNat →
        0 ≤ recentIndex s.readingIndex i ∧ recentIndex s.readingIndex i < (MAX_SAMPLES : Int) ∧
        ∃ v, readAt s.readings (recentIndex s.readingIndex i) = some v) ∧
      (∃ temp, copyRecent s 0 (clampSamples samples).toNat = some temp ∧
        temp.length = (clampSamples samples).toNat ∧
        (bubbleSort temp).length = (clampSamples samples).toNat ∧
        (∀ t : List Flt, t.length = temp.length → ∀ i ∈ List.range (temp.length - 1),
          ∀ j ∈ List.range (temp.length - i - 1),
            j + 1 < (clampSamples samples).toNat ∧
              ∃ a b, t[j]? = some a ∧ t[j + 1]? = some b) ∧
        0 ≤ Int.tdiv (clampSamples samples) 2 ∧
        (Int.tdiv (clampSamples samples) 2).toNat < (clampSamples samples).toNat ∧
        ∃ w, (bubbleSort temp)[(Int.tdiv (clampSamples samples) 2).toNat]? = some w ∧
          medianFilter s samples = some w) ∧
      (∃ sum validSamples,
        sumRecent s 0 (clampSamples samples).toNat (Flt.val 0) 0 = some (sum, validSamples) ∧
        validSamples = ((clampSamples samples).toNat : Int) ∧ validSamples ≠ 0 ∧
        averageFilter s samples = some (Flt.divInt sum validSamples))) := by
  refine ⟨cursorInRange_construct, ?_, ?_, ?_, ?_⟩
  · intro op s p s1 p1 hs h
    exact run_cursorInRange op s s1 p p1 hs h
  · intro op s p hs hm
    exact run_returns op s p hs hm
  · intro ops dual c p s1 p1 h
    exact runAll_cursorInRange ops _ s1 p p1 (cursorInRange_construct dual c) h
  · intro s samples hs h1
    obtain ⟨hc1, hc10, hmin⟩ := clampSamples_bounds samples h1
    have hn : (clampSamples samples).toNat ≤ 10 := by omega
    have hcopy := copyRecent_recent s hs (clampSamples samples).toNat hn
    have hlen := length_recent s.readings s.readingIndex (clampSamples samples).toNat
    have hd : Int.tdiv (clampSamples samples) 2 = clampSamples samples / 2 :=
      Int.tdiv_eq_ediv (by omega) (by omega)
    refine ⟨hmin, ?_, ?_, ?_⟩
    · intro i hi
      obtain ⟨h0, h10⟩ := recentIndex_inRange s.readingIndex i hs (by omega)
      exact ⟨h0, h10, _, readAt_recentIndex s i hs (by omega)⟩
    · have hlt : (Int.tdiv (clampSamples samples) 2).toNat <
          (bubbleSort (recent s.readings s.readingIndex (clampSamples samples).toNat)).length := by
        rw [length_bubbleSort, hlen, hd]
        omega
      refine ⟨_, hcopy, hlen, by rw [length_bubbleSort, hlen], ?_, by rw [hd]; omega,
        by rw [hd]; omega, _, List.getElem?_eq_getElem hlt, ?_⟩
      · intro t ht i _ j hj
        rw [hlen] at ht hj
        exact bubbleStep_inRange t _ i j ht hj
      · unfold medianFilter
        dsimp only
        show (match copyRecent s 0 (clampSamples samples).toNat with
          | none => none
          | some temp =>
            if 0 ≤ Int.tdiv (clampSamples samples) 2 then
              (bubbleSort temp)[(Int.tdiv (clampSamples samples) 2).toNat]?
            else none) = _
        rw [hcopy]
        dsimp only
        rw [if_pos (by rw [hd]; omega)]
        exact List.getElem?_eq_getElem hlt
    · obtain ⟨⟨sum, v⟩, hr⟩ :=
        sumRecent_returns s hs (clampSamples samples).toNat 0 (by omega) (Flt.val 0) 0
      have hv := sumRecent_count s _ 0 _ sum 0 v hr
      have hv2 : v = ((clampSamples samples).toNat : Int) := by rw [hv]; simp
      refine ⟨sum, v, hr, hv2, by omega, ?_⟩
      unfold averageFilter
      dsimp only
      show (match sumRecent s 0 (clampSamples samples).toNat (Flt.val 0) 0 with
        | none => none
        | some (sum, validSamples) => some (Flt.divInt sum validSamples)) = _
      rw [hr]

theorem C20_witness :
    CursorInRange dualStart ∧ 1 ≤ dualStart.medianSamples ∧
      (∃ s1 p1, polledOnce = some (s1, p1) ∧ CursorInRange s1) ∧
      CursorInRange dualAfterFirst ∧ (1 : Int) ≤ 3 ∧
      (0 ≤ recentIndex dualAfterFirst.readingIndex 2 ∧
        recentIndex dualAfterFirst.readingIndex 2 < (MAX_SAMPLES : Int)) ∧
      (∃ w, medianFilter dualAfterFirst 3 = some w) ∧
      (∃ w, averageFilter dualAfterFirst 12 = some w) := by
  have hstart : CursorInRange dualStart := by unfold CursorInRange; decide
  have hidx : CursorInRange dualAfterFirst := by unfold CursorInRange; decide
  have hm : 1 ≤ dualStart.medianSamples := by decide
  obtain ⟨-, hrun, hret, -, hfilter⟩ := C20_index_safety
  obtain ⟨⟨s1, p1⟩, h1⟩ := hret (Operation.getWeight dualFirst 100) dualStart [] hstart hm
  have hpoll : polledOnce = some (s1, p1) := by
    unfold polledOnce runAll
    rw [h1]
    rfl
  obtain ⟨-, hbuf, ⟨temp, -, -, -, -, -, -, w, -, hmed⟩, -⟩ := hfilter dualAfterFirst 3 hidx
    (by decide)
  obtain ⟨-, -, -, sum, v, -, -, -, havg⟩ := hfilter dualAfterFirst 12 hidx (by decide)
  obtain ⟨h0, h10, -⟩ := hbuf 2 (by decide)
  exact ⟨hstart, hm, ⟨s1, p1, hpoll, hrun _ _ _ _ _ hstart h1⟩, hidx, by decide, ⟨h0, h10⟩,
    ⟨w, hmed⟩, ⟨_, havg⟩⟩

/-! ## The filtered output and the range of the history -/

theorem foldr_min_le (l : List ℚ) (a : ℚ) :
    l.foldr min a ≤ a ∧ ∀ x ∈ l, l.foldr min a ≤ x := by
  induction l with
  | nil => exact ⟨le_refl _, fun x hx => absurd hx (List.not_mem_nil x)⟩
  | cons b l ih =>
    rw [List.foldr_cons]
    refine ⟨le_trans (min_le_right _ _) ih.1, ?_⟩
    intro x hx
    rcases List.mem_cons.mp hx with h | h
    · rw [h]
      exact min_le_left _ _
    · exact le_trans (min_le_right _ _) (ih.2 x h)

theorem le_foldr_max (l : List ℚ) (a : ℚ) :
    a ≤ l.foldr max a ∧ ∀ x ∈ l, x ≤ l.foldr max a := by
  induction l with
  | nil => exact ⟨le_refl _, fun x hx => absurd hx (List.not_mem_nil x)⟩
  | cons b l ih =>
    rw [List.foldr_cons]
    refine ⟨le_trans ih.1 (le_max_right _ _), ?_⟩
    intro x hx
    rcases List.mem_cons.mp hx with h | h
    · rw [h]
      exact le_max_left _ _
    · exact le_trans (ih.2 x h) (le_max_right _ _)

theorem foldr_min_mem (l : List ℚ) (a : ℚ) : l.foldr min a = a ∨ l.foldr min a ∈ l := by
  induction l with
  | nil => exact Or.inl rfl
  | cons b l ih =>
    rw [List.foldr_cons]
    rcases min_choice b (l.foldr min a) with h | h
    · rw [h]
      exact Or.inr (List.mem_cons_self _ _)
    · rw [h]
      rcases ih with h1 | h1
      · exact Or.inl h1
      · exact Or.inr (List.mem_cons_of_mem _ h1)

theorem foldr_max_mem (l : List ℚ) (a : ℚ) : l.foldr max a = a ∨ l.foldr max a ∈ l := by
  induction l with
  | nil => exact Or.inl rfl
  | cons b l ih =>
    rw [List.foldr_cons]
    rcases max_choice b (l.foldr max a) with h | h
    · rw [h]
      exact Or.inr (List.mem_cons_self _ _)
    · rw [h]
      rcases ih with h1 | h1
      · exact Or.inl h1
      · exact Or.inr (List.mem_cons_of_mem _ h1)

/-- The value `bufferMin q` is the least and `bufferMax q` the greatest of the ten
slots of `q`. -/
theorem bufferMin_bufferMax (q : Fin MAX_SAMPLES → ℚ) :
    (∀ i, bufferMin q ≤ q i ∧ q i ≤ bufferMax q) ∧
      (∃ i, bufferMin q = q i) ∧ ∃ j, bufferMax q = q j := by
  refine ⟨?_, ?_, ?_⟩
  · intro i
    have hi : q i ∈ (List.finRange MAX_SAMPLES).map q :=
      List.mem_map.mpr ⟨i, List.mem_finRange i, rfl⟩
    exact ⟨(foldr_min_le _ _).2 _ hi, (le_foldr_max _ _).2 _ hi⟩
  · rcases foldr_min_mem ((List.finRange MAX_SAMPLES).map q) (q ⟨0, by decide⟩) with h | h
    · exact ⟨_, h⟩
    · obtain ⟨i, -, hi⟩ := List.mem_map.mp h
      exact ⟨i, hi.symm⟩
  · rcases foldr_max_mem ((List.finRange MAX_SAMPLES).map q) (q ⟨0, by decide⟩) with h | h
    · exact ⟨_, h⟩
    · obtain ⟨i, -, hi⟩ := List.mem_map.mp h
      exact ⟨i, hi.symm⟩

theorem recent_bounds (q : Fin MAX_SAMPLES → ℚ) (cursor : Int) (n : Nat) :
    ∀ x ∈ recent q cursor n, bufferMin q ≤ x ∧ x ≤ bufferMax q := by
  intro x hx
  unfold recent at hx
  obtain ⟨i, -, hi⟩ := List.mem_map.mp hx
  rw [← hi]
  exact (bufferMin_bufferMax q).1 _

theorem sum_bounds (l : List ℚ) (m M : ℚ) (h : ∀ x ∈ l, m ≤ x ∧ x ≤ M) :
    (l.length : ℚ) * m ≤ l.sum ∧ l.sum ≤ (l.length : ℚ) * M := by
  induction l with
  | nil => simp
  | cons a l ih =>
    obtain ⟨h1, h2⟩ := ih fun x hx => h x (List.mem_cons_of_mem _ hx)
    obtain ⟨ha1, ha2⟩ := h a (List.mem_cons_self _ _)
    rw [List.sum_cons, List.length_cons]
    push_cast
    constructor <;> nlinarith

/-- The mean of a non-empty list lies between any bounds of its elements. -/
theorem mean_bounds (l : List ℚ) (m M : ℚ) (hne : l ≠ []) (h : ∀ x ∈ l, m ≤ x ∧ x ≤ M) :
    m ≤ mean l ∧ mean l ≤ M := by
  obtain ⟨h1, h2⟩ := sum_bounds l m M h
  have hpos : (0 : ℚ) < (l.length : ℚ) := by
    exact_mod_cast List.length_pos.mpr hne
  unfold mean
  constructor
  · rw [le_div_iff₀ hpos]
    linarith
  · rw [div_le_iff₀ hpos]
    linarith

/-- An accepted reading without override on a buffer of numbers: `getWeight` returns
the median or the mean of a non-empty window of the buffer as it stands after the
reading is stored. -/
theorem getWeight_window (s : Scale) (hw : Sensors) (now : Nat) (q : Fin MAX_SAMPLES → ℚ)
    (r : ℚ) (hacc : Accepted s hw now) (hidx : CursorInRange s)
    (hq : ∀ i, s.readings i = Flt.val (q i)) (hr : rawReading s hw = Flt.val r)
    (hsmall : ¬ Flt.gt (weightChange s hw) (Flt.val 5))
    (hmed : 1 ≤ s.medianSamples ∧ s.medianSamples ≤ (MAX_SAMPLES : Int))
    (havg : 1 ≤ s.averageSamples ∧ s.averageSamples ≤ (MAX_SAMPLES : Int)) :
    ∃ (w : ℚ) (s3 : Scale) (n : Nat), 1 ≤ n ∧
      getWeight s hw now = some (Flt.val w, s3) ∧
      (w = median (recent (storedBuffer q s.readingIndex r)
            (Int.tmod (s.readingIndex + 1) 10) n) ∨
        w = mean (recent (storedBuffer q s.readingIndex r)
            (Int.tmod (s.readingIndex + 1) 10) n)) := by
  obtain ⟨s1, hst, hupd, hcur, -, -, -, -, -, hms, has⟩ :=
    storeReading_of_inRange (stamped s now) (rawReading s hw) hidx
  have hts : transitionState s hw now = some (detectBrewing s1 (weightChange s hw) now) := by
    unfold transitionState
    rw [hst]
  obtain ⟨-, -, -, hrd, hri, -, hm2, ha2, -⟩ := detectBrewing_frame s1 (weightChange s hw) now
  generalize detectBrewing s1 (weightChange s hw) now = s2 at hts hrd hri hm2 ha2
  have hq2 : ∀ i : Fin MAX_SAMPLES,
      s2.readings i = Flt.val (storedBuffer q s.readingIndex r i) := by
    intro i
    rw [hrd, hupd i, hr]
    unfold storedBuffer
    show (if (i.val : Int) = s.readingIndex then Flt.val r else s.readings i) = _
    split
    · rfl
    · exact hq i
  have hri2 : s2.readingIndex = Int.tmod (s.readingIndex + 1) 10 := by
    rw [hri, hcur]
    rfl
  have hidx2 : CursorInRange s2 := by
    unfold CursorInRange
    rw [hri2]
    exact cursorInRange_tmod s.readingIndex hidx
  have hmed2 : 1 ≤ s2.medianSamples ∧ s2.medianSamples ≤ 10 := by
    rw [hm2, hms]
    exact hmed
  have havg2 : 1 ≤ s2.averageSamples ∧ s2.averageSamples ≤ 10 := by
    rw [ha2, has]
    exact havg
  have hgw : getWeight s hw now =
      finishRead s2 (rawReading s hw) (weightChange s hw) (applyFilter s2) now := by
    rw [getWeight_accepted s hw now hacc, filterReading_stamped, hts]
  have hmedian := medianFilter_eq_median s2 _ hq2 hidx2 s2.medianSamples hmed2.1 hmed2.2
  have hmean := averageFilter_eq_mean s2 _ hq2 hidx2 s2.averageSamples havg2.1 havg2.2
  rw [hri2] at hmedian hmean
  cases hstate : s2.currentFilterState with
  | BREWING =>
    have haf : applyFilter s2 = medianFilter s2 s2.medianSamples := by
      unfold applyFilter
      rw [hstate]
    rw [haf, hmedian, finishRead_filtered _ _ _ _ _ hsmall] at hgw
    exact ⟨_, _, s2.medianSamples.toNat, by omega, hgw, Or.inl rfl⟩
  | STABLE =>
    have haf : applyFilter s2 = averageFilter s2 s2.averageSamples := by
      unfold applyFilter
      rw [hstate]
    rw [haf, hmean, finishRead_filtered _ _ _ _ _ hsmall] at hgw
    exact ⟨_, _, s2.averageSamples.toNat, by omega, hgw, Or.inr rfl⟩
  | TRANSITIONING =>
    have haf : applyFilter s2 = averageFilter s2 s2.averageSamples := by
      unfold applyFilter
      rw [hstate]
    rw [haf, hmean, finishRead_filtered _ _ _ _ _ hsmall] at hgw
    exact ⟨_, _, s2.averageSamples.toNat, by omega, hgw, Or.inr rfl⟩

/-! ## Rounding to the nearest float -/

theorem roundHalfEven_cases (y : ℚ) : roundHalfEven y = ⌊y⌋ ∨ roundHalfEven y = ⌊y⌋ + 1 := by
  unfold roundHalfEven
  split_ifs <;> simp

theorem roundHalfEven_error (y : ℚ) :
    (roundHalfEven y : ℚ) - y ≤ 1 / 2 ∧ y - (roundHalfEven y : ℚ) ≤ 1 / 2 := by
  have h1 := Int.floor_le y
  have h2 := Int.lt_floor_add_one y
  unfold roundHalfEven
  split_ifs with ha hb hc
  · constructor <;> linarith
  · push_cast
    constructor <;> linarith
  · constructor <;> linarith
  · push_cast
    constructor <;> linarith

theorem roundHalfEven_intCast (k : Int) : roundHalfEven (k : ℚ) = k := by
  unfold roundHalfEven
  rw [Int.floor_intCast, if_pos (by norm_num)]

theorem roundHalfEven_mono {y z : ℚ} (h : y ≤ z) : roundHalfEven y ≤ roundHalfEven z := by
  have hf : ⌊y⌋ ≤ ⌊z⌋ := Int.floor_mono h
  rcases lt_or_eq_of_le hf with hlt | heq
  · have h1 : roundHalfEven y ≤ ⌊y⌋ + 1 := by
      rcases roundHalfEven_cases y with h | h <;> omega
    have h2 : ⌊z⌋ ≤ roundHalfEven z := by
      rcases roundHalfEven_cases z with h | h <;> omega
    omega
  · unfold roundHalfEven
    rw [← heq]
    split_ifs <;> first | omega | (exfalso; linarith)

theorem roundHalfEven_neg (y : ℚ) : roundHalfEven (-y) = - roundHalfEven y := by
  by_cases hint : (⌊y⌋ : ℚ) = y
  · rw [← hint, ← Int.cast_neg, roundHalfEven_intCast, roundHalfEven_intCast]
  · have h1 := Int.floor_le y
    have h2 := Int.lt_floor_add_one y
    have hlt : (⌊y⌋ : ℚ) < y := lt_of_le_of_ne h1 hint
    have hfloor : ⌊-y⌋ = -⌊y⌋ - 1 := by
      rw [Int.floor_eq_iff]
      push_cast
      constructor <;> linarith
    unfold roundHalfEven
    rw [hfloor]
    push_cast
    split_ifs <;> first | omega | (exfalso; linarith)


theorem quantum_pos (x : ℚ) : 0 < quantum x := by
  unfold quantum
  positivity

theorem quantum_neg (x : ℚ) : quantum (-x) = quantum x := by
  unfold quantum
  rw [abs_neg]

theorem roundF32_neg (x : ℚ) : roundF32 (-x) = - roundF32 x := by
  unfold roundF32
  rw [quantum_neg, neg_div, roundHalfEven_neg]
  push_cast
  ring

theorem roundF32_nonneg {x : ℚ} (h : 0 ≤ x) : 0 ≤ roundF32 x := by
  unfold roundF32
  have hq := quantum_pos x
  have h0 : roundHalfEven ((0 : Int) : ℚ) ≤ roundHalfEven (x / quantum x) :=
    roundHalfEven_mono (by simpa using div_nonneg h hq.le)
  rw [roundHalfEven_intCast] at h0
  have : (0 : ℚ) ≤ (roundHalfEven (x / quantum x) : ℚ) := by exact_mod_cast h0
  exact mul_nonneg this hq.le

/-- A multiple of the quantum below and one above bound the rounded value. -/
theorem roundF32_between (x : ℚ) (a b : Int) (ha : (a : ℚ) * quantum x ≤ x)
    (hb : x ≤ (b : ℚ) * quantum x) :
    (a : ℚ) * quantum x ≤ roundF32 x ∧ roundF32 x ≤ (b : ℚ) * quantum x := by
  have hq := quantum_pos x
  have h1 : roundHalfEven ((a : Int) : ℚ) ≤ roundHalfEven (x / quantum x) :=
    roundHalfEven_mono (by rw [le_div_iff₀ hq]; exact ha)
  have h2 : roundHalfEven (x / quantum x) ≤ roundHalfEven ((b : Int) : ℚ) :=
    roundHalfEven_mono (by rw [div_le_iff₀ hq]; exact hb)
  rw [roundHalfEven_intCast] at h1 h2
  have h1q : (a : ℚ) ≤ (roundHalfEven (x / quantum x) : ℚ) := by exact_mod_cast h1
  have h2q : (roundHalfEven (x / quantum x) : ℚ) ≤ (b : ℚ) := by exact_mod_cast h2
  unfold roundF32
  exact ⟨mul_le_mul_of_nonneg_right h1q hq.le, mul_le_mul_of_nonneg_right h2q hq.le⟩

theorem two_zpow_split (E : Int) (k : Nat) :
    (2 : ℚ) ^ (E - 23 + (k : Int)) = ((2 ^ k : Int) : ℚ) * (2 : ℚ) ^ (E - 23) := by
  rw [zpow_add₀ (by norm_num : (2 : ℚ) ≠ 0), zpow_natCast]
  push_cast
  ring

theorem roundF32_mono_pos {x y : ℚ} (hx : 0 < x) (h : x ≤ y) : roundF32 x ≤ roundF32 y := by
  have hy : 0 < y := lt_of_lt_of_le hx h
  have hex := Int.zpow_log_le_self (b := 2) (by norm_num) hx
  have hex2 := Int.lt_zpow_succ_log_self (b := 2) (by norm_num) x
  have hey := Int.zpow_log_le_self (b := 2) (by norm_num) hy
  have hlog : Int.log 2 x ≤ Int.log 2 y := Int.log_mono_right hx h
  have hqx : quantum x = (2 : ℚ) ^ (max (Int.log 2 x) (-126) - 23) := by
    unfold quantum
    rw [abs_of_pos hx]
  have hqy : quantum y = (2 : ℚ) ^ (max (Int.log 2 y) (-126) - 23) := by
    unfold quantum
    rw [abs_of_pos hy]
  rcases eq_or_lt_of_le (max_le_max hlog (le_refl (-126 : Int))) with heq | hlt
  · have hq : quantum x = quantum y := by rw [hqx, hqy, heq]
    unfold roundF32
    rw [hq]
    have hpos := quantum_pos y
    have hr : roundHalfEven (x / quantum y) ≤ roundHalfEven (y / quantum y) :=
      roundHalfEven_mono (div_le_div_of_nonneg_right h hpos.le)
    have hr2 : (roundHalfEven (x / quantum y) : ℚ) ≤ (roundHalfEven (y / quantum y) : ℚ) := by
      exact_mod_cast hr
    exact mul_le_mul_of_nonneg_right hr2 hpos.le
  · have hEy : max (Int.log 2 y) (-126) = Int.log 2 y := by omega
    have hup : x ≤ (2 : ℚ) ^ (max (Int.log 2 x) (-126) + 1) := by
      refine le_trans hex2.le (zpow_le_zpow_right₀ (by norm_num) ?_)
      omega
    have hup2 : (2 : ℚ) ^ (max (Int.log 2 x) (-126) + 1) ≤ (2 : ℚ) ^ (Int.log 2 y) :=
      zpow_le_zpow_right₀ (by norm_num) (by omega)
    have e1 : (2 : ℚ) ^ (max (Int.log 2 x) (-126) + 1) = ((2 ^ 24 : Int) : ℚ) * quantum x := by
      rw [hqx, ← two_zpow_split]
      congr 1
      push_cast
      ring
    have e2 : (2 : ℚ) ^ (Int.log 2 y) = ((2 ^ 23 : Int) : ℚ) * quantum y := by
      rw [hqy, hEy, ← two_zpow_split]
      congr 1
      push_cast
      ring
    have hxq : x ≤ ((2 ^ 24 : Int) : ℚ) * quantum x := by rw [← e1]; exact hup
    have hyq : ((2 ^ 23 : Int) : ℚ) * quantum y ≤ y := by rw [← e2]; exact hey
    have hx0 : ((0 : Int) : ℚ) * quantum x ≤ x := by simpa using hx.le
    have b1 := (roundF32_between x 0 (2 ^ 24) hx0 hxq).2
    have hy1 : y ≤ ((⌈y / quantum y⌉ : Int) : ℚ) * quantum y := by
      have := Int.le_ceil (y / quantum y)
      rw [div_le_iff₀ (quantum_pos y)] at this
      exact this
    have b2 := (roundF32_between y (2 ^ 23) _ hyq hy1).1
    calc roundF32 x ≤ ((2 ^ 24 : Int) : ℚ) * quantum x := b1
      _ = (2 : ℚ) ^ (max (Int.log 2 x) (-126) + 1) := e1.symm
      _ ≤ (2 : ℚ) ^ (Int.log 2 y) := hup2
      _ = ((2 ^ 23 : Int) : ℚ) * quantum y := e2
      _ ≤ roundF32 y := b2

theorem roundF32_zero : roundF32 0 = 0 := by
  unfold roundF32
  rw [zero_div]
  have : roundHalfEven 0 = 0 := by
    have := roundHalfEven_intCast 0
    simpa using this
  rw [this]
  simp

/-- Rounding to the nearest float is monotone. -/
theorem roundF32_mono {x y : ℚ} (h : x ≤ y) : roundF32 x ≤ roundF32 y := by
  rcases lt_trichotomy 0 x with hx | hx | hx
  · exact roundF32_mono_pos hx h
  · rw [← hx] at h ⊢
    rw [roundF32_zero]
    exact roundF32_nonneg h
  · rcases lt_or_le y 0 with hy | hy
    · have := roundF32_mono_pos (x := -y) (y := -x) (by linarith) (by linarith)
      rw [roundF32_neg, roundF32_neg] at this
      linarith
    · have h1 := roundF32_nonneg (x := -x) (by linarith)
      rw [roundF32_neg] at h1
      have h2 := roundF32_nonneg hy
      linarith


theorem roundF32_error_quantum (x : ℚ) : |roundF32 x - x| ≤ quantum x / 2 := by
  have hq := quantum_pos x
  obtain ⟨h1, h2⟩ := roundHalfEven_error (x / quantum x)
  have hx : x = x / quantum x * quantum x := by field_simp
  have e : roundF32 x - x = ((roundHalfEven (x / quantum x) : ℚ) - x / quantum x) * quantum x := by
    unfold roundF32
    rw [sub_mul, ← hx]
  rw [e, abs_le]
  constructor
  · nlinarith
  · nlinarith

/-- The rounding error: at most half a unit in the last place, that is at most
`2^-24` times the magnitude for normal values and at most `2^-150` for subnormal ones. -/
theorem roundF32_error (x : ℚ) : |roundF32 x - x| ≤ 1 / 2 ^ 24 * |x| + 1 / 2 ^ 150 := by
  rcases eq_or_ne x 0 with h0 | h0
  · rw [h0, roundF32_zero]
    norm_num
  · refine le_trans (roundF32_error_quantum x) ?_
    have hpos : 0 < |x| := abs_pos.mpr h0
    have hex := Int.zpow_log_le_self (b := 2) (by norm_num) hpos
    rcases le_or_lt (-126 : Int) (Int.log 2 |x|) with hn | hs
    · have hq : quantum x = (2 : ℚ) ^ (Int.log 2 |x|) * (1 / 2 ^ 23) := by
        unfold quantum
        rw [max_eq_left hn, zpow_sub₀ (by norm_num : (2 : ℚ) ≠ 0)]
        norm_num
        ring
      rw [hq]
      have : (2 : ℚ) ^ (Int.log 2 |x|) * (1 / 2 ^ 23) / 2 = 1 / 2 ^ 24 * (2 : ℚ) ^ (Int.log 2 |x|) := by
        ring
      rw [this]
      have hmul : 1 / 2 ^ 24 * (2 : ℚ) ^ (Int.log 2 |x|) ≤ 1 / 2 ^ 24 * |x| :=
        mul_le_mul_of_nonneg_left (by exact_mod_cast hex) (by norm_num)
      have : (0 : ℚ) ≤ 1 / 2 ^ 150 := by norm_num
      linarith
    · have hq : quantum x = 1 / 2 ^ 149 := by
        unfold quantum
        rw [max_eq_right hs.le]
        norm_num
      rw [hq]
      have : (0 : ℚ) ≤ 1 / 2 ^ 24 * |x| := by positivity
      have e : (1 : ℚ) / 2 ^ 149 / 2 = 1 / 2 ^ 150 := by norm_num
      rw [e]
      linarith


theorem roundF32_count (n : Nat) (h1 : 1 ≤ n) (h10 : n ≤ 10) : roundF32 (n : ℚ) = (n : ℚ) := by
  interval_cases n <;> decide!

theorem sumF32_cons (x : ℚ) (l : List ℚ) (a : ℚ) :
    sumF32 (x :: l) a = sumF32 l (roundF32 (a + x)) := rfl

/-- The float sum is monotone in the samples and in the start value. -/
theorem sumF32_le_replicate (l : List ℚ) (M a b : ℚ) (h : ∀ x ∈ l, x ≤ M) (hab : a ≤ b) :
    sumF32 l a ≤ sumF32 (List.replicate l.length M) b := by
  induction l generalizing a b with
  | nil => exact hab
  | cons x l ih =>
    rw [List.length_cons, List.replicate_succ, sumF32_cons, sumF32_cons]
    exact ih _ _ (fun y hy => h y (List.mem_cons_of_mem _ hy))
      (roundF32_mono (add_le_add hab (h x (List.mem_cons_self _ _))))

theorem replicate_le_sumF32 (l : List ℚ) (m a b : ℚ) (h : ∀ x ∈ l, m ≤ x) (hab : a ≤ b) :
    sumF32 (List.replicate l.length m) a ≤ sumF32 l b := by
  induction l generalizing a b with
  | nil => exact hab
  | cons x l ih =>
    rw [List.length_cons, List.replicate_succ, sumF32_cons, sumF32_cons]
    exact ih _ _ (fun y hy => h y (List.mem_cons_of_mem _ hy))
      (roundF32_mono (add_le_add hab (h x (List.mem_cons_self _ _))))

/-- The float mean of a window lies between the float means of the windows uniformly at
a lower and at an upper bound of its samples. -/
theorem meanF32_sandwich (l : List ℚ) (m M : ℚ) (h1 : 1 ≤ l.length) (h10 : l.length ≤ 10)
    (h : ∀ x ∈ l, m ≤ x ∧ x ≤ M) :
    meanF32 (List.replicate l.length m) ≤ meanF32 l ∧
      meanF32 l ≤ meanF32 (List.replicate l.length M) := by
  have hn := roundF32_count l.length h1 h10
  have hpos : (0 : ℚ) < (l.length : ℚ) := by exact_mod_cast h1
  unfold meanF32
  rw [List.length_replicate, List.length_replicate, hn]
  constructor
  · exact roundF32_mono (div_le_div_of_nonneg_right
      (replicate_le_sumF32 l m 0 0 (fun x hx => (h x hx).1) (le_refl _)) hpos.le)
  · exact roundF32_mono (div_le_div_of_nonneg_right
      (sumF32_le_replicate l M 0 0 (fun x hx => (h x hx).2) (le_refl _)) hpos.le)


/-- The accumulated rounding error of the float sum of at most ten samples of magnitude
at most `A`: after `k` additions it is at most `k ^ 2 * (2^-24 * A + 2^-150)`. -/
theorem sumF32_error (A : ℚ) (hA : 0 ≤ A) (l : List ℚ) (a T : ℚ) (k : Nat)
    (hl : ∀ x ∈ l, |x| ≤ A) (hk : k + l.length ≤ 10)
    (hd : |a - T| ≤ (k : ℚ) ^ 2 * (1 / 2 ^ 24 * A + 1 / 2 ^ 150)) (hT : |T| ≤ (k : ℚ) * A) :
    |sumF32 l a - (T + l.sum)| ≤
      ((k + l.length : Nat) : ℚ) ^ 2 * (1 / 2 ^ 24 * A + 1 / 2 ^ 150) := by
  induction l generalizing a T k with
  | nil => simpa using hd
  | cons x l ih =>
    have hx : |x| ≤ A := hl x (List.mem_cons_self _ _)
    have hk9 : (k : ℚ) ≤ 9 := by
      have : k ≤ 9 := by
        rw [List.length_cons] at hk
        omega
      exact_mod_cast this
    have hk0 : (0 : ℚ) ≤ (k : ℚ) := Nat.cast_nonneg k
    have herr := roundF32_error (a + x)
    have hc : (0 : ℚ) ≤ 1 / 2 ^ 24 * A + 1 / 2 ^ 150 := by positivity
    generalize hcdef : (1 : ℚ) / 2 ^ 24 * A + 1 / 2 ^ 150 = c at hd hc ⊢
    have hT1 : |T + x| ≤ ((k : ℚ) + 1) * A := by
      have := abs_add T x
      linarith
    have hax : |a + x| ≤ (k : ℚ) ^ 2 * c + ((k : ℚ) + 1) * A := by
      have e : a + x = (a - T) + (T + x) := by ring
      rw [e]
      have := abs_add (a - T) (T + x)
      linarith
    have hkc : (0 : ℚ) ≤ (k : ℚ) * c := mul_nonneg hk0 hc
    have hsmall : 1 / 2 ^ 24 * ((k : ℚ) ^ 2 * c) ≤ (k : ℚ) * c := by
      have h1 : (1 : ℚ) / 2 ^ 24 * (k : ℚ) ≤ 1 := by
        have : (1 : ℚ) / 2 ^ 24 * (k : ℚ) ≤ 1 / 2 ^ 24 * 9 :=
          mul_le_mul_of_nonneg_left hk9 (by norm_num)
        have h9 : (1 : ℚ) / 2 ^ 24 * 9 ≤ 1 := by norm_num
        linarith
      have := mul_le_mul_of_nonneg_right h1 hkc
      have e : (1 : ℚ) / 2 ^ 24 * ((k : ℚ) ^ 2 * c) = 1 / 2 ^ 24 * (k : ℚ) * ((k : ℚ) * c) := by
        ring
      rw [e]
      linarith
    have hd1 : |roundF32 (a + x) - (T + x)| ≤ (((k + 1 : Nat) : ℚ)) ^ 2 * c := by
      have e : roundF32 (a + x) - (T + x) = (roundF32 (a + x) - (a + x)) + (a - T) := by ring
      rw [e]
      have h3 := abs_add (roundF32 (a + x) - (a + x)) (a - T)
      have h4 : (1 : ℚ) / 2 ^ 24 * |a + x| ≤
          1 / 2 ^ 24 * ((k : ℚ) ^ 2 * c + ((k : ℚ) + 1) * A) :=
        mul_le_mul_of_nonneg_left hax (by norm_num)
      have heta : (0 : ℚ) ≤ (k : ℚ) * (1 / 2 ^ 150) := by positivity
      push_cast
      rw [← hcdef] at hsmall hkc ⊢
      rw [← hcdef] at hd h4
      nlinarith
    have hT2 : |T + x| ≤ ((k + 1 : Nat) : ℚ) * A := by
      push_cast
      exact hT1
    have hk2 : k + 1 + l.length ≤ 10 := by
      rw [List.length_cons] at hk
      omega
    have := ih (roundF32 (a + x)) (T + x) (k + 1)
      (fun y hy => hl y (List.mem_cons_of_mem _ hy)) hk2
      (by rw [hcdef]; exact hd1) hT2
    rw [sumF32_cons, List.sum_cons, List.length_cons]
    have e1 : T + (x + l.sum) = T + x + l.sum := by ring
    have e2 : k + (l.length + 1) = k + 1 + l.length := by omega
    rw [e1, e2, ← hcdef]
    exact this


theorem abs_le_of_between {x m M : ℚ} (h1 : m ≤ x) (h2 : x ≤ M) : |x| ≤ max |m| |M| := by
  rw [abs_le]
  constructor
  · have := neg_abs_le m
    have := le_max_left |m| |M|
    linarith
  · have := le_abs_self M
    have := le_max_right |m| |M|
    linarith

/-- The float mean of one to ten samples of magnitude at most `A` differs from their
exact mean by at most the rounding slack of `A`. -/
theorem meanF32_error (l : List ℚ) (A : ℚ) (h1 : 1 ≤ l.length) (h10 : l.length ≤ 10)
    (hl : ∀ x ∈ l, |x| ≤ A) : |meanF32 l - mean l| ≤ roundingSlack A := by
  have hA : 0 ≤ A := by
    cases l with
    | nil => simp at h1
    | cons x l => exact le_trans (abs_nonneg x) (hl x (List.mem_cons_self _ _))
  have hn := roundF32_count l.length h1 h10
  have hsum := sumF32_error A hA l 0 0 0 hl (by omega) (by simp) (by simp)
  simp only [zero_add] at hsum
  have hexact : |l.sum| ≤ (l.length : ℚ) * A := by
    have hb := sum_bounds l (-A) A (fun x hx => abs_le.mp (hl x hx))
    rw [abs_le]
    constructor <;> linarith [hb.1, hb.2]
  have hpos : (0 : ℚ) < (l.length : ℚ) := by exact_mod_cast h1
  have hle : (l.length : ℚ) ≤ 10 := by exact_mod_cast h10
  have hc : (0 : ℚ) ≤ 1 / 2 ^ 24 * A + 1 / 2 ^ 150 := by positivity
  unfold meanF32 mean roundingSlack
  rw [hn]
  generalize hcdef : (1 : ℚ) / 2 ^ 24 * A + 1 / 2 ^ 150 = c at hsum hc ⊢
  generalize (l.length : ℚ) = n at hsum hexact hpos hle ⊢
  generalize sumF32 l 0 = S at hsum ⊢
  generalize l.sum = E at hsum hexact ⊢
  have herr := roundF32_error (S / n)
  have hq : |S / n - E / n| ≤ n * c := by
    rw [← sub_div, abs_div, abs_of_pos hpos, div_le_iff₀ hpos]
    have : n ^ 2 * c = n * c * n := by ring
    linarith
  have hm : |E / n| ≤ A := by
    rw [abs_div, abs_of_pos hpos, div_le_iff₀ hpos]
    linarith
  have hSn : |S / n| ≤ A + n * c := by
    have e : S / n = (S / n - E / n) + E / n := by ring
    rw [e]
    have := abs_add (S / n - E / n) (E / n)
    linarith
  have e : roundF32 (S / n) - E / n = (roundF32 (S / n) - S / n) + (S / n - E / n) := by ring
  rw [e]
  have h3 := abs_add (roundF32 (S / n) - S / n) (S / n - E / n)
  have h4 : (1 : ℚ) / 2 ^ 24 * |S / n| ≤ 1 / 2 ^ 24 * (A + n * c) :=
    mul_le_mul_of_nonneg_left hSn (by norm_num)
  have h5 : (1 : ℚ) / 2 ^ 24 * (n * c) ≤ c := by
    have h6 : (1 : ℚ) / 2 ^ 24 * n ≤ 1 := by
      have : (1 : ℚ) / 2 ^ 24 * n ≤ 1 / 2 ^ 24 * 10 := mul_le_mul_of_nonneg_left hle (by norm_num)
      have h9 : (1 : ℚ) / 2 ^ 24 * 10 ≤ 1 := by norm_num
      linarith
    have := mul_le_mul_of_nonneg_right h6 hc
    have e2 : (1 : ℚ) / 2 ^ 24 * (n * c) = 1 / 2 ^ 24 * n * c := by ring
    rw [e2]
    linarith
  have h7 : n * c ≤ 10 * c := mul_le_mul_of_nonneg_right hle hc
  have h8 : (0 : ℚ) ≤ 1 / 2 ^ 150 := by norm_num
  subst hcdef
  linarith

/-! ## The filtered output with rounded float arithmetic -/

theorem sumRecentF32_eq (s : Scale) (q : Fin MAX_SAMPLES → ℚ)
    (hq : ∀ i, s.readings i = Flt.val (q i)) (h : CursorInRange s) (k i : Nat)
    (hik : i + k ≤ 10) (a : ℚ) (v : Int) :
    sumRecentF32 s i k (Flt.val a) v =
      some (Flt.val (sumF32 ((List.range' i k).map fun j => q (recentSlot s.readingIndex j)) a),
        v + k) := by
  induction k generalizing i a v with
  | zero => simp [sumRecentF32, sumF32]
  | succ k ih =>
    unfold sumRecentF32
    rw [readAt_recentIndex s i h (by omega)]
    dsimp only
    rw [hq]
    show sumRecentF32 s (i + 1) k (Flt.val (roundF32 (a + q (recentSlot s.readingIndex i))))
      (v + 1) = _
    rw [ih (i + 1) (by omega)]
    simp only [List.range'_succ, List.map_cons, sumF32_cons, Nat.cast_add, Nat.cast_one]
    congr 2
    ring

/-- The function `averageFilterF32` returns the float mean of the `samples` most recent
samples. -/
theorem averageFilterF32_eq (s : Scale) (q : Fin MAX_SAMPLES → ℚ)
    (hq : ∀ i, s.readings i = Flt.val (q i)) (h : CursorInRange s) (samples : Int)
    (h1 : 1 ≤ samples) (h10 : samples ≤ 10) :
    averageFilterF32 s samples =
      some (Flt.val (meanF32 (recent q s.readingIndex samples.toNat))) := by
  unfold averageFilterF32
  have hc : ¬ samples > (MAX_SAMPLES : Int) := by
    show ¬ samples > 10
    omega
  simp only [if_neg hc]
  rw [sumRecentF32_eq s q hq h samples.toNat 0 (by omega)]
  dsimp only
  have hne : (0 : Int) + (samples.toNat : Int) ≠ 0 := by omega
  have hdiv : ∀ (a : ℚ) (n : Int), Flt.divIntF32 (Flt.val a) n =
      if n = 0 then Flt.nan else Flt.val (roundF32 (a / roundF32 (n : ℚ))) := fun _ _ => rfl
  rw [hdiv, if_neg hne]
  unfold meanF32 recent
  rw [List.length_map, List.length_range, List.range_eq_range']
  congr 5
  push_cast
  ring

/-- An accepted reading goes through the filter part of `getWeightF32`. -/
theorem getWeightF32_accepted (s : Scale) (hw : Sensors) (now : Nat)
    (h : AcceptedF32 s hw now) :
    getWeightF32 s hw now = filterReadingF32 (stamped s now) (rawReadingF32 s hw) now := by
  obtain ⟨hc, hr, hn, hi⟩ := h
  unfold RateLimited at hr
  have h1 : ¬ ((!s.isConnected) = true) := by simp [hc]
  have h2 : ¬ ((!s.samplesInitialized) = true) := by simp [hi]
  unfold getWeightF32
  rw [if_neg h1, if_neg hr]
  dsimp only
  rw [if_neg (by rw [Bool.not_eq_true]; exact hn), if_neg h2]
  rfl

/-- The filter part of `getWeightF32` is the transition step followed by the filter and
the override. -/
theorem filterReadingF32_stamped (s : Scale) (hw : Sensors) (now : Nat) :
    filterReadingF32 (stamped s now) (rawReadingF32 s hw) now =
      match transitionStateF32 s hw now with
      | none => none
      | some s2 =>
        finishRead s2 (rawReadingF32 s hw) (weightChangeF32 s hw) (applyFilterF32 s2) now := by
  unfold filterReadingF32 transitionStateF32
  cases hst : storeReading (stamped s now) (rawReadingF32 s hw) with
  | none => rfl
  | some s1 =>
    have hcw : s1.currentWeight = s.currentWeight := by
      unfold storeReading at hst
      split at hst
      · exact absurd hst (by simp)
      · cases hst; rfl
    simp [weightChangeF32, hcw]

/-- Claim C21 as stated fails. A single scale with `averageSamples = 3` reads `0.11f`
twice.  The first call fills every slot with `0.11f`; the second one, 100 ms later on
the initialised buffer, is accepted, stores `0.11f` again and stays STABLE, so every slot still holds `0.11f = 7381975 / 67108864`,
and returns the float mean `(0.11f + 0.11f + 0.11f) / 3 = 14763949 / 134217728`, which
is below the minimum of the buffer. -/
theorem C21_counterexample :
    roundF32 (11 / 100) = eleven ∧
      tripleStart.medianSamples = 3 ∧ tripleStart.averageSamples = 3 ∧
      outcome tripleFirst =
        some (Flt.val eleven, STABLE, List.replicate MAX_SAMPLES (Flt.val eleven)) ∧
      tripleFirst.map (fun x => (x.2.isConnected, x.2.samplesInitialized, x.2.lastReadTime)) =
        some (true, true, 100) ∧
      tripleFirst.map (fun x => (x.2.medianSamples, x.2.averageSamples, x.2.readingIndex)) =
        some (3, 3, 0) ∧
      ¬ subU32 200 100 < 20 ∧
      outcome tripleSecond =
        some (Flt.val (14763949 / 134217728), STABLE,
          List.replicate MAX_SAMPLES (Flt.val eleven)) ∧
      roundF32 (roundF32 (roundF32 (0 + eleven) + eleven) + eleven) = 5536481 / 16777216 ∧
      roundF32 (5536481 / 16777216 / roundF32 3) = 14763949 / 134217728 ∧
      bufferMin (fun _ => eleven) = eleven ∧
      ¬ bufferMin (fun _ => eleven) ≤ 14763949 / 134217728 := by
  decide!

theorem roundingSlack_nonneg {A : ℚ} (h : 0 ≤ A) : 0 ≤ roundingSlack A := by
  unfold roundingSlack
  positivity

/-- Claim C21, amended. For every accepted reading `r` on an initialised buffer of
numbers with the cursor inside it and `medianSamples`, `averageSamples` in
`1 .. MAX_SAMPLES`, with every float operation rounded to the nearest binary32 float
(no operation overflowing): the reading is stored at the
cursor and `getWeight` returns a number `w`.  With the `> 5 g` override `w` is the
reading itself, and when the median filter runs `w` is one of the slots; in both cases
`w` lies between the minimum and the maximum of the buffer as it stands after the store.
When the average filter runs `w` is the float mean of the `averageSamples` most recent
samples: it is within the rounding slack of their exact mean, which lies between the
minimum and the maximum, and it lies between the float means of the windows uniformly at
the minimum and at the maximum.  In every case `w` is at least the minimum minus the
slack and at most the maximum plus the slack, the slack being
`12 * (2^-24 * max(|min|, |max|) + 2^-150)`. -/
theorem C21_output_bounded_up_to_rounding (s : Scale) (hw : Sensors) (now : Nat)
    (q : Fin MAX_SAMPLES → ℚ) (hacc : AcceptedF32 s hw now) (hidx : CursorInRange s)
    (hq : ∀ i, s.readings i = Flt.val (q i))
    (hmed : 1 ≤ s.medianSamples ∧ s.medianSamples ≤ (MAX_SAMPLES : Int))
    (havg : 1 ≤ s.averageSamples ∧ s.averageSamples ≤ (MAX_SAMPLES : Int)) :
    ∃ (r w : ℚ) (s1 s2 s3 : Scale),
      rawReadingF32 s hw = Flt.val r ∧
      storeReading (stamped s now) (rawReadingF32 s hw) = some s1 ∧
      (∀ i, s1.readings i = Flt.val (storedBuffer q s.readingIndex r i)) ∧
      transitionStateF32 s hw now = some s2 ∧
      getWeightF32 s hw now = some (Flt.val w, s3) ∧
      (Flt.gt (weightChangeF32 s hw) (Flt.val 5) →
        w = r ∧ bufferMin (storedBuffer q s.readingIndex r) ≤ w ∧
          w ≤ bufferMax (storedBuffer q s.readingIndex r)) ∧
      (¬ Flt.gt (weightChangeF32 s hw) (Flt.val 5) → s2.currentFilterState = BREWING →
        (∃ i, w = storedBuffer q s.readingIndex r i) ∧
          bufferMin (storedBuffer q s.readingIndex r) ≤ w ∧
          w ≤ bufferMax (storedBuffer q s.readingIndex r)) ∧
      (¬ Flt.gt (weightChangeF32 s hw) (Flt.val 5) → ¬ s2.currentFilterState = BREWING →
        w = meanF32 (recent (storedBuffer q s.readingIndex r) s2.readingIndex
              s.averageSamples.toNat) ∧
          |w - mean (recent (storedBuffer q s.readingIndex r) s2.readingIndex
              s.averageSamples.toNat)| ≤
            roundingSlack (max |bufferMin (storedBuffer q s.readingIndex r)|
              |bufferMax (storedBuffer q s.readingIndex r)|) ∧
          bufferMin (storedBuffer q s.readingIndex r) ≤
            mean (recent (storedBuffer q s.readingIndex r) s2.readingIndex
              s.averageSamples.toNat) ∧
          mean (recent (storedBuffer q s.readingIndex r) s2.readingIndex
              s.averageSamples.toNat) ≤ bufferMax (storedBuffer q s.readingIndex r) ∧
          meanF32 (List.replicate s.averageSamples.toNat
              (bufferMin (storedBuffer q s.readingIndex r))) ≤ w ∧
          w ≤ meanF32 (List.replicate s.averageSamples.toNat
              (bufferMax (storedBuffer q s.readingIndex r)))) ∧
      bufferMin (storedBuffer q s.readingIndex r) -
          roundingSlack (max |bufferMin (storedBuffer q s.readingIndex r)|
            |bufferMax (storedBuffer q s.readingIndex r)|) ≤ w ∧
      w ≤ bufferMax (storedBuffer q s.readingIndex r) +
          roundingSlack (max |bufferMin (storedBuffer q s.readingIndex r)|
            |bufferMax (storedBuffer q s.readingIndex r)|) ∧
      (∀ i, bufferMin (storedBuffer q s.readingIndex r) ≤ storedBuffer q s.readingIndex r i ∧
        storedBuffer q s.readingIndex r i ≤ bufferMax (storedBuffer q s.readingIndex r)) ∧
      (∃ i, bufferMin (storedBuffer q s.readingIndex r) = storedBuffer q s.readingIndex r i) ∧
      ∃ j, bufferMax (storedBuffer q s.readingIndex r) = storedBuffer q s.readingIndex r j := by
  obtain ⟨r, hr⟩ := Flt.isNaN_eq_false.mp hacc.2.2.1
  obtain ⟨s1, hst, hupd, hcur, -, -, -, -, -, hms, has⟩ :=
    storeReading_of_inRange (stamped s now) (rawReadingF32 s hw) hidx
  have hts : transitionStateF32 s hw now =
      some (detectBrewing s1 (weightChangeF32 s hw) now) := by
    unfold transitionStateF32
    rw [hst]
  obtain ⟨-, -, -, hrd, hri, -, hm2, ha2, -⟩ :=
    detectBrewing_frame s1 (weightChangeF32 s hw) now
  generalize detectBrewing s1 (weightChangeF32 s hw) now = s2 at hts hrd hri hm2 ha2
  obtain ⟨B, hB⟩ : ∃ B, B = storedBuffer q s.readingIndex r := ⟨_, rfl⟩
  obtain ⟨hall, hmin, hmax⟩ := bufferMin_bufferMax B
  have hstored : ∀ i, s1.readings i = Flt.val (B i) := by
    intro i
    rw [hupd i, hr, hB]
    unfold storedBuffer
    show (if (i.val : Int) = s.readingIndex then Flt.val r else s.readings i) = _
    split
    · rfl
    · exact hq i
  have hq2 : ∀ i, s2.readings i = Flt.val (B i) := by
    intro i
    rw [hrd]
    exact hstored i
  have hri2 : s2.readingIndex = Int.tmod (s.readingIndex + 1) 10 := by
    rw [hri, hcur]
    rfl
  have hidx2 : CursorInRange s2 := by
    unfold CursorInRange
    rw [hri2]
    exact cursorInRange_tmod s.readingIndex hidx
  have hmeq : s2.medianSamples = s.medianSamples := by
    rw [hm2, hms]
    rfl
  have haeq : s2.averageSamples = s.averageSamples := by
    rw [ha2, has]
    rfl
  have hgw : getWeightF32 s hw now =
      finishRead s2 (rawReadingF32 s hw) (weightChangeF32 s hw) (applyFilterF32 s2) now := by
    rw [getWeightF32_accepted s hw now hacc, filterReadingF32_stamped, hts]
  have hslack : 0 ≤ roundingSlack (max |bufferMin B| |bufferMax B|) :=
    roundingSlack_nonneg (le_trans (abs_nonneg _) (le_max_left _ _))
  have hslot : ∃ i, B i = r := by
    unfold CursorInRange at hidx
    refine ⟨⟨s.readingIndex.toNat, by show _ < 10; omega⟩, ?_⟩
    rw [hB]
    unfold storedBuffer
    rw [if_pos (by show ((s.readingIndex.toNat : Nat) : Int) = s.readingIndex; omega)]
  by_cases hgt : Flt.gt (weightChangeF32 s hw) (Flt.val 5)
  · obtain ⟨s3, hfin, -⟩ :=
      finishRead_override s2 (rawReadingF32 s hw) (weightChangeF32 s hw) (applyFilterF32 s2)
        now hgt
    rw [hfin, hr] at hgw
    obtain ⟨i, hi⟩ := hslot
    have hb := hall i
    rw [hi] at hb
    subst hB
    exact ⟨r, r, s1, s2, s3, hr, hst, hstored, hts, hgw, fun _ => ⟨rfl, hb.1, hb.2⟩,
      fun h => absurd hgt h, fun h => absurd hgt h, by linarith, by linarith, hall, hmin,
      hmax⟩
  · by_cases hstate : s2.currentFilterState = BREWING
    · have haf : applyFilterF32 s2 = medianFilter s2 s2.medianSamples := by
        unfold applyFilterF32
        rw [hstate]
      have hmedian := medianFilter_eq_median s2 B hq2 hidx2 s2.medianSamples
        (by rw [hmeq]; exact hmed.1) (by rw [hmeq]; exact hmed.2)
      rw [haf, hmedian, finishRead_filtered _ _ _ _ _ hgt] at hgw
      have hne : recent B s2.readingIndex s2.medianSamples.toNat ≠ [] := by
        intro hnil
        have hl := length_recent B s2.readingIndex s2.medianSamples.toNat
        rw [hnil] at hl
        simp only [List.length_nil] at hl
        have := hmed.1
        rw [hmeq] at hl
        omega
      have hmem := (median_isMedian _ hne).1
      have hb := recent_bounds B s2.readingIndex s2.medianSamples.toNat _ hmem
      have hex : ∃ i, median (recent B s2.readingIndex s2.medianSamples.toNat) = B i := by
        unfold recent at hmem
        obtain ⟨i, -, hi⟩ := List.mem_map.mp hmem
        exact ⟨_, hi.symm⟩
      subst hB
      exact ⟨r, _, s1, s2, _, hr, hst, hstored, hts, hgw, fun h => absurd h hgt,
        fun _ _ => ⟨hex, hb.1, hb.2⟩, fun _ h => absurd hstate h, by linarith [hb.1],
        by linarith [hb.2], hall, hmin, hmax⟩
    · have haf : applyFilterF32 s2 = averageFilterF32 s2 s2.averageSamples := by
        unfold applyFilterF32
        cases hc : s2.currentFilterState with
        | BREWING => exact absurd hc hstate
        | STABLE => rfl
        | TRANSITIONING => rfl
      have hmean := averageFilterF32_eq s2 B hq2 hidx2 s2.averageSamples
        (by rw [haeq]; exact havg.1) (by rw [haeq]; exact havg.2)
      rw [haf, hmean, finishRead_filtered _ _ _ _ _ hgt, haeq] at hgw
      have hn1 : 1 ≤ s.averageSamples.toNat := by
        have := havg.1
        omega
      have hn10 : s.averageSamples.toNat ≤ 10 := by
        have : s.averageSamples ≤ 10 := havg.2
        omega
      have hlen := length_recent B s2.readingIndex s.averageSamples.toNat
      have hne : recent B s2.readingIndex s.averageSamples.toNat ≠ [] := by
        intro hnil
        rw [hnil] at hlen
        simp only [List.length_nil] at hlen
        omega
      have hb := recent_bounds B s2.readingIndex s.averageSamples.toNat
      have hexact := mean_bounds _ _ _ hne hb
      have herr := meanF32_error (recent B s2.readingIndex s.averageSamples.toNat)
        (max |bufferMin B| |bufferMax B|) (by rw [hlen]; exact hn1) (by rw [hlen]; exact hn10)
        (fun x hx => abs_le_of_between (hb x hx).1 (hb x hx).2)
      have hsand := meanF32_sandwich (recent B s2.readingIndex s.averageSamples.toNat)
        (bufferMin B) (bufferMax B) (by rw [hlen]; exact hn1) (by rw [hlen]; exact hn10) hb
      rw [hlen] at hsand
      have herr2 := abs_le.mp herr
      subst hB
      exact ⟨r, _, s1, s2, _, hr, hst, hstored, hts, hgw, fun h => absurd h hgt,
        fun _ h => absurd h hstate, fun _ _ => ⟨rfl, herr, hexact.1, hexact.2, hsand.1,
          hsand.2⟩, by linarith [herr2.1, hexact.1], by linarith [herr2.2, hexact.2], hall,
        hmin, hmax⟩

theorem C21_witness :
    tripleFirst = some (Flt.val eleven, tripleFilled) ∧
      AcceptedF32 tripleFilled (singleUnits eleven) 200 ∧ CursorInRange tripleFilled ∧
      (∀ i, tripleFilled.readings i = Flt.val eleven) ∧
      (∃ (r w : ℚ) (s3 : Scale),
        rawReadingF32 tripleFilled (singleUnits eleven) = Flt.val r ∧
        getWeightF32 tripleFilled (singleUnits eleven) 200 = some (Flt.val w, s3) ∧
        bufferMin (storedBuffer (fun _ => eleven) tripleFilled.readingIndex r) -
            roundingSlack (max |bufferMin (storedBuffer (fun _ => eleven)
                tripleFilled.readingIndex r)|
              |bufferMax (storedBuffer (fun _ => eleven) tripleFilled.readingIndex r)|) ≤ w ∧
        w ≤ bufferMax (storedBuffer (fun _ => eleven) tripleFilled.readingIndex r) +
            roundingSlack (max |bufferMin (storedBuffer (fun _ => eleven)
                tripleFilled.readingIndex r)|
              |bufferMax (storedBuffer (fun _ => eleven) tripleFilled.readingIndex r)|)) ∧
      outcome (getWeightF32 tripleFilled (singleUnits eleven) 200) =
        some (Flt.val (14763949 / 134217728), STABLE,
          List.replicate MAX_SAMPLES (Flt.val eleven)) ∧
      eleven - roundingSlack eleven ≤ 14763949 / 134217728 ∧
      (14763949 / 134217728 : ℚ) ≤ eleven + roundingSlack eleven := by
  have hidx : CursorInRange tripleFilled := by unfold CursorInRange; decide
  have hacc : AcceptedF32 tripleFilled (singleUnits eleven) 200 := by
    unfold AcceptedF32 RateLimited
    decide!
  obtain ⟨r, w, -, -, s3, hr, -, -, -, hget, -, -, -, hlo, hhi, -⟩ :=
    C21_output_bounded_up_to_rounding tripleFilled (singleUnits eleven) 200 (fun _ => eleven)
      hacc hidx (fun _ => rfl) (by decide) (by decide)
  exact ⟨by decide!, hacc, hidx, fun _ => rfl, ⟨r, w, s3, hr, hget, hlo, hhi⟩, by decide!,
    by decide!, by decide!⟩

/-! ## Large changes and the brewing threshold -/

theorem Flt.gt_of_gt_of_le (d t : Flt) (c : ℚ) (hd : Flt.gt d (Flt.val c))
    (ht : Flt.le t (Flt.val c)) : Flt.gt d t := by
  cases d with
  | nan => exact absurd hd (Flt.gt_nan_left _)
  | val x =>
    cases t with
    | nan => exact absurd ht (Flt.le_nan_left _)
    | val y =>
      rw [Flt.gt_val] at hd ⊢
      rw [Flt.le_val] at ht
      exact lt_of_le_of_lt ht hd

/-- A change above the threshold leaves the brewing detection in BREWING with
`lastBrewingActivity` the time of the call, from every state. -/
theorem detectBrewing_active (s : Scale) (d : Flt) (t : Nat)
    (h : Flt.gt d s.brewingThreshold) :
    (detectBrewing s d t).currentFilterState = BREWING ∧
      (detectBrewing s d t).lastBrewingActivity = t := by
  unfold detectBrewing
  cases hs : s.currentFilterState with
  | STABLE =>
    dsimp only
    rw [if_pos h]
    exact ⟨rfl, rfl⟩
  | BREWING =>
    dsimp only
    rw [if_pos h]
    exact ⟨rfl, rfl⟩
  | TRANSITIONING =>
    dsimp only
    rw [if_pos h]
    exact ⟨rfl, rfl⟩

/-- Claim C22. Let `brewingThreshold <= 5.0`.  For every accepted reading whose change
exceeds 5 g, whatever the state before it: the detection step already leaves the state
BREWING with `lastBrewingActivity = now`, so the test `currentFilterState == STABLE` of
the override is false and the override only refills the buffer and sets the weight; the
call returns the reading and ends in state BREWING with `lastBrewingActivity = now`.
Every threshold that `setBrewingThreshold` accepts is at most 5.0, and the setter keeps
a threshold that is at most 5.0 so. -/
theorem C22_large_change_forces_brewing :
    (∀ (s : Scale) (hw : Sensors) (now : Nat), Accepted s hw now → CursorInRange s →
      Flt.le s.brewingThreshold (Flt.val 5) → Flt.gt (weightChange s hw) (Flt.val 5) →
      ∃ s2 s3, transitionState s hw now = some s2 ∧
        s2.currentFilterState = BREWING ∧ s2.lastBrewingActivity = now ∧
        ¬ s2.currentFilterState = STABLE ∧
        getWeight s hw now = some (rawReading s hw, s3) ∧
        s3 = { initializeSamples s2 (rawReading s hw) with currentWeight := rawReading s hw } ∧
        s3.currentFilterState = BREWING ∧ s3.lastBrewingActivity = now) ∧
    (∀ (s : Scale) (p : Prefs) (threshold : Flt),
      (Flt.ge threshold (Flt.val (5 / 100)) ∧ Flt.le threshold (Flt.val 1) →
        (setBrewingThreshold s p threshold).1.brewingThreshold = threshold ∧
          Flt.le threshold (Flt.val 5)) ∧
      (Flt.le s.brewingThreshold (Flt.val 5) →
        Flt.le (setBrewingThreshold s p threshold).1.brewingThreshold (Flt.val 5))) := by
  refine ⟨?_, ?_⟩
  · intro s hw now hacc hidx hthr hgt
    obtain ⟨s1, hts, -, hthr1, -⟩ := transitionState_of_inRange s hw now hidx
    have hact : Flt.gt (weightChange s hw) s1.brewingThreshold := by
      rw [hthr1]
      exact Flt.gt_of_gt_of_le _ _ 5 hgt hthr
    obtain ⟨hstate, hlast⟩ := detectBrewing_active s1 (weightChange s hw) now hact
    generalize detectBrewing s1 (weightChange s hw) now = s2 at hts hstate hlast
    have hns : ¬ s2.currentFilterState = STABLE := by
      rw [hstate]
      decide
    have hfin : finishRead s2 (rawReading s hw) (weightChange s hw) (applyFilter s2) now =
        some (rawReading s hw,
          { initializeSamples s2 (rawReading s hw) with currentWeight := rawReading s hw }) := by
      unfold finishRead
      rw [if_pos hgt]
      dsimp only
      rw [if_neg (by exact hns)]
    refine ⟨s2, _, hts, hstate, hlast, hns, ?_, rfl, hstate, hlast⟩
    rw [getWeight_accepted s hw now hacc, filterReading_stamped, hts]
    exact hfin
  · intro s p threshold
    have h1 : Flt.le threshold (Flt.val 1) → Flt.le threshold (Flt.val 5) := by
      intro h
      cases threshold with
      | nan => exact absurd h (Flt.le_nan_left _)
      | val y =>
        rw [Flt.le_val] at h ⊢
        exact le_trans h (by norm_num)
    refine ⟨?_, ?_⟩
    · intro hok
      unfold setBrewingThreshold
      rw [if_pos hok]
      exact ⟨rfl, h1 hok.2⟩
    · intro hs
      unfold setBrewingThreshold
      split
      · rename_i hok
        exact h1 hok.2
      · exact hs

theorem C22_witness :
    Accepted stableZero (singleUnits 10) 200 ∧ CursorInRange stableZero ∧
      Flt.le stableZero.brewingThreshold (Flt.val 5) ∧
      Flt.gt (weightChange stableZero (singleUnits 10)) (Flt.val 5) ∧
      (∃ s2 s3, transitionState stableZero (singleUnits 10) 200 = some s2 ∧
        s2.currentFilterState = BREWING ∧ s2.lastBrewingActivity = 200 ∧
        getWeight stableZero (singleUnits 10) 200 = some (Flt.val 10, s3) ∧
        s3.currentFilterState = BREWING ∧ s3.lastBrewingActivity = 200) ∧
      (setBrewingThreshold stableZero [] (Flt.val (1 / 2))).1.brewingThreshold =
        Flt.val (1 / 2) ∧
      Flt.le (Flt.val (1 / 2)) (Flt.val 5) := by
  have hidx : CursorInRange stableZero := by unfold CursorInRange; decide
  have hacc : Accepted stableZero (singleUnits 10) 200 := by
    unfold Accepted RateLimited
    decide!
  have hthr : Flt.le stableZero.brewingThreshold (Flt.val 5) := by decide!
  have hgt : Flt.gt (weightChange stableZero (singleUnits 10)) (Flt.val 5) := by decide!
  have hraw : rawReading stableZero (singleUnits 10) = Flt.val 10 := by decide!
  obtain ⟨s2, s3, hts, h2, h2t, -, hget, -, h3, h3t⟩ :=
    C22_large_change_forces_brewing.1 stableZero (singleUnits 10) 200 hacc hidx hthr hgt
  have hset := (C22_large_change_forces_brewing.2 stableZero [] (Flt.val (1 / 2))).1
    (by decide!)
  rw [hraw] at hget
  exact ⟨hacc, hidx, hthr, hgt, ⟨s2, s3, hts, h2, h2t, hget, h3, h3t⟩, hset.1, hset.2⟩

end Scale2
